import Mathlib

/-!
# Verification development for the AMReX runtime substrate

Shallow embedding of

* `Src/AmrTask/rts_impls/Utils/sysInfo.H`      (`NodeHardware`),
* `Src/AmrTask/rts_impls/upcxx/PackageQueue.H` (`Package`, `PackageQueue`),
* `Src/Base/AMReX_GpuDevice.H`                 (`Gpu::Device`),
* `Src/Base/AMReX_Array.H`                     (`Array2D`, `Array3D`),
* `Src/EB/AMReX_EB2_GeometryShop.H`            (`BrentRootFinder`, `getBoxType`).

C++ `int` values are embedded as `Int`.  The embedding describes every
evaluation that C++ defines: signed overflow is undefined behaviour, so an
arithmetic result is the mathematical one whenever the program has a meaning.
C++ `/` on `int` truncates toward zero and is embedded as `Int.tdiv`; `%` is
only applied to non-negative cursors and a positive capacity, where it agrees
with Lean's `%`.

The headers `PackageQueue.H` and `AMReX_GpuDevice.H` only *declare* the member
functions of `Package`, `PackageQueue` and `Device::setStreamIndex`; their
bodies live in translation units that are not part of the sources at hand.
Those bodies are modelled from the specification and every such definition
says so in its doc comment.  The data layout (field names and types) is the
one of the headers.

`Real` values are embedded in a linear ordered field, that is in exact
arithmetic, except where a statement depends on what the machine does: the
bracket test of `BrentRootFinder` has a second embedding with the product
rounded to `double`, and the samples of `getBoxType` may be NaN.
-/

/-! ## sysInfo.H : `NodeHardware` -/

/-- The struct `NodeHardware` of `sysInfo.H`: three counts and three strides. -/
structure NodeHardware where
  thread_per_core : Int
  core_per_numa : Int
  numa_per_node : Int
  thread_stride : Int
  core_stride : Int
  numa_stride : Int
deriving DecidableEq, Repr

namespace NodeHardware

/-- Source: `int thread_per_numa() const { return thread_per_core*core_per_numa; }` -/
def thread_per_numa (hw : NodeHardware) : Int :=
  hw.thread_per_core * hw.core_per_numa

/-- Source: `int thread_per_node() const { return thread_per_core*core_per_numa*numa_per_node; }` -/
def thread_per_node (hw : NodeHardware) : Int :=
  hw.thread_per_core * hw.core_per_numa * hw.numa_per_node

/-- Source: `int core_per_node() const { return core_per_numa*numa_per_node; }` -/
def core_per_node (hw : NodeHardware) : Int :=
  hw.core_per_numa * hw.numa_per_node

/-- Source: `int numa_of_core(int core) const { return core/core_per_numa; }` -/
def numa_of_core (hw : NodeHardware) (core : Int) : Int :=
  Int.tdiv core hw.core_per_numa

/-- Source: `int numa_of_thread(int thread) const { return thread/(thread_per_core*core_per_numa); }` -/
def numa_of_thread (hw : NodeHardware) (thread : Int) : Int :=
  Int.tdiv thread (hw.thread_per_core * hw.core_per_numa)

/-- Source: `int core_of_thread(int thread) const { return thread/thread_per_core; }` -/
def core_of_thread (hw : NodeHardware) (thread : Int) : Int :=
  Int.tdiv thread hw.thread_per_core

/-- Source: `int cpuid_of(int thread, int core, int numa) const
     { return thread*thread_stride + core*core_stride + numa*numa_stride; }` -/
def cpuid_of (hw : NodeHardware) (thread core numa : Int) : Int :=
  thread * hw.thread_stride + core * hw.core_stride + numa * hw.numa_stride

/-- Three index dimensions, given fastest first as (count, stride) pairs, do
not overlap: the fastest stride is positive and each slower stride is at least
the extent `count * stride` of the dimension below it. -/
def Separated (n1 s1 n2 s2 s3 : Int) : Prop :=
  1 ≤ s1 ∧ n1 * s1 ≤ s2 ∧ n2 * s2 ≤ s3

instance (n1 s1 n2 s2 s3 : Int) : Decidable (Separated n1 s1 n2 s2 s3) := by
  unfold Separated; infer_instance

/-- The strides of `hw` describe a non-overlapping layout in one of the six
possible dimension orders ("cpuid indexing dimension order" in the header). -/
def StridesSeparated (hw : NodeHardware) : Prop :=
  Separated hw.thread_per_core hw.thread_stride hw.core_per_numa hw.core_stride hw.numa_stride ∨
  Separated hw.thread_per_core hw.thread_stride hw.numa_per_node hw.numa_stride hw.core_stride ∨
  Separated hw.core_per_numa hw.core_stride hw.thread_per_core hw.thread_stride hw.numa_stride ∨
  Separated hw.core_per_numa hw.core_stride hw.numa_per_node hw.numa_stride hw.thread_stride ∨
  Separated hw.numa_per_node hw.numa_stride hw.thread_per_core hw.thread_stride hw.core_stride ∨
  Separated hw.numa_per_node hw.numa_stride hw.core_per_numa hw.core_stride hw.thread_stride

instance (hw : NodeHardware) : Decidable (StridesSeparated hw) := by
  unfold StridesSeparated; infer_instance

end NodeHardware

/-! ## PackageQueue.H : `Package` -/

/-- The data members of class `Package`.  `databuf` (a `upcxx::global_ptr`) and
`request` (a `CommRequest*`) are handles, `none` standing for the null handle.
The mutex `packageLock` carries no sequential state: every member function
that takes it releases it before returning. -/
structure Package where
  source : Int
  destination : Int
  databuf : Option Nat
  bufSize : Int
  completed : Bool
  served : Bool
  request : Option Nat
  tag : Int
deriving DecidableEq, Repr

namespace Package

/-- Modelled from the spec: the body of `void Package::completeRequest(void)`,
which the header only declares.  Spec 4.2, `markComplete()`, locking variant:
"guarantee `completed == true` afterward". -/
def completeRequest (p : Package) : Package :=
  { p with completed := true }

/-- Modelled from the spec: the body of
`void Package::completeRequest(bool canAvoidLock)`, which the header only
declares.  Spec 4.2: the lock-free variant differs from the locking one only
in whether `packageLock` is taken; both "guarantee `completed == true`
afterward". -/
def completeRequest_canAvoidLock (p : Package) (canAvoidLock : Bool) : Package :=
  if canAvoidLock then { p with completed := true }
  else completeRequest p

end Package

/-! ## PackageQueue.H : `PackageQueue` -/

/-- The two recoverable queue conditions of spec section 7. -/
inductive QueueError where
  | QueueFull
  | QueueEmpty
deriving DecidableEq, Repr

/-- What a call on a `PackageQueue` hands back to its caller. -/
inductive Outcome (P : Type) where
  /-- a `void` member function returned normally -/
  | done
  /-- a `Package*` was returned -/
  | pkg (p : P)
  /-- an `int` was returned -/
  | size (k : Int)
  /-- the call destroyed these packages, in this order -/
  | destroyed (ps : List P)
  /-- the call failed -/
  | fail (e : QueueError)
deriving DecidableEq, Repr

/-- The data members of class `PackageQueue`; `P` is the type of the
`Package*` values held in the backing array
`Package *buffer[perilla::MSG_QUEUE_DEFAULT_MAXSIZE]`.  The constant
`perilla::MSG_QUEUE_DEFAULT_MAXSIZE` comes from `PerillaConfig.H`, which is not
among the sources; it is the parameter `cap` of `PackageQueue.new`. -/
structure PackageQueue (P : Type) where
  buffer : List P
  n : Int
  front : Int
  rear : Int
  prear : Int
  max_size : Int
deriving DecidableEq, Repr

namespace PackageQueue

variable {P : Type} [Inhabited P]

/-- Modelled from the spec: the constructor `PackageQueue::PackageQueue()`,
which the header only declares.  Spec 3: the backing array has the compile-time
capacity, the queue starts empty; all cursors start at zero, the state
`drain()` resets them to.  Unwritten slots hold the null pointer `default`. -/
def new (cap : Nat) : PackageQueue P :=
  { buffer := List.replicate cap default
    n := 0
    front := 0
    rear := 0
    prear := 0
    max_size := cap }

/-- The slot of the backing array that an `int` cursor addresses. -/
def slot (q : PackageQueue P) (i : Int) : P :=
  q.buffer.getD i.toNat default

/-- The queued packages, oldest first: the `n` slots from `front` on, modulo
the capacity. -/
def contents (q : PackageQueue P) : List P :=
  (List.range q.n.toNat).map fun (i : Nat) => q.slot ((q.front + (i : Int)) % q.max_size)

/-- Modelled from the spec: the body of `int PackageQueue::queueSize(void)`,
which the header only declares.  Spec 4.3: "`size() → int` — current
occupancy". -/
def queueSize (q : PackageQueue P) : Outcome P × PackageQueue P :=
  (.size q.n, q)

/-- Modelled from the spec: the body of
`void PackageQueue::enqueue(Package* package)`, which the header only declares.
Spec 4.3: "fails with `QueueFull` if `count == capacity` ... On success,
ownership of `unit` passes to the queue, `rear` advances by one modulo
capacity, `count` increments."  The package is written to the slot `rear`
addressed before it advances; the reserved-rear cursor `prear` records that
claimed slot. -/
def enqueue (q : PackageQueue P) (package : P) : Outcome P × PackageQueue P :=
  if q.n = q.max_size then (.fail .QueueFull, q)
  else
    (.done,
     { q with
       buffer := q.buffer.set q.rear.toNat package
       prear := q.rear
       rear := (q.rear + 1) % q.max_size
       n := q.n + 1 })

/-- Modelled from the spec: the body of `Package* PackageQueue::dequeue(void)`,
which the header only declares.  Spec 4.3: "fails with `QueueEmpty` if
`count == 0`.  On success, returns ownership of the unit at `front`, advances
`front` by one modulo capacity, decrements `count`." -/
def dequeue (q : PackageQueue P) : Outcome P × PackageQueue P :=
  if q.n = 0 then (.fail .QueueEmpty, q)
  else
    (.pkg (q.slot q.front),
     { q with
       front := (q.front + 1) % q.max_size
       n := q.n - 1 })

/-- Modelled from the spec: the body of `Package* PackageQueue::getFront(void)`,
which the header only declares.  Spec 4.3, `peekFront()`: "return a non-owning
view of the oldest ... unit without mutating the queue; fail the same way as
dequeue ... on empty ... states". -/
def getFront (q : PackageQueue P) : Outcome P × PackageQueue P :=
  if q.n = 0 then (.fail .QueueEmpty, q)
  else (.pkg (q.slot q.front), q)

/-- Modelled from the spec: the body of `Package* PackageQueue::getRear(void)`,
which the header only declares.  Spec 4.3, `peekRear()`: "return a non-owning
view of the ... newest unit without mutating the queue ... (peekRear is only
meaningful when `count > 0`)".  The newest unit sits in the slot `prear`
claimed by the last enqueue. -/
def getRear (q : PackageQueue P) : Outcome P × PackageQueue P :=
  if q.n = 0 then (.fail .QueueEmpty, q)
  else (.pkg (q.slot q.prear), q)

/-- Modelled from the spec: the body of
`void PackageQueue::emptyQueue(bool canAvoidLock)`, which the header only
declares.  Spec 4.3, `drain()`: "removes and destroys every remaining unit,
resetting cursors to zero". -/
def emptyQueue (q : PackageQueue P) : Outcome P × PackageQueue P :=
  (.destroyed q.contents,
   { q with n := 0, front := 0, rear := 0, prear := 0 })

/-- One call on a queue. -/
inductive Op (P : Type) where
  | enqueue (package : P)
  | dequeue
  | getFront
  | getRear
  | queueSize
  | emptyQueue
deriving DecidableEq, Repr

/-- Perform one call. -/
def step (q : PackageQueue P) : Op P → Outcome P × PackageQueue P
  | .enqueue package => q.enqueue package
  | .dequeue => q.dequeue
  | .getFront => q.getFront
  | .getRear => q.getRear
  | .queueSize => q.queueSize
  | .emptyQueue => q.emptyQueue

/-- Perform a sequence of calls, collecting what each one hands back. -/
def run (q : PackageQueue P) : List (Op P) → List (Outcome P) × PackageQueue P
  | [] => ([], q)
  | op :: ops => ((q.step op).1 :: ((q.step op).2.run ops).1, ((q.step op).2.run ops).2)

/-- The ring buffer `q`, of capacity `cap`, represents the list `l`: the
cursors are in range, `rear` is `front + n` modulo the capacity, `prear` is the
slot of the newest package, and the `n` slots from `front` on read `l`. -/
structure Refines (cap : Nat) (q : PackageQueue P) (l : List P) : Prop where
  hmax : q.max_size = cap
  hlen : q.buffer.length = cap
  hfront0 : 0 ≤ q.front
  hfront : q.front < q.max_size
  hn : q.n = l.length
  hle : q.n ≤ q.max_size
  hrear : q.rear = (q.front + q.n) % q.max_size
  hprear : 0 < q.n → q.prear = (q.front + q.n - 1) % q.max_size
  hcont : q.contents = l

end PackageQueue

/-! ## The abstract bounded FIFO of the specification -/

namespace BoundedFifo

variable {P : Type}

/-- The bounded FIFO as the specification words it (sections 3 and 4.3): a
list of units, oldest first, of length at most `cap`.  `enqueue` fails with
`QueueFull` on a full list and appends otherwise; `dequeue` fails with
`QueueEmpty` on the empty list and removes the head otherwise; the peeks read
the head and the last element; `size` is the length; `drain` destroys every
unit. -/
def step (cap : Nat) (l : List P) : PackageQueue.Op P → Outcome P × List P
  | .enqueue package =>
      if l.length = cap then (.fail .QueueFull, l) else (.done, l ++ [package])
  | .dequeue =>
      match l with
      | [] => (.fail .QueueEmpty, [])
      | p :: t => (.pkg p, t)
  | .getFront =>
      match l with
      | [] => (.fail .QueueEmpty, [])
      | p :: t => (.pkg p, p :: t)
  | .getRear =>
      match l.getLast? with
      | none => (.fail .QueueEmpty, l)
      | some p => (.pkg p, l)
  | .queueSize => (.size l.length, l)
  | .emptyQueue => (.destroyed l, [])

/-- A sequence of calls on the abstract FIFO. -/
def run (cap : Nat) (l : List P) : List (PackageQueue.Op P) → List (Outcome P) × List P
  | [] => ([], l)
  | op :: ops =>
      ((step cap l op).1 :: (run cap (step cap l op).2 ops).1,
       (run cap (step cap l op).2 ops).2)

end BoundedFifo

/-- The capacity-4 scenario of spec section 8. -/
def scenarioOps : List (PackageQueue.Op Nat) :=
  [.enqueue 1, .enqueue 2, .enqueue 3, .enqueue 4, .enqueue 5, .dequeue, .enqueue 5,
   .dequeue, .dequeue, .dequeue, .dequeue, .dequeue]

/-! ## AMReX_GpuDevice.H : `Gpu::Device` -/

namespace Gpu

/-- A stream handle, `gpuStream_t`. -/
abbrev gpuStream_t := Nat

/-- A failure of the device layer (spec section 7, `DeviceError`). -/
inductive DeviceError where
  | StreamIndexOutOfRange
deriving DecidableEq, Repr

/-- Source: `static constexpr int max_gpu_streams`: `4` when `AMREX_USE_GPU` is
defined and `1` otherwise. -/
def max_gpu_streams (AMREX_USE_GPU : Bool) : Int :=
  if AMREX_USE_GPU then 4 else 1

/-- The stream members of class `Device`:
`std::array<gpuStream_t,max_gpu_streams> gpu_streams`, `gpu_default_stream`
and the current stream `gpu_stream`. -/
structure Device where
  gpu_streams : List gpuStream_t
  gpu_default_stream : gpuStream_t
  gpu_stream : gpuStream_t
deriving DecidableEq, Repr

namespace Device

/-- Source: `static int numGpuStreams () noexcept { return max_gpu_streams; }` -/
def numGpuStreams (AMREX_USE_GPU : Bool) : Int :=
  max_gpu_streams AMREX_USE_GPU

/-- Source: `static gpuStream_t gpuStream () noexcept { return gpu_stream; }` -/
def gpuStream (d : Device) : gpuStream_t :=
  d.gpu_stream

/-- Source: `static gpuStream_t nullStream () noexcept { return gpu_default_stream; }` -/
def nullStream (d : Device) : gpuStream_t :=
  d.gpu_default_stream

/-- Modelled from the spec: the body of
`static void Device::setStreamIndex (const int idx) noexcept`, which the header
only declares.  Spec 4.4: "set or clear the calling thread's current-stream
binding"; spec 8: binding an out-of-range index "must fail deterministically
rather than silently aliasing to an existing stream".  A negative index clears
the binding, as the header's `resetStreamIndex` passes `-1`; a cleared binding
is the default stream. -/
def setStreamIndex (AMREX_USE_GPU : Bool) (d : Device) (idx : Int) :
    Except DeviceError Device :=
  if idx < 0 then .ok { d with gpu_stream := d.gpu_default_stream }
  else if idx < numGpuStreams AMREX_USE_GPU then
    .ok { d with gpu_stream := d.gpu_streams.getD idx.toNat d.gpu_default_stream }
  else .error .StreamIndexOutOfRange

/-- Source: `static void resetStreamIndex () noexcept { setStreamIndex(-1); }` -/
def resetStreamIndex (AMREX_USE_GPU : Bool) (d : Device) : Except DeviceError Device :=
  setStreamIndex AMREX_USE_GPU d (-1)

end Device

end Gpu

/-! ## Concrete inputs used by the witnesses -/

/-- A node whose three strides are all `1`: distinct index triples collide. -/
def overlappingNode : NodeHardware :=
  { thread_per_core := 2, core_per_numa := 2, numa_per_node := 1
    thread_stride := 1, core_stride := 1, numa_stride := 1 }

/-- A node with the dense layout, threads fastest: 2 threads per core, 4 cores
per domain, 2 domains. -/
def denseNode : NodeHardware :=
  { thread_per_core := 2, core_per_numa := 4, numa_per_node := 2
    thread_stride := 1, core_stride := 2, numa_stride := 8 }

/-- A full queue of capacity 2. -/
def fullQueue : PackageQueue Nat :=
  ((PackageQueue.new 2).run [.enqueue 7, .enqueue 8]).2

/-- A device with a pool of four streams, bound to stream 2. -/
def fourStreams : Gpu.Device :=
  { gpu_streams := [11, 12, 13, 14], gpu_default_stream := 0, gpu_stream := 13 }

/-! ## Threads and the static members of `Gpu::Device` -/

namespace Gpu

/-- A thread of the process. -/
abbrev ThreadId := Nat

namespace Device

/-- The call `Device::gpuStream()` made by thread `t`.  The header declares
`static gpuStream_t gpu_stream;` with neither `thread_local` nor a
`threadprivate` directive in the class, so the member exists once per process
and the calling thread does not select the storage that is read. -/
def gpuStreamOn (_t : ThreadId) (d : Device) : gpuStream_t :=
  d.gpuStream

/-- The call `Device::setStreamIndex(idx)` made by thread `t`; it writes the one
static member `gpu_stream`. -/
def setStreamIndexOn (AMREX_USE_GPU : Bool) (_t : ThreadId) (d : Device) (idx : Int) :
    Except DeviceError Device :=
  setStreamIndex AMREX_USE_GPU d idx

/-- The call `Device::resetStreamIndex()` made by thread `t`. -/
def resetStreamIndexOn (AMREX_USE_GPU : Bool) (_t : ThreadId) (d : Device) :
    Except DeviceError Device :=
  resetStreamIndex AMREX_USE_GPU d

/-- A sequence of `setStreamIndex(idx)` calls (`some idx`) and
`resetStreamIndex()` calls (`none`), stopping at the first failure. -/
def runStreamCalls (AMREX_USE_GPU : Bool) (d : Device) : List (Option Int) → Except DeviceError Device
  | [] => .ok d
  | some idx :: rest =>
      match setStreamIndex AMREX_USE_GPU d idx with
      | .ok d' => runStreamCalls AMREX_USE_GPU d' rest
      | .error e => .error e
  | none :: rest =>
      match resetStreamIndex AMREX_USE_GPU d with
      | .ok d' => runStreamCalls AMREX_USE_GPU d' rest
      | .error e => .error e

end Device

end Gpu

/-! ## The mutexes of `PackageQueue.H`, seen from a single thread -/

namespace WithLock

variable {S R : Type}

end WithLock

namespace PackageQueue

variable {P : Type} [Inhabited P]

/-- The package of the most recent successful enqueue of a run that starts in
`q`; `acc` is the most recent one before the run. -/
def lastEnqueued (q : PackageQueue P) : List (Op P) → Option P → Option P
  | [], acc => acc
  | .enqueue package :: ops, acc =>
      match (q.enqueue package).1 with
      | .done => lastEnqueued (q.enqueue package).2 ops (some package)
      | _ => lastEnqueued (q.enqueue package).2 ops acc
  | .dequeue :: ops, acc => lastEnqueued (q.dequeue).2 ops acc
  | .getFront :: ops, acc => lastEnqueued (q.getFront).2 ops acc
  | .getRear :: ops, acc => lastEnqueued (q.getRear).2 ops acc
  | .queueSize :: ops, acc => lastEnqueued (q.queueSize).2 ops acc
  | .emptyQueue :: ops, acc => lastEnqueued (q.emptyQueue).2 ops acc

end PackageQueue

namespace Package

/-- Modelled from the spec: the constructor `Package::Package()`, which the
header only declares.  Spec 4.2: "Construct with no arguments (endpoints/size
unset)"; spec 3: the unit is later "driven through served→completed", so
neither flag is set at construction and no buffer or handle is present. -/
def new : Package :=
  { source := 0, destination := 0, databuf := none, bufSize := 0,
    completed := false, served := false, request := none, tag := 0 }

/-- Modelled from the spec: the body of `bool Package::checkRequest(void)`,
which the header only declares.  Spec 4.2, `pollComplete()`: "non-blocking
check of the underlying asynchronous handle; if the handle reports done, it
also sets `completed` before returning true".  `handleDone` is what the
asynchronous handle `request` reports at the time of the call. -/
def checkRequest (p : Package) (handleDone : Bool) : Bool × Package :=
  if handleDone then (true, { p with completed := true })
  else (false, p)

end Package

/-! ## AMReX_GpuDevice.H : the synchronous copy primitives -/

namespace Gpu

end Gpu

/-! ## AMReX_EB2_GeometryShop.H : `BrentRootFinder`

`Real` is embedded as a linear ordered field `R` (exact arithmetic; rounding,
infinities and NaN of the floating-point type are not modelled).  A division
by zero, which the field defines as zero, is not excluded by the embedding. -/

namespace EB2

/-- A point, `GpuArray<Real,AMREX_SPACEDIM>`; `dim` is `AMREX_SPACEDIM`. -/
abbrev GpuArray (R : Type) (dim : Nat) := Fin dim → R

/-- The two errors `BrentRootFinder` hands to `amrex::Error`. -/
inductive BrentError where
  /-- "BrentRootFinder. Root must be bracketed, but instead the supplied end
  points have the same sign." -/
  | notBracketed
  /-- "BrentRootFinder: exceeding maximum iterations." -/
  | maxIterations
deriving DecidableEq, Repr

/-- The local variables of `BrentRootFinder` that live across loop iterations,
the loop counter `i`, and three ghost fields: `iters` counts the loop bodies
entered, `evals` counts the calls of `IF_f`, `converged` records that the
`break` of the convergence check was taken. -/
structure BrentState (R : Type) (dim : Nat) where
  aPt : GpuArray R dim
  bPt : GpuArray R dim
  fa : R
  fb : R
  c : R
  fc : R
  d : R
  e : R
  i : Nat
  iters : Nat
  evals : Nat
  converged : Bool

/-- What a call of `BrentRootFinder` produces: the `Real` it returns, the error
handed to `amrex::Error` on the way (if any), and the ghost counts. -/
structure BrentResult (R : Type) where
  value : R
  error : Option BrentError
  iters : Nat
  evals : Nat
  converged : Bool

section Brent

variable {R : Type} [LinearOrderedField R] {dim : Nat}

/-- Source: `const Real tol = 1.e-12;` -/
def tol : R := 1 / 1000000000000

/-- Source: `const int MAXITER = 100;` -/
def MAXITER : Nat := 100

/-- Source: `const Real EPS = 3.0e-15;` -/
def EPS : R := 3 / 1000000000000000

/-- Source: `IF_f (F const& f, GpuArray<Real,AMREX_SPACEDIM> const& p)`, which
returns `f(p[0],p[1],p[2])`. -/
def IF_f (f : GpuArray R dim → R) (p : GpuArray R dim) : R :=
  f p

/-- Source, loop body, first block: `if (fb*fc > 0)`, "Rename a, b, c and adjust
bounding interval d". -/
def brentRename (rangedir : Fin dim) (s : BrentState R dim) : BrentState R dim :=
  if 0 < s.fb * s.fc then
    { s with
      c := s.aPt rangedir
      fc := s.fa
      d := s.bPt rangedir - s.aPt rangedir
      e := s.bPt rangedir - s.aPt rangedir }
  else s

/-- Source, loop body, second block: `if (abs(fc) < abs(fb))`, which rotates
`aPt[rangedir] = bPt[rangedir]; bPt[rangedir] = c; c = aPt[rangedir];
fa = fb; fb = fc; fc = fa;`. -/
def brentSwap (rangedir : Fin dim) (s : BrentState R dim) : BrentState R dim :=
  if |s.fc| < |s.fb| then
    { s with
      aPt := Function.update s.aPt rangedir (s.bPt rangedir)
      bPt := Function.update s.bPt rangedir s.c
      c := s.bPt rangedir
      fa := s.fb
      fb := s.fc
      fc := s.fb }
  else s

/-- Source: `Real tol1 = 2.0 * EPS * abs(bPt[rangedir]) + 0.5 * tol;` -/
def brentTol1 (rangedir : Fin dim) (s : BrentState R dim) : R :=
  2 * EPS * |s.bPt rangedir| + (1 / 2) * tol

/-- Source: `Real xm = 0.5 * (c - bPt[rangedir]);` -/
def brentXm (rangedir : Fin dim) (s : BrentState R dim) : R :=
  (1 / 2) * (s.c - s.bPt rangedir)

/-- Source: the numerator `p` and denominator `q` of the interpolation step
before the sign adjustment: the secant form when `aPt[rangedir] == c`, inverse
quadratic interpolation otherwise. -/
def brentPQ (rangedir : Fin dim) (s : BrentState R dim) : R × R :=
  if s.aPt rangedir = s.c then
    (2 * brentXm rangedir s * (s.fb / s.fa), 1 - s.fb / s.fa)
  else
    (s.fb / s.fa *
        (2 * brentXm rangedir s * (s.fa / s.fc) * (s.fa / s.fc - s.fb / s.fc) -
          (s.bPt rangedir - s.aPt rangedir) * (s.fb / s.fc - 1)),
      (s.fa / s.fc - 1) * (s.fb / s.fc - 1) * (s.fb / s.fa - 1))

/-- Source: `if (p > 0) q = -q;` -/
def brentQ (rangedir : Fin dim) (s : BrentState R dim) : R :=
  if 0 < (brentPQ rangedir s).1 then -(brentPQ rangedir s).2 else (brentPQ rangedir s).2

/-- Source: `p = abs(p);` -/
def brentP (rangedir : Fin dim) (s : BrentState R dim) : R :=
  |(brentPQ rangedir s).1|

/-- Source: the acceptance test
`2.0 * p < min(3.0*xm*q-abs(tol1*q), 1.0*abs(e*q))`. -/
def brentAccept (rangedir : Fin dim) (s : BrentState R dim) : Prop :=
  2 * brentP rangedir s <
    min (3 * brentXm rangedir s * brentQ rangedir s -
          |brentTol1 rangedir s * brentQ rangedir s|)
      (1 * |s.e * brentQ rangedir s|)

instance (rangedir : Fin dim) (s : BrentState R dim) : Decidable (brentAccept rangedir s) := by
  unfold brentAccept; infer_instance

/-- Source: the new values of `d` and `e` chosen after the convergence check:
the interpolation step `e = d; d = p / q;` when it is attempted
(`abs(e) >= tol1 && abs(fa) > abs(fb)`) and accepted, bisection
`d = xm; e = d;` otherwise. -/
def brentDE (rangedir : Fin dim) (s : BrentState R dim) : R × R :=
  if brentTol1 rangedir s ≤ |s.e| ∧ |s.fb| < |s.fa| then
    if brentAccept rangedir s then (brentP rangedir s / brentQ rangedir s, s.d)
    else (brentXm rangedir s, brentXm rangedir s)
  else (brentXm rangedir s, brentXm rangedir s)

/-- Source: "Evaluate new trial root": `bPt[rangedir] + d` when
`abs(d) > tol1`, else the minimal step `∓tol1` by the sign of `xm`. -/
def brentNewB (rangedir : Fin dim) (s : BrentState R dim) : R :=
  if brentTol1 rangedir s < |(brentDE rangedir s).1| then
    s.bPt rangedir + (brentDE rangedir s).1
  else if brentXm rangedir s < 0 then s.bPt rangedir - brentTol1 rangedir s
  else s.bPt rangedir + brentTol1 rangedir s

/-- Source: the part of the loop body after the convergence check: choice of
`d` and `e`, "Move last best guess to a", the new trial root and
`fb = IF_f(f, bPt);`. -/
def brentAdvance (f : GpuArray R dim → R) (rangedir : Fin dim) (s : BrentState R dim) :
    BrentState R dim :=
  { s with
    d := (brentDE rangedir s).1
    e := (brentDE rangedir s).2
    aPt := Function.update s.aPt rangedir (s.bPt rangedir)
    fa := s.fb
    bPt := Function.update s.bPt rangedir (brentNewB rangedir s)
    fb := IF_f f (Function.update s.bPt rangedir (brentNewB rangedir s))
    evals := s.evals + 1 }

/-- Source: the convergence check `abs(xm) <= tol1 || fb == 0.0`. -/
def brentConverged (rangedir : Fin dim) (s : BrentState R dim) : Prop :=
  |brentXm rangedir s| ≤ brentTol1 rangedir s ∨ s.fb = 0

instance (rangedir : Fin dim) (s : BrentState R dim) : Decidable (brentConverged rangedir s) := by
  unfold brentConverged; infer_instance

/-- Source: one pass through the body of the `for` loop (lines 72 to 157): the
two renaming blocks, then `break` when the convergence check holds, else the
step to the new trial root. -/
def brentBody (f : GpuArray R dim → R) (rangedir : Fin dim) (s : BrentState R dim) :
    BrentState R dim :=
  if brentConverged rangedir (brentSwap rangedir (brentRename rangedir s)) then
    { brentSwap rangedir (brentRename rangedir s) with
      iters := s.iters + 1
      converged := true }
  else
    { brentAdvance f rangedir (brentSwap rangedir (brentRename rangedir s)) with
      iters := s.iters + 1 }

/-- Source: `for (i = 0; i < MAXITER; ++i) { ... }`; `fuel` is `MAXITER - i`, so
the loop condition fails exactly when `fuel` is zero. -/
def brentLoop (f : GpuArray R dim → R) (rangedir : Fin dim) :
    Nat → BrentState R dim → BrentState R dim
  | 0, s => s
  | fuel + 1, s =>
      if (brentBody f rangedir s).converged then brentBody f rangedir s
      else brentLoop f rangedir fuel
        { brentBody f rangedir s with i := (brentBody f rangedir s).i + 1 }

/-- The state at loop entry: `aPt = lo`, `bPt = hi`, `fa`, `fb` evaluated,
`c = bPt[rangedir]`, `fc = fb`, `d = 0.0`, `e = 0.0`, `i = 0`. -/
def brentInit (lo hi : GpuArray R dim) (rangedir : Fin dim) (f : GpuArray R dim → R) :
    BrentState R dim :=
  { aPt := lo, bPt := hi, fa := IF_f f lo, fb := IF_f f hi, c := hi rangedir,
    fc := IF_f f hi, d := 0, e := 0, i := 0, iters := 0, evals := 2, converged := false }

/-- Source: `BrentRootFinder (lo, hi, rangedir, f)`.  `amrex::Error` is
recorded in `error`; the value is the one of the `return` that follows it. -/
def BrentRootFinder (lo hi : GpuArray R dim) (rangedir : Fin dim) (f : GpuArray R dim → R) :
    BrentResult R :=
  if 0 < IF_f f hi * IF_f f lo then
    { value := 0, error := some .notBracketed, iters := 0, evals := 2, converged := false }
  else if IF_f f lo = 0 then
    { value := lo rangedir, error := none, iters := 0, evals := 2, converged := false }
  else if IF_f f hi = 0 then
    { value := hi rangedir, error := none, iters := 0, evals := 2, converged := false }
  else
    { value := (brentLoop f rangedir MAXITER (brentInit lo hi rangedir f)).bPt rangedir
      error :=
        if MAXITER ≤ (brentLoop f rangedir MAXITER (brentInit lo hi rangedir f)).i then
          some .maxIterations
        else none
      iters := (brentLoop f rangedir MAXITER (brentInit lo hi rangedir f)).iters
      evals := (brentLoop f rangedir MAXITER (brentInit lo hi rangedir f)).evals
      converged := (brentLoop f rangedir MAXITER (brentInit lo hi rangedir f)).converged }

end Brent

end EB2

/-! ## More concrete inputs used by the witnesses -/

/-- The implicit function `x - 1/2` on the line. -/
def lineIF : EB2.GpuArray ℚ 1 → ℚ :=
  fun p => p 0 - 1 / 2

/-- The end point 0 of the line. -/
def linePt0 : EB2.GpuArray ℚ 1 :=
  fun _ => 0

/-- The end point 1 of the line. -/
def linePt1 : EB2.GpuArray ℚ 1 :=
  fun _ => 1

/-- The end point 2 of the line. -/
def linePt2 : EB2.GpuArray ℚ 1 :=
  fun _ => 2

/-! ## AMReX_Array.H : `Array2D` and `Array3D` -/

namespace Array2D

/-- Source: the extent of `T arr[(XHI-XLO+1)*(YHI-YLO+1)]`. -/
def size (XLO XHI YLO YHI : Int) : Int :=
  (XHI - XLO + 1) * (YHI - YLO + 1)

/-- Source: the subscript of `arr` in `operator() (int i, int j)`,
`i+j*(XHI-XLO+1)-(YLO*(XHI-XLO+1)+XLO)`. -/
def offset (XLO XHI YLO : Int) (i j : Int) : Int :=
  i + j * (XHI - XLO + 1) - (YLO * (XHI - XLO + 1) + XLO)

/-- The index `(i, j)` lies inside the declared bounds. -/
def InBounds (XLO XHI YLO YHI : Int) (i j : Int) : Prop :=
  XLO ≤ i ∧ i ≤ XHI ∧ YLO ≤ j ∧ j ≤ YHI

instance (XLO XHI YLO YHI i j : Int) : Decidable (InBounds XLO XHI YLO YHI i j) := by
  unfold InBounds; infer_instance

end Array2D

namespace Array3D

/-- Source: the extent of `T arr[(XHI-XLO+1)*(YHI-YLO+1)*(ZHI-ZLO+1)]`. -/
def size (XLO XHI YLO YHI ZLO ZHI : Int) : Int :=
  (XHI - XLO + 1) * (YHI - YLO + 1) * (ZHI - ZLO + 1)

/-- Source: the subscript of `arr` in `operator() (int i, int j, int k)`,
`i+j*(XHI-XLO+1)+k*((XHI-XLO+1)*(YHI-YLO+1))
 -(ZLO*((XHI-XLO+1)*(YHI-YLO+1))+YLO*(XHI-XLO+1)+XLO)`. -/
def offset (XLO XHI YLO YHI ZLO : Int) (i j k : Int) : Int :=
  i + j * (XHI - XLO + 1) + k * ((XHI - XLO + 1) * (YHI - YLO + 1)) -
    (ZLO * ((XHI - XLO + 1) * (YHI - YLO + 1)) + YLO * (XHI - XLO + 1) + XLO)

/-- The index `(i, j, k)` lies inside the declared bounds. -/
def InBounds (XLO XHI YLO YHI ZLO ZHI : Int) (i j k : Int) : Prop :=
  XLO ≤ i ∧ i ≤ XHI ∧ YLO ≤ j ∧ j ≤ YHI ∧ ZLO ≤ k ∧ k ≤ ZHI

instance (XLO XHI YLO YHI ZLO ZHI i j k : Int) :
    Decidable (InBounds XLO XHI YLO YHI ZLO ZHI i j k) := by
  unfold InBounds; infer_instance

end Array3D

/-! ## AMReX_EB2_GeometryShop.H : `GeometryShop::getBoxType`

The classes `Box` and `Geometry` are not among the sources.  Of a box the code
uses `loVect()` and `length3d()`, here `blo` and `len3`; of the geometry it
uses `ProbLo()` and `CellSize()`, here `problo` and `dx`.  The implicit
function takes the three coordinates of `AMREX_D_DECL` and returns a `Real`: a
number, or NaN, which is `none` below. -/

namespace EB2

/-- Source: `static constexpr int allregular = -1;` -/
def allregular : Int := -1

/-- Source: `static constexpr int mixedcells = 0;` -/
def mixedcells : Int := 0

/-- Source: `static constexpr int allcovered = 1;` -/
def allcovered : Int := 1

/-- The counters `int nbody = 0, nzero = 0, nfluid = 0;`. -/
structure Tally where
  nbody : Int
  nzero : Int
  nfluid : Int
deriving DecidableEq, Repr

/-- The `return` statement by which `getBoxType_Cpu` ends (a ghost value): the
one inside the loops, or one of the three after them. -/
inductive BoxReturn where
  | early
  | regular
  | covered
  | finalElse
deriving DecidableEq, Repr

/-- Source: `enum class RunOn` as far as `getBoxType` looks at it. -/
inductive RunOn where
  | Gpu
  | Cpu
deriving DecidableEq, Repr

section GeometryShop

variable {R : Type} [LinearOrderedField R]

/-- Source: the comparison `v == 0.0` on a value of type `Real`.  A `Real` is a
number or NaN; `none` stands for NaN, for which every comparison of the
code is false. -/
def isZero (v : Option R) : Bool :=
  match v with
  | some x => decide (x = 0)
  | none => false

/-- Source: the comparison `v > 0.0` on a value of type `Real`, false for NaN. -/
def isPos (v : Option R) : Bool :=
  match v with
  | some x => decide (0 < x)
  | none => false

/-- The value is a negative number (`v < 0.0`, false for NaN). -/
def isNeg (v : Option R) : Bool :=
  match v with
  | some x => decide (x < 0)
  | none => false

/-- The value falls through both tests of the code, `v == 0.0` and `v > 0.0`,
into the final `else`. -/
def isFluid (v : Option R) : Bool :=
  !isZero v && !isPos v

/-- Source: `if (v == 0.0) ++nzero; else if (v > 0.0) ++nbody; else ++nfluid;` -/
def tally (v : Option R) (t : Tally) : Tally :=
  if isZero v then { t with nzero := t.nzero + 1 }
  else if isPos v then { t with nbody := t.nbody + 1 }
  else { t with nfluid := t.nfluid + 1 }

/-- Source: the pass of the loops of `getBoxType_Cpu` over the sampled values in
loop order; `none` is the `return mixedcells;` inside the loops, taken as soon
as `nbody > 0 && nfluid > 0`. -/
def scanNodes : List (Option R) → Tally → Option Tally
  | [], t => some t
  | v :: vs, t =>
      if 0 < (tally v t).nbody ∧ 0 < (tally v t).nfluid then none
      else scanNodes vs (tally v t)

/-- Source: the loop nest `for k < len3[2]`, `for j < len3[1]`,
`for i < len3[0]` of `getBoxType_Cpu`: the loop indices in the order visited. -/
def cpuNodes (len3 : Fin 3 → Int) : List (Int × Int × Int) :=
  (List.range (len3 2).toNat).flatMap fun (k : Nat) =>
    (List.range (len3 1).toNat).flatMap fun (j : Nat) =>
      (List.range (len3 0).toNat).map fun (i : Nat) => ((i : Int), (j : Int), (k : Int))

/-- Source: `Real v = m_f(xyz)` with
`xyz = {problo[0]+(i+blo[0])*dx[0], problo[1]+(j+blo[1])*dx[1], problo[2]+(k+blo[2])*dx[2]}`.
The implicit function may return NaN. -/
def cpuValue (f : R → R → R → Option R) (problo dx : Fin 3 → R) (blo : Fin 3 → Int)
    (n : Int × Int × Int) : Option R :=
  f (problo 0 + ((n.1 + blo 0 : Int) : R) * dx 0)
    (problo 1 + ((n.2.1 + blo 1 : Int) : R) * dx 1)
    (problo 2 + ((n.2.2 + blo 2 : Int) : R) * dx 2)

/-- The values sampled at the lattice nodes of the box, in the loop order of
`getBoxType_Cpu`. -/
def cpuValues (f : R → R → R → Option R) (problo dx : Fin 3 → R) (blo len3 : Fin 3 → Int) :
    List (Option R) :=
  (cpuNodes len3).map (cpuValue f problo dx blo)

/-- Source: `int getBoxType_Cpu (const Box& bx, Geometry const& geom)`, with the
`return` statement taken as a ghost second component. -/
def getBoxType_Cpu (f : R → R → R → Option R) (problo dx : Fin 3 → R)
    (blo len3 : Fin 3 → Int) : Int × BoxReturn :=
  match scanNodes (cpuValues f problo dx blo len3) { nbody := 0, nzero := 0, nfluid := 0 } with
  | none => (mixedcells, BoxReturn.early)
  | some t =>
      if t.nbody = 0 then (allregular, BoxReturn.regular)
      else if t.nfluid = 0 then (allcovered, BoxReturn.covered)
      else (mixedcells, BoxReturn.finalElse)

/-- The cells `(i, j, k)` of the box, as `reduce_op.eval(bx, ...)` hands them to
its lambda: absolute indices from `blo` on, `len3` of them in each direction. -/
def gpuCells (blo len3 : Fin 3 → Int) : List (Int × Int × Int) :=
  (List.range (len3 2).toNat).flatMap fun (k : Nat) =>
    (List.range (len3 1).toNat).flatMap fun (j : Nat) =>
      (List.range (len3 0).toNat).map fun (i : Nat) =>
        (blo 0 + (i : Int), blo 1 + (j : Int), blo 2 + (k : Int))

/-- Source: the lambda of the reduction, `Real v = f(problo[0]+i*dx[0],
problo[1]+j*dx[1], problo[2]+k*dx[2])` followed by the same three-way count,
returning `{nbody,nzero,nfluid}`. -/
def gpuTuple (f : R → R → R → Option R) (problo dx : Fin 3 → R) (c : Int × Int × Int) :
    Tally :=
  tally (f (problo 0 + (c.1 : R) * dx 0) (problo 1 + (c.2.1 : R) * dx 1)
      (problo 2 + (c.2.2 : R) * dx 2))
    { nbody := 0, nzero := 0, nfluid := 0 }

/-- Modelled from the spec: `ReduceOps<ReduceOpSum,ReduceOpSum,ReduceOpSum>::eval`
and `ReduceData::value`, whose header is not among the sources: the
componentwise sum of the tuples the lambda returns, over all cells of the box.
Integer addition being commutative and associative, the order in which the
device adds them does not matter; the cells are summed in list order. -/
def reduceSum : List Tally → Tally
  | [] => { nbody := 0, nzero := 0, nfluid := 0 }
  | t :: ts =>
      { nbody := t.nbody + (reduceSum ts).nbody
        nzero := t.nzero + (reduceSum ts).nzero
        nfluid := t.nfluid + (reduceSum ts).nfluid }

/-- Source: the branch `run_on == RunOn::Gpu && Gpu::inLaunchRegion()` of
`getBoxType`: reduce over the whole box, then classify. -/
def getBoxType_Gpu (f : R → R → R → Option R) (problo dx : Fin 3 → R)
    (blo len3 : Fin 3 → Int) : Int :=
  if (reduceSum ((gpuCells blo len3).map (gpuTuple f problo dx))).nbody = 0 then allregular
  else if (reduceSum ((gpuCells blo len3).map (gpuTuple f problo dx))).nfluid = 0 then
    allcovered
  else mixedcells

/-- Source: `int getBoxType (const Box& bx, const Geometry& geom, RunOn run_on)`
for a GPU-able implicit function; `inLaunchRegion` is what
`Gpu::inLaunchRegion()` returns. -/
def getBoxType (f : R → R → R → Option R) (problo dx : Fin 3 → R) (blo len3 : Fin 3 → Int)
    (run_on : RunOn) (inLaunchRegion : Bool) : Int :=
  if run_on = RunOn.Gpu ∧ inLaunchRegion = true then getBoxType_Gpu f problo dx blo len3
  else (getBoxType_Cpu f problo dx blo len3).1

end GeometryShop

/-! ### The convergence checks of `BrentRootFinder` -/

section BrentChecks

variable {R : Type} [LinearOrderedField R] {dim : Nat}

/-- The states in which the loop of `BrentRootFinder` performs its convergence
check, in order: the state after the two renaming blocks of each body entered.
The recursion is the one of `brentLoop`. -/
def brentChecks (f : GpuArray R dim → R) (rangedir : Fin dim) :
    Nat → BrentState R dim → List (BrentState R dim)
  | 0, _ => []
  | fuel + 1, s =>
      brentSwap rangedir (brentRename rangedir s) ::
        (if (brentBody f rangedir s).converged then []
         else brentChecks f rangedir fuel
           { brentBody f rangedir s with i := (brentBody f rangedir s).i + 1 })

/-- The implicit function along the search line: `f` at the point `lo` with its
coordinate `rangedir` replaced by `x`. -/
def alongLine (f : GpuArray R dim → R) (lo : GpuArray R dim) (rangedir : Fin dim) (x : R) : R :=
  f (Function.update lo rangedir x)

/-- The divisors of the divisions that the loop body executes after the
convergence check in state `t`, in source order: `s = fb / fa` when the
interpolation branch is entered, `q = fa / fc` and `r = fb / fc` in its inverse
quadratic arm, `d = p / q` when the step is accepted.  No other division occurs
in `BrentRootFinder`. -/
def brentDivisors (rangedir : Fin dim) (t : BrentState R dim) : List R :=
  if brentConverged rangedir t then []
  else if brentTol1 rangedir t ≤ |t.e| ∧ |t.fb| < |t.fa| then
    (t.fa :: (if t.aPt rangedir = t.c then [] else [t.fc, t.fc])) ++
      (if brentAccept rangedir t then [brentQ rangedir t] else [])
  else []

/-- The coordinates `a`, `b` and `c` along the search direction all lie in
`[m, M]`. -/
def InRange (rangedir : Fin dim) (m M : R) (s : BrentState R dim) : Prop :=
  (m ≤ s.aPt rangedir ∧ s.aPt rangedir ≤ M) ∧ (m ≤ s.bPt rangedir ∧ s.bPt rangedir ≤ M) ∧
    (m ≤ s.c ∧ s.c ≤ M)

/-- The number `v` is the value of `f` at a point whose coordinate `rangedir`
is `x` and whose other coordinates are those of `lo` or those of `hi`. -/
def SampleAt (f : GpuArray R dim → R) (lo hi : GpuArray R dim) (rangedir : Fin dim)
    (x v : R) : Prop :=
  v = f (Function.update lo rangedir x) ∨ v = f (Function.update hi rangedir x)

/-- The stored function values belong to the stored coordinates, and `bPt`
differs from `hi` at most in the coordinate `rangedir`. -/
def Sampled (f : GpuArray R dim → R) (lo hi : GpuArray R dim) (rangedir : Fin dim)
    (s : BrentState R dim) : Prop :=
  SampleAt f lo hi rangedir (s.aPt rangedir) s.fa ∧
  SampleAt f lo hi rangedir (s.bPt rangedir) s.fb ∧
  SampleAt f lo hi rangedir s.c s.fc ∧
  ∀ x : R, Function.update s.bPt rangedir x = Function.update hi rangedir x

/-- The bracket as it stands at the top of the loop body: if `fb` and `fc` have
the same strict sign, then `fa` and `fb` do not. -/
def BracketTop (s : BrentState R dim) : Prop :=
  0 < s.fb * s.fc → s.fa * s.fb ≤ 0

end BrentChecks

section BrentEntry

variable {R : Type} [LinearOrderedField R] {dim : Nat}

/-- Source: lines 50 to 66 of `BrentRootFinder`, the part before the loop:
`fa = IF_f(f, aPt)`, `fb = IF_f(f, bPt)`, then `if (fb*fa > 0.0)` the error and
`return 0.0`, `else if (fa == 0.0) return aPt[rangedir]`,
`else if (fb == 0.0) return bPt[rangedir]`.  `fmul` is the multiplication of
the type `Real`, which the machine rounds; `none` says that none of the three
returns is taken and the loop is entered. -/
def brentEntry (fmul : R → R → R) (lo hi : GpuArray R dim) (rangedir : Fin dim)
    (f : GpuArray R dim → R) : Option (BrentResult R) :=
  if 0 < fmul (IF_f f hi) (IF_f f lo) then
    some { value := 0, error := some .notBracketed, iters := 0, evals := 2, converged := false }
  else if IF_f f lo = 0 then
    some { value := lo rangedir, error := none, iters := 0, evals := 2, converged := false }
  else if IF_f f hi = 0 then
    some { value := hi rangedir, error := none, iters := 0, evals := 2, converged := false }
  else none

end BrentEntry

end EB2

/-! ## Double arithmetic for the bracket test of `BrentRootFinder`

`Real` is `double` in the default build.  A finite `double` is a rational
number; the product `fb*fa` of the source is the exact product rounded to
the nearest `double`. -/

namespace EB2

/-- IEEE 754 `roundTiesToEven` on the integer grid: the integer nearest to `q`,
the even one of the two when `q` lies half way. -/
def rne (q : ℚ) : ℤ :=
  if q - ⌊q⌋ < 1 / 2 then ⌊q⌋
  else if 1 / 2 < q - ⌊q⌋ then ⌊q⌋ + 1
  else if ⌊q⌋ % 2 = 0 then ⌊q⌋
  else ⌊q⌋ + 1

/-- The exponent of the spacing of the `double` grid around `x`: 52 binary
places below the leading bit of `x`, and `-1074` in the subnormal range. -/
def ulpExp (x : ℚ) : ℤ :=
  max (-1074) (Int.log 2 |x| - 52)

/-- IEEE 754 binary64 rounding to nearest, ties to even, of the real number
`x`.  Overflow to an infinity is not represented: the result then is a number
of the same sign, which is all the comparison `> 0.0` looks at. -/
def roundDouble (x : ℚ) : ℚ :=
  (rne (x / (2 : ℚ) ^ ulpExp x) : ℚ) * (2 : ℚ) ^ ulpExp x

/-- The product `a*b` of two values of type `double`, as the machine computes
it. -/
def mulDouble (a b : ℚ) : ℚ :=
  roundDouble (a * b)

end EB2

/-! ## Concrete inputs for the numerical witnesses -/

/-- The state in which `BrentRootFinder` makes its first convergence check for
`x - 1/2` on `[0, 2]`: `a = c = 2`, `b = 0`, `fa = fc = 3/2`, `fb = -1/2`,
`d = e = 2`; the loop goes on and the interpolation branch executes. -/
def firstCheck : EB2.BrentState ℚ 1 :=
  EB2.brentSwap 0 (EB2.brentRename 0 (EB2.brentInit linePt0 linePt2 0 lineIF))

/-- The point `1/2 - 2.5e-13` of the line. -/
def nearLo : EB2.GpuArray ℚ 1 :=
  fun _ => 1 / 2 - 1 / 4000000000000

/-- The point `1/2 + 2.5e-13` of the line. -/
def nearHi : EB2.GpuArray ℚ 1 :=
  fun _ => 1 / 2 + 1 / 4000000000000

/-- A function of three coordinates that is positive right of the plane
`x = 1/2` and negative left of it, and never NaN. -/
def planeIF : ℚ → ℚ → ℚ → Option ℚ :=
  fun x _ _ => some (x - 1 / 2)

/-- A function of three coordinates that is NaN on the plane `x = 0` and 1
elsewhere. -/
def nanIF : ℚ → ℚ → ℚ → Option ℚ :=
  fun x _ _ => if x = 0 then none else some 1

/-- A function on the line with the values `2^-600` at 0 and `2^-599` at 1. -/
def tinyIF : EB2.GpuArray ℚ 1 → ℚ :=
  fun p => (1 + p 0) * (2 : ℚ) ^ (-600 : ℤ)

/-- The origin and the unit spacing of a unit lattice. -/
def unitVec : Fin 3 → ℚ :=
  fun _ => 1

/-- The zero vector of reals. -/
def zeroVec : Fin 3 → ℚ :=
  fun _ => 0

/-- The box corner at the lattice origin. -/
def originLo : Fin 3 → Int :=
  fun _ => 0

/-- A box of 2 x 1 x 1 nodes. -/
def twoNodes : Fin 3 → Int :=
  fun d => if d = 0 then 2 else 1

/-! ## Arithmetic and list helpers -/

theorem emod_wrap (x c : Int) (h0 : 0 ≤ x) (h1 : x < 2 * c) :
    x % c = if x < c then x else x - c := by
  split
  · exact Int.emod_eq_of_lt h0 (by assumption)
  · have h : x = (x - c) + c := by ring
    conv_lhs => rw [h]
    rw [Int.add_emod_self]
    exact Int.emod_eq_of_lt (by omega) (by omega)

theorem getD_set_eq {P : Type} (l : List P) (i j : Nat) (a d : P) :
    (l.set i a).getD j d = if i = j ∧ i < l.length then a else l.getD j d := by
  simp only [List.getD_eq_getElem?_getD, List.getElem?_set]
  by_cases h : i = j
  · subst h
    by_cases h2 : i < l.length
    · simp [h2]
    · have : l[i]? = none := List.getElem?_eq_none (by omega)
      simp [h2, this]
  · simp [h]

namespace PackageQueue

variable {P : Type} [Inhabited P]

theorem new_refines (cap : Nat) (hcap : 0 < cap) : Refines cap (new cap : PackageQueue P) [] := by
  refine ⟨rfl, by simp [new], by simp [new], by simp [new]; omega, by simp [new], by simp [new], by simp [new], ?_, by simp [new, contents]⟩
  intro h
  simp [new] at h

theorem enqueue_refines (cap : Nat) (q : PackageQueue P) (l : List P) (package : P)
    (h : Refines cap q l) :
    (q.enqueue package).1 = (BoundedFifo.step cap l (.enqueue package)).1 ∧
    Refines cap (q.enqueue package).2 (BoundedFifo.step cap l (.enqueue package)).2 := by
  obtain ⟨hmax, hlen, hf0, hf, hn, hle, hrear, hprear, hcont⟩ := h
  by_cases hfull : q.n = q.max_size
  · have hl : l.length = cap := by omega
    simp only [enqueue, BoundedFifo.step, if_pos hfull, if_pos hl]
    exact ⟨trivial, hmax, hlen, hf0, hf, hn, hle, hrear, hprear, hcont⟩
  · have hl : l.length ≠ cap := by omega
    have hn0 : 0 ≤ q.n := by omega
    simp only [enqueue, BoundedFifo.step, if_neg hfull, if_neg hl]
    refine ⟨trivial, hmax, ?_, hf0, hf, ?_, ?_, ?_, ?_, ?_⟩
    · simpa using hlen
    · simp only [List.length_append, List.length_singleton]
      push_cast
      omega
    · show q.n + 1 ≤ q.max_size
      omega
    · show (q.rear + 1) % q.max_size = (q.front + (q.n + 1)) % q.max_size
      rw [hrear, Int.emod_add_emod, add_assoc]
    · intro _
      show q.rear = (q.front + (q.n + 1) - 1) % q.max_size
      rw [hrear]
      congr 1
      ring
    · have hk : (q.n + 1).toNat = q.n.toNat + 1 := by omega
      have e2 := emod_wrap (q.front + q.n) q.max_size (by omega) (by omega)
      simp only [contents]
      rw [hk, List.range_succ, List.map_append, List.map_singleton, ← hcont]
      congr 1
      · apply List.map_congr_left
        intro i hi
        have hi2 : (i : Int) < q.n := by
          have := List.mem_range.mp hi
          omega
        have e1 := emod_wrap (q.front + i) q.max_size (by omega) (by omega)
        simp only [slot, getD_set_eq]
        rw [if_neg]
        rintro ⟨heq, -⟩
        rw [hrear, e1, e2] at heq
        split_ifs at heq <;> omega
      · simp only [slot, getD_set_eq]
        have hcast : ((q.n.toNat : Nat) : Int) = q.n := by omega
        rw [hcast, ← hrear, if_pos]
        refine ⟨rfl, ?_⟩
        rw [hlen, hrear, e2]
        split_ifs <;> omega

end PackageQueue

namespace PackageQueue

variable {P : Type} [Inhabited P]

/-- In a represented non-empty queue the list is the front slot followed by the
contents after advancing `front`. -/
theorem refines_cons (cap : Nat) (q : PackageQueue P) (l : List P)
    (h : Refines cap q l) (hne : q.n ≠ 0) :
    l = q.slot q.front :: contents { q with front := (q.front + 1) % q.max_size, n := q.n - 1 } := by
  obtain ⟨hmax, hlen, hf0, hf, hn, hle, hrear, hprear, hcont⟩ := h
  have hn0 : 0 ≤ q.n := by omega
  have hk : q.n.toNat = (q.n - 1).toNat + 1 := by omega
  rw [← hcont]
  simp only [contents]
  rw [hk, List.range_succ_eq_map, List.map_cons, List.map_map]
  congr 1
  · simp only [Nat.cast_zero, add_zero]
    rw [Int.emod_eq_of_lt hf0 hf]
  · apply List.map_congr_left
    intro i _
    simp only [Function.comp, slot, Nat.succ_eq_add_one]
    rw [Int.emod_add_emod]
    push_cast
    congr 3
    ring

theorem dequeue_refines (cap : Nat) (q : PackageQueue P) (l : List P)
    (h : Refines cap q l) :
    (q.dequeue).1 = (BoundedFifo.step cap l .dequeue).1 ∧
    Refines cap (q.dequeue).2 (BoundedFifo.step cap l .dequeue).2 := by
  by_cases hz : q.n = 0
  · have hl : l = [] := by
      have := h.hn
      rw [hz] at this
      exact List.length_eq_zero.mp (by omega)
    subst hl
    simp only [dequeue, BoundedFifo.step, if_pos hz]
    exact ⟨trivial, h⟩
  · have hc := refines_cons cap q l h hz
    obtain ⟨hmax, hlen, hf0, hf, hn, hle, hrear, hprear, hcont⟩ := h
    have hpos : 0 < q.max_size := by omega
    rw [hc]
    simp only [dequeue, BoundedFifo.step, if_neg hz]
    refine ⟨trivial, hmax, hlen, ?_, ?_, ?_, ?_, ?_, ?_, rfl⟩
    · exact Int.emod_nonneg _ (by omega)
    · exact Int.emod_lt_of_pos _ hpos
    · show q.n - 1 = ((contents _).length : Int)
      simp only [contents, List.length_map, List.length_range]
      omega
    · show q.n - 1 ≤ q.max_size
      omega
    · show q.rear = ((q.front + 1) % q.max_size + (q.n - 1)) % q.max_size
      rw [hrear, Int.emod_add_emod]
      congr 1
      ring
    · intro hp
      show q.prear = ((q.front + 1) % q.max_size + (q.n - 1) - 1) % q.max_size
      have hp2 : 0 < q.n := by
        have : (0 : Int) < q.n - 1 := hp
        omega
      have e : (q.front + 1) % q.max_size + (q.n - 1) - 1 =
          (q.front + 1) % q.max_size + (q.n - 1 - 1) := by ring
      rw [hprear hp2, e, Int.emod_add_emod]
      congr 1
      ring

theorem getFront_refines (cap : Nat) (q : PackageQueue P) (l : List P)
    (h : Refines cap q l) :
    (q.getFront).1 = (BoundedFifo.step cap l .getFront).1 ∧
    Refines cap (q.getFront).2 (BoundedFifo.step cap l .getFront).2 := by
  by_cases hz : q.n = 0
  · have hl : l = [] := by
      have := h.hn
      rw [hz] at this
      exact List.length_eq_zero.mp (by omega)
    subst hl
    simp only [getFront, BoundedFifo.step, if_pos hz]
    exact ⟨trivial, h⟩
  · have hc := refines_cons cap q l h hz
    have h2 := h
    rw [hc] at h2 ⊢
    simp only [getFront, BoundedFifo.step, if_neg hz]
    exact ⟨trivial, h2⟩

theorem getRear_refines (cap : Nat) (q : PackageQueue P) (l : List P)
    (h : Refines cap q l) :
    (q.getRear).1 = (BoundedFifo.step cap l .getRear).1 ∧
    Refines cap (q.getRear).2 (BoundedFifo.step cap l .getRear).2 := by
  by_cases hz : q.n = 0
  · have hl : l = [] := by
      have := h.hn
      rw [hz] at this
      exact List.length_eq_zero.mp (by omega)
    subst hl
    simp only [getRear, BoundedFifo.step, if_pos hz, List.getLast?_nil]
    exact ⟨trivial, h⟩
  · have h2 := h
    obtain ⟨hmax, hlen, hf0, hf, hn, hle, hrear, hprear, hcont⟩ := h
    have hn0 : 0 < q.n := by omega
    have hk : q.n.toNat = (q.n - 1).toNat + 1 := by omega
    have hcast : (((q.n - 1).toNat : Nat) : Int) = q.n - 1 := by omega
    have hlast : l.getLast? = some (q.slot q.prear) := by
      rw [← hcont]
      simp only [contents]
      rw [hk, List.range_succ, List.map_append, List.map_singleton, List.getLast?_concat,
        hprear hn0, hcast, add_sub_assoc]
    simp only [getRear, BoundedFifo.step, if_neg hz, hlast]
    exact ⟨trivial, h2⟩

theorem queueSize_refines (cap : Nat) (q : PackageQueue P) (l : List P)
    (h : Refines cap q l) :
    (q.queueSize).1 = (BoundedFifo.step cap l .queueSize).1 ∧
    Refines cap (q.queueSize).2 (BoundedFifo.step cap l .queueSize).2 := by
  simp only [queueSize, BoundedFifo.step, h.hn]
  exact ⟨trivial, h⟩

theorem emptyQueue_refines (cap : Nat) (q : PackageQueue P) (l : List P)
    (h : Refines cap q l) :
    (q.emptyQueue).1 = (BoundedFifo.step cap l .emptyQueue).1 ∧
    Refines cap (q.emptyQueue).2 (BoundedFifo.step cap l .emptyQueue).2 := by
  obtain ⟨hmax, hlen, hf0, hf, hn, hle, hrear, hprear, hcont⟩ := h
  simp only [emptyQueue, BoundedFifo.step, hcont]
  refine ⟨trivial, hmax, hlen, le_refl _, ?_, by simp, ?_, by simp, ?_, by simp [contents]⟩
  · show (0 : Int) < q.max_size
    omega
  · show (0 : Int) ≤ q.max_size
    omega
  · intro hp
    exact absurd hp (lt_irrefl _)

theorem step_refines (cap : Nat) (q : PackageQueue P) (l : List P) (op : Op P)
    (h : Refines cap q l) :
    (q.step op).1 = (BoundedFifo.step cap l op).1 ∧
    Refines cap (q.step op).2 (BoundedFifo.step cap l op).2 := by
  cases op with
  | enqueue package => exact enqueue_refines cap q l package h
  | dequeue => exact dequeue_refines cap q l h
  | getFront => exact getFront_refines cap q l h
  | getRear => exact getRear_refines cap q l h
  | queueSize => exact queueSize_refines cap q l h
  | emptyQueue => exact emptyQueue_refines cap q l h

theorem run_refines (cap : Nat) (ops : List (Op P)) :
    ∀ (q : PackageQueue P) (l : List P), Refines cap q l →
      (q.run ops).1 = (BoundedFifo.run cap l ops).1 ∧
      Refines cap (q.run ops).2 (BoundedFifo.run cap l ops).2 := by
  induction ops with
  | nil => intro q l h; exact ⟨rfl, h⟩
  | cons op ops ih =>
    intro q l h
    obtain ⟨h1, h2⟩ := step_refines cap q l op h
    obtain ⟨h3, h4⟩ := ih _ _ h2
    simp only [run, BoundedFifo.run]
    exact ⟨by rw [h1, h3], h4⟩

/-- With capacity zero no call ever changes the queue, and the ring buffer and
the list agree on every outcome. -/
theorem run_zero (ops : List (Op P)) :
    ((new 0 : PackageQueue P).run ops).1 = (BoundedFifo.run 0 ([] : List P) ops).1 := by
  induction ops with
  | nil => rfl
  | cons op ops ih =>
    have hs : ((new 0 : PackageQueue P).step op).2 = new 0 ∧
        (BoundedFifo.step 0 ([] : List P) op).2 = [] ∧
        ((new 0 : PackageQueue P).step op).1 = (BoundedFifo.step 0 ([] : List P) op).1 := by
      cases op <;> exact ⟨rfl, rfl, rfl⟩
    simp only [run, BoundedFifo.run]
    rw [hs.1, hs.2.1, hs.2.2, ih]

/-- The ring buffer started empty hands back, call by call, what the abstract
bounded FIFO of the same capacity hands back. -/
theorem run_new_outcomes (cap : Nat) (ops : List (Op P)) :
    ((new cap : PackageQueue P).run ops).1 = (BoundedFifo.run cap ([] : List P) ops).1 := by
  rcases Nat.eq_zero_or_pos cap with h0 | hpos
  · subst h0
    exact run_zero ops
  · exact (run_refines cap ops _ _ (new_refines cap hpos)).1

end PackageQueue

/-! ## Lemmas on the abstract bounded FIFO -/

namespace BoundedFifo

variable {P : Type}

theorem run_append (cap : Nat) (a b : List (PackageQueue.Op P)) :
    ∀ l : List P,
      (run cap l (a ++ b)).1 = (run cap l a).1 ++ (run cap (run cap l a).2 b).1 := by
  induction a with
  | nil => intro l; rfl
  | cons op ops ih =>
    intro l
    show (step cap l op).1 :: (run cap (step cap l op).2 (ops ++ b)).1 = _
    rw [ih]
    rfl

theorem run_enqueues (cap : Nat) (ps : List P) :
    ∀ l : List P, l.length + ps.length ≤ cap →
      run cap l (ps.map .enqueue) = (List.replicate ps.length .done, l ++ ps) := by
  induction ps with
  | nil => intro l _; simp [run]
  | cons p ps ih =>
    intro l h
    have hl : l.length ≠ cap := by
      simp only [List.length_cons] at h
      omega
    have hstep : step cap l (.enqueue p) = (.done, l ++ [p]) := by
      simp only [step, if_neg hl]
    have h2 : (l ++ [p]).length + ps.length ≤ cap := by
      simp only [List.length_cons, List.length_append, List.length_singleton, List.length_nil] at h ⊢
      omega
    simp only [List.map_cons, run, hstep, ih (l ++ [p]) h2, List.length_cons,
      List.replicate_succ, List.append_assoc, List.singleton_append]

theorem run_dequeues (cap : Nat) :
    ∀ l : List P,
      run cap l (List.replicate l.length .dequeue) = (l.map .pkg, []) := by
  intro l
  induction l with
  | nil => rfl
  | cons p t ih =>
    simp only [List.length_cons, List.replicate_succ, run, step, ih, List.map_cons]

end BoundedFifo

/-! ## Lemmas on `NodeHardware` -/

namespace NodeHardware

theorem tdiv_tdiv_of_nonneg (t a b : Int) (ht : 0 ≤ t) (ha : 0 ≤ a) (hb : 0 ≤ b) :
    Int.tdiv (Int.tdiv t a) b = Int.tdiv t (a * b) := by
  obtain ⟨t', rfl⟩ := Int.eq_ofNat_of_zero_le ht
  obtain ⟨a', rfl⟩ := Int.eq_ofNat_of_zero_le ha
  obtain ⟨b', rfl⟩ := Int.eq_ofNat_of_zero_le hb
  rw [Int.tdiv_eq_ediv ht ha, Int.tdiv_eq_ediv (Int.ediv_nonneg ht ha) hb,
    Int.tdiv_eq_ediv ht (mul_nonneg ha hb)]
  norm_cast
  exact Nat.div_div_eq_div_mul t' a' b'

/-- Uniqueness of quotient and remainder. -/
theorem radix_unique (x x' b b' s : Int) (hx0 : 0 ≤ x) (hx : x < s)
    (hx0' : 0 ≤ x') (hx' : x' < s) (h : x + b * s = x' + b' * s) :
    x = x' ∧ b = b' := by
  have h1 : (x + b * s) % s = x := by
    rw [Int.add_mul_emod_self]
    exact Int.emod_eq_of_lt hx0 hx
  have h2 : (x' + b' * s) % s = x' := by
    rw [Int.add_mul_emod_self]
    exact Int.emod_eq_of_lt hx0' hx'
  have hxx : x = x' := by rw [← h1, h, h2]
  subst hxx
  refine ⟨rfl, ?_⟩
  have hs : s ≠ 0 := by omega
  have : b * s = b' * s := by linarith
  exact Int.eq_of_mul_eq_mul_right hs this

theorem separated_inj (n1 s1 n2 s2 s3 a b c a' b' c' : Int)
    (hs : Separated n1 s1 n2 s2 s3)
    (ha0 : 0 ≤ a) (ha : a < n1) (hb0 : 0 ≤ b) (hb : b < n2)
    (ha0' : 0 ≤ a') (ha' : a' < n1) (hb0' : 0 ≤ b') (hb' : b' < n2)
    (h : a * s1 + b * s2 + c * s3 = a' * s1 + b' * s2 + c' * s3) :
    a = a' ∧ b = b' ∧ c = c' := by
  obtain ⟨h1, h2, h3⟩ := hs
  have hs1 : (0 : Int) ≤ s1 := by omega
  have ea : a * s1 + s1 ≤ n1 * s1 := by
    have := Int.mul_le_mul_of_nonneg_right (show a + 1 ≤ n1 by omega) hs1
    linarith
  have ea' : a' * s1 + s1 ≤ n1 * s1 := by
    have := Int.mul_le_mul_of_nonneg_right (show a' + 1 ≤ n1 by omega) hs1
    linarith
  have pa : 0 ≤ a * s1 := mul_nonneg ha0 hs1
  have pa' : 0 ≤ a' * s1 := mul_nonneg ha0' hs1
  have hs2 : (0 : Int) ≤ s2 := by linarith
  have eb : b * s2 + s2 ≤ n2 * s2 := by
    have := Int.mul_le_mul_of_nonneg_right (show b + 1 ≤ n2 by omega) hs2
    linarith
  have eb' : b' * s2 + s2 ≤ n2 * s2 := by
    have := Int.mul_le_mul_of_nonneg_right (show b' + 1 ≤ n2 by omega) hs2
    linarith
  have pb : 0 ≤ b * s2 := mul_nonneg hb0 hs2
  have pb' : 0 ≤ b' * s2 := mul_nonneg hb0' hs2
  obtain ⟨hy, hc⟩ := radix_unique (a * s1 + b * s2) (a' * s1 + b' * s2) c c' s3
    (by linarith) (by linarith) (by linarith) (by linarith) h
  obtain ⟨hx, hbb⟩ := radix_unique (a * s1) (a' * s1) b b' s2
    pa (by linarith) pa' (by linarith) hy
  exact ⟨Int.eq_of_mul_eq_mul_right (by omega) hx, hbb, hc⟩

end NodeHardware

/-! ## Lemmas on the peeks and on the most recent enqueue -/

namespace PackageQueue

variable {P : Type} [Inhabited P]

theorem getFront_state (q : PackageQueue P) : (q.getFront).2 = q := by
  unfold getFront
  split <;> rfl

theorem getRear_state (q : PackageQueue P) : (q.getRear).2 = q := by
  unfold getRear
  split <;> rfl

/-- Along a run from a represented state, whenever the queue is not empty the
slot `prear` holds the package of the most recent successful enqueue. -/
theorem lastEnqueued_run (cap : Nat) (ops : List (Op P)) :
    ∀ (q : PackageQueue P) (l : List P) (acc : Option P), Refines cap q l →
      (0 < q.n → acc = some (q.slot q.prear)) →
      0 < (q.run ops).2.n →
      lastEnqueued q ops acc = some ((q.run ops).2.slot (q.run ops).2.prear) := by
  induction ops with
  | nil =>
    intro q l acc _ hacc hpos
    exact hacc hpos
  | cons op ops ih =>
    intro q l acc h hacc hpos
    have hstep := (step_refines cap q l op h).2
    cases op with
    | enqueue package =>
      by_cases hfull : q.n = q.max_size
      · have e : q.enqueue package = (Outcome.fail QueueError.QueueFull, q) := by
          simp only [enqueue, if_pos hfull]
        simp only [lastEnqueued, e]
        simp only [run, step, e] at hpos ⊢
        exact ih q l acc h hacc hpos
      · have e : q.enqueue package = (Outcome.done,
            { q with
              buffer := q.buffer.set q.rear.toNat package
              prear := q.rear
              rear := (q.rear + 1) % q.max_size
              n := q.n + 1 }) := by
          simp only [enqueue, if_neg hfull]
        simp only [step, e] at hstep
        simp only [lastEnqueued, e]
        simp only [run, step, e] at hpos ⊢
        refine ih _ _ _ hstep ?_ hpos
        intro _
        have hpos' : (0 : Int) < q.max_size := lt_of_le_of_lt h.hfront0 h.hfront
        have hr0 : 0 ≤ q.rear := by
          rw [h.hrear]
          exact Int.emod_nonneg _ (by omega)
        have hr1 : q.rear < q.max_size := by
          rw [h.hrear]
          exact Int.emod_lt_of_pos _ hpos'
        have hlen := h.hlen
        have hmax := h.hmax
        simp only [slot, getD_set_eq]
        rw [if_pos]
        refine ⟨?_, by omega⟩
        first | rfl | trivial
    | dequeue =>
      by_cases hz : q.n = 0
      · have e : q.dequeue = (Outcome.fail QueueError.QueueEmpty, q) := by
          simp only [dequeue, if_pos hz]
        simp only [lastEnqueued, e]
        simp only [run, step, e] at hpos ⊢
        exact ih q l acc h hacc hpos
      · have e : q.dequeue = (Outcome.pkg (q.slot q.front),
            { q with front := (q.front + 1) % q.max_size, n := q.n - 1 }) := by
          simp only [dequeue, if_neg hz]
        simp only [step, e] at hstep
        simp only [lastEnqueued, e]
        simp only [run, step, e] at hpos ⊢
        refine ih _ _ _ hstep ?_ hpos
        intro hp
        have hn : 0 < q.n := by
          have := h.hn
          omega
        exact hacc hn
    | getFront =>
      simp only [step, getFront_state] at hstep
      simp only [lastEnqueued, getFront_state]
      simp only [run, step, getFront_state] at hpos ⊢
      exact ih q _ acc hstep hacc hpos
    | getRear =>
      simp only [step, getRear_state] at hstep
      simp only [lastEnqueued, getRear_state]
      simp only [run, step, getRear_state] at hpos ⊢
      exact ih q _ acc hstep hacc hpos
    | queueSize =>
      simp only [step, queueSize] at hstep
      simp only [lastEnqueued, queueSize]
      simp only [run, step, queueSize] at hpos ⊢
      exact ih q _ acc hstep hacc hpos
    | emptyQueue =>
      simp only [step] at hstep
      simp only [lastEnqueued]
      simp only [run, step] at hpos ⊢
      refine ih _ _ acc hstep ?_ hpos
      intro hp
      exact absurd hp (by simp [emptyQueue])

end PackageQueue

/-! ## Lemmas on the stream calls and on the diagnostics -/

namespace Gpu

theorem setStreamIndex_pool (g : Bool) (d d' : Device) (idx : Int)
    (h : Device.setStreamIndex g d idx = Except.ok d') :
    d'.gpu_streams = d.gpu_streams ∧ d'.gpu_default_stream = d.gpu_default_stream := by
  unfold Device.setStreamIndex at h
  split at h
  · cases h
    exact ⟨rfl, rfl⟩
  · split at h
    · cases h
      exact ⟨rfl, rfl⟩
    · cases h

theorem runStreamCalls_pool (g : Bool) (calls : List (Option Int)) :
    ∀ d d' : Device, Device.runStreamCalls g d calls = Except.ok d' →
      d'.gpu_streams = d.gpu_streams ∧ d'.gpu_default_stream = d.gpu_default_stream := by
  induction calls with
  | nil =>
    intro d d' h
    cases h
    exact ⟨rfl, rfl⟩
  | cons call calls ih =>
    intro d d' h
    cases call with
    | none =>
      simp only [Device.runStreamCalls, Device.resetStreamIndex] at h
      cases hs : Device.setStreamIndex g d (-1) with
      | error e => rw [hs] at h; cases h
      | ok d1 =>
        rw [hs] at h
        obtain ⟨a, b⟩ := ih d1 d' h
        obtain ⟨a1, b1⟩ := setStreamIndex_pool g d d1 (-1) hs
        exact ⟨a.trans a1, b.trans b1⟩
    | some idx =>
      simp only [Device.runStreamCalls] at h
      cases hs : Device.setStreamIndex g d idx with
      | error e => rw [hs] at h; cases h
      | ok d1 =>
        rw [hs] at h
        obtain ⟨a, b⟩ := ih d1 d' h
        obtain ⟨a1, b1⟩ := setStreamIndex_pool g d d1 idx hs
        exact ⟨a.trans a1, b.trans b1⟩

end Gpu

/-! ## Lemmas on the loop of `BrentRootFinder` -/

namespace EB2

variable {R : Type} [LinearOrderedField R] {dim : Nat}

theorem brentRename_ghost (rangedir : Fin dim) (s : BrentState R dim) :
    (brentRename rangedir s).i = s.i ∧ (brentRename rangedir s).iters = s.iters ∧
    (brentRename rangedir s).evals = s.evals ∧
    (brentRename rangedir s).converged = s.converged := by
  unfold brentRename
  split <;> exact ⟨rfl, rfl, rfl, rfl⟩

theorem brentSwap_ghost (rangedir : Fin dim) (s : BrentState R dim) :
    (brentSwap rangedir s).i = s.i ∧ (brentSwap rangedir s).iters = s.iters ∧
    (brentSwap rangedir s).evals = s.evals ∧
    (brentSwap rangedir s).converged = s.converged := by
  unfold brentSwap
  split <;> exact ⟨rfl, rfl, rfl, rfl⟩

/-- One pass through the loop body: the counter is untouched, one more body has
been entered, and `IF_f` has been called once unless the pass ended in
`break`. -/
theorem brentBody_ghost (f : GpuArray R dim → R) (rangedir : Fin dim) (s : BrentState R dim)
    (hs : s.converged = false) :
    (brentBody f rangedir s).i = s.i ∧ (brentBody f rangedir s).iters = s.iters + 1 ∧
    ((brentBody f rangedir s).converged = true → (brentBody f rangedir s).evals = s.evals) ∧
    ((brentBody f rangedir s).converged = false →
      (brentBody f rangedir s).evals = s.evals + 1) := by
  obtain ⟨r1, r2, r3, r4⟩ := brentRename_ghost rangedir s
  obtain ⟨w1, w2, w3, w4⟩ := brentSwap_ghost rangedir (brentRename rangedir s)
  unfold brentBody
  split
  · refine ⟨?_, rfl, ?_, ?_⟩
    · show (brentSwap rangedir (brentRename rangedir s)).i = s.i
      rw [w1, r1]
    · intro _
      show (brentSwap rangedir (brentRename rangedir s)).evals = s.evals
      rw [w3, r3]
    · intro h
      cases h
  · refine ⟨?_, rfl, ?_, ?_⟩
    · show (brentSwap rangedir (brentRename rangedir s)).i = s.i
      rw [w1, r1]
    · intro h
      have : (brentSwap rangedir (brentRename rangedir s)).converged = true := h
      rw [w4, r4, hs] at this
      cases this
    · intro _
      show (brentSwap rangedir (brentRename rangedir s)).evals + 1 = s.evals + 1
      rw [w3, r3]

/-- The loop: when it ends in `break` the counter stayed below its bound, one
body more than the counter advanced was entered and `IF_f` was called once per
advance; when it runs out, all `fuel` bodies were entered and each called
`IF_f` once. -/
theorem brentLoop_ghost (f : GpuArray R dim → R) (rangedir : Fin dim) (fuel : Nat) :
    ∀ s : BrentState R dim, s.converged = false →
      ((brentLoop f rangedir fuel s).converged = true →
        (brentLoop f rangedir fuel s).i < s.i + fuel ∧
        (brentLoop f rangedir fuel s).iters + s.i = s.iters + (brentLoop f rangedir fuel s).i + 1 ∧
        (brentLoop f rangedir fuel s).evals + s.i = s.evals + (brentLoop f rangedir fuel s).i) ∧
      ((brentLoop f rangedir fuel s).converged = false →
        (brentLoop f rangedir fuel s).i = s.i + fuel ∧
        (brentLoop f rangedir fuel s).iters = s.iters + fuel ∧
        (brentLoop f rangedir fuel s).evals = s.evals + fuel) := by
  induction fuel with
  | zero =>
    intro s hs
    refine ⟨fun h => ?_, fun _ => ⟨rfl, rfl, rfl⟩⟩
    have : s.converged = true := h
    rw [hs] at this
    cases this
  | succ fuel ih =>
    intro s hs
    obtain ⟨b1, b2, b3, b4⟩ := brentBody_ghost f rangedir s hs
    by_cases hc : (brentBody f rangedir s).converged = true
    · have e : brentLoop f rangedir (fuel + 1) s = brentBody f rangedir s := by
        simp only [brentLoop, if_pos hc]
      rw [e]
      refine ⟨fun _ => ⟨by omega, by omega, by have := b3 hc; omega⟩, fun h => ?_⟩
      rw [hc] at h
      cases h
    · have hc' : (brentBody f rangedir s).converged = false := by
        cases h : (brentBody f rangedir s).converged
        · rfl
        · exact absurd h hc
      have e : brentLoop f rangedir (fuel + 1) s =
          brentLoop f rangedir fuel
            { brentBody f rangedir s with i := (brentBody f rangedir s).i + 1 } := by
        simp only [brentLoop, hc', Bool.false_eq_true, if_false]
      have key : ∃ s1 : BrentState R dim,
          brentLoop f rangedir (fuel + 1) s = brentLoop f rangedir fuel s1 ∧
          s1.converged = false ∧ s1.i = s.i + 1 ∧ s1.iters = s.iters + 1 ∧
          s1.evals = s.evals + 1 :=
        ⟨_, e, hc', by show (brentBody f rangedir s).i + 1 = s.i + 1; omega, b2, b4 hc'⟩
      obtain ⟨s1, e1, c1, k1, k2, k3⟩ := key
      rw [e1]
      obtain ⟨i1, i2⟩ := ih s1 c1
      refine ⟨fun h => ?_, fun h => ?_⟩
      · obtain ⟨x1, x2, x3⟩ := i1 h
        exact ⟨by omega, by omega, by omega⟩
      · obtain ⟨x1, x2, x3⟩ := i2 h
        exact ⟨by omega, by omega, by omega⟩

end EB2

/-! ## Lemmas on mixed-radix offsets -/

theorem radix_bounds (x y s n : Int) (hx0 : 0 ≤ x) (hx : x < s) (hy0 : 0 ≤ y) (hy : y < n) :
    0 ≤ x + y * s ∧ x + y * s < s * n := by
  have hs : (0 : Int) ≤ s := by omega
  have h1 : 0 ≤ y * s := mul_nonneg hy0 hs
  have h2 : (y + 1) * s ≤ n * s := Int.mul_le_mul_of_nonneg_right (by omega) hs
  have h3 : (y + 1) * s = y * s + s := by ring
  have h4 : n * s = s * n := by ring
  constructor
  · omega
  · rw [← h4]
    omega

theorem radix_surj (o s n : Int) (hs : 0 < s) (ho0 : 0 ≤ o) (ho : o < s * n) :
    ∃ x y : Int, 0 ≤ x ∧ x < s ∧ 0 ≤ y ∧ y < n ∧ x + y * s = o := by
  refine ⟨o % s, o / s, Int.emod_nonneg _ (by omega), Int.emod_lt_of_pos _ hs,
    Int.ediv_nonneg ho0 (by omega), ?_, ?_⟩
  · apply Int.ediv_lt_of_lt_mul hs
    rw [mul_comm]
    exact ho
  · have := Int.emod_add_ediv o s
    rw [mul_comm] at this
    exact this

theorem countP_pos_int {α : Type} (p : α → Bool) (vs : List α) :
    (0 : Int) < (vs.countP p : Nat) ↔ ∃ v ∈ vs, p v = true := by
  rw [← List.countP_pos_iff]
  omega

theorem countP_zero_int {α : Type} (p : α → Bool) (vs : List α) :
    ((vs.countP p : Nat) : Int) = 0 ↔ ¬ ∃ v ∈ vs, p v = true := by
  rw [← countP_pos_int]
  omega

/-! ## Lemmas on `getBoxType` -/

namespace EB2

variable {R : Type} [LinearOrderedField R]

theorem isPos_of_isZero (v : Option R) (h : isZero v = true) : isPos v = false := by
  cases v with
  | none => rfl
  | some x =>
    simp only [isZero, decide_eq_true_eq] at h
    subst h
    simp [isPos]

/-- What the final `else` of the three-way test takes: the negative numbers
and NaN. -/
theorem isFluid_iff (v : Option R) : isFluid v = true ↔ isNeg v = true ∨ v = none := by
  cases v with
  | none => simp [isFluid, isZero, isPos]
  | some x =>
    simp only [isFluid, isZero, isPos, isNeg, Bool.and_eq_true, Bool.not_eq_true',
      decide_eq_false_iff_not, decide_eq_true_eq, not_lt, reduceCtorEq, or_false]
    constructor
    · rintro ⟨h0, h1⟩
      exact lt_of_le_of_ne h1 h0
    · intro h
      exact ⟨h.ne, h.le⟩

/-- The number of positive values of a list, as the `int` the code counts. -/
theorem tally_fields (v : Option R) (t : Tally) :
    (tally v t).nbody = t.nbody + (if isPos v = true then 1 else 0) ∧
    (tally v t).nfluid = t.nfluid + (if isFluid v = true then 1 else 0) := by
  unfold tally isFluid
  cases hz : isZero v
  · cases hp : isPos v
    · simp
    · simp
  · rw [isPos_of_isZero v hz]
    simp

theorem scanNodes_spec (vs : List (Option R)) :
    ∀ t : Tally, 0 ≤ t.nbody → 0 ≤ t.nfluid → ¬ (0 < t.nbody ∧ 0 < t.nfluid) →
      (scanNodes vs t = none →
        0 < t.nbody + (vs.countP isPos) ∧
        0 < t.nfluid + (vs.countP isFluid)) ∧
      (∀ t' : Tally, scanNodes vs t = some t' →
        t'.nbody = t.nbody + (vs.countP isPos) ∧
        t'.nfluid = t.nfluid + (vs.countP isFluid) ∧
        ¬ (0 < t'.nbody ∧ 0 < t'.nfluid)) := by
  induction vs with
  | nil =>
    intro t _ _ hboth
    refine ⟨fun h => ?_, fun t' h => ?_⟩
    · simp [scanNodes] at h
    · simp only [scanNodes, Option.some.injEq] at h
      subst h
      simp [hboth]
  | cons v vs ih =>
    intro t hb hf _
    obtain ⟨e1, e2⟩ := tally_fields v t
    have hb' : 0 ≤ (tally v t).nbody := by rw [e1]; split <;> omega
    have hf' : 0 ≤ (tally v t).nfluid := by rw [e2]; split <;> omega
    have c1 : ((List.countP isPos (v :: vs) : Nat) : Int) =
        (if isPos v = true then 1 else 0) + (List.countP isPos vs : Nat) := by
      rw [List.countP_cons]
      by_cases hp : isPos v = true
      all_goals simp [hp]
      all_goals ring
    have c2 : ((List.countP isFluid (v :: vs) : Nat) : Int) =
        (if isFluid v = true then 1 else 0) + (List.countP isFluid vs : Nat) := by
      rw [List.countP_cons]
      by_cases hp : isFluid v = true
      all_goals simp [hp]
      all_goals ring
    by_cases hchk : 0 < (tally v t).nbody ∧ 0 < (tally v t).nfluid
    · have e : scanNodes (v :: vs) t = none := by simp only [scanNodes, if_pos hchk]
      rw [e]
      refine ⟨fun _ => ?_, fun t' h => by cases h⟩
      rw [c1, c2]
      rw [e1, e2] at hchk
      constructor <;> omega
    · have e : scanNodes (v :: vs) t = scanNodes vs (tally v t) := by
        simp only [scanNodes, if_neg hchk]
      rw [e]
      obtain ⟨i1, i2⟩ := ih (tally v t) hb' hf' hchk
      refine ⟨fun h => ?_, fun t' h => ?_⟩
      · obtain ⟨a, b⟩ := i1 h
        rw [c1, c2]
        rw [e1] at a
        rw [e2] at b
        constructor <;> omega
      · obtain ⟨a, b, c⟩ := i2 t' h
        rw [c1, c2]
        rw [e1] at a
        rw [e2] at b
        exact ⟨by omega, by omega, c⟩

theorem reduceSum_counts (vs : List (Option R)) :
    (reduceSum (vs.map fun v => tally v { nbody := 0, nzero := 0, nfluid := 0 })).nbody =
      (vs.countP isPos) ∧
    (reduceSum (vs.map fun v => tally v { nbody := 0, nzero := 0, nfluid := 0 })).nfluid =
      (vs.countP isFluid) := by
  induction vs with
  | nil => exact ⟨rfl, rfl⟩
  | cons v vs ih =>
    obtain ⟨e1, e2⟩ := tally_fields v { nbody := 0, nzero := 0, nfluid := 0 }
    obtain ⟨i1, i2⟩ := ih
    simp only [List.map_cons, reduceSum, List.countP_cons]
    rw [e1, e2, i1, i2]
    constructor
    · by_cases hp : isPos v = true
      all_goals simp [hp]
      all_goals ring
    · by_cases hp : isFluid v = true
      all_goals simp [hp]
      all_goals ring

/-- The device lambda sees the values the host loops see, in the same order. -/
theorem gpu_values (f : R → R → R → Option R) (problo dx : Fin 3 → R)
    (blo len3 : Fin 3 → Int) :
    (gpuCells blo len3).map (gpuTuple f problo dx) =
      (cpuValues f problo dx blo len3).map
        fun v => tally v { nbody := 0, nzero := 0, nfluid := 0 } := by
  unfold gpuCells cpuValues cpuNodes gpuTuple cpuValue
  simp only [List.map_flatMap, List.map_map]
  congr 1
  funext k
  congr 1
  funext j
  congr 1
  funext i
  simp only [Function.comp]
  push_cast
  simp only [add_comm]

/-- The loop indices visited are exactly the triples inside the lengths. -/
theorem mem_cpuNodes (len3 : Fin 3 → Int) (i j k : Int) :
    (i, j, k) ∈ cpuNodes len3 ↔
      (0 ≤ i ∧ i < len3 0) ∧ (0 ≤ j ∧ j < len3 1) ∧ (0 ≤ k ∧ k < len3 2) := by
  unfold cpuNodes
  simp only [List.mem_flatMap, List.mem_map, List.mem_range, Prod.mk.injEq]
  constructor
  · rintro ⟨k', hk, j', hj, i', hi, rfl, rfl, rfl⟩
    omega
  · rintro ⟨⟨hi0, hi⟩, ⟨hj0, hj⟩, ⟨hk0, hk⟩⟩
    exact ⟨k.toNat, by omega, j.toNat, by omega, i.toNat, by omega, by omega, by omega,
      by omega⟩

/-- The classification of `getBoxType_Cpu` in terms of the sampled values. -/
theorem getBoxType_Cpu_spec (f : R → R → R → Option R) (problo dx : Fin 3 → R)
    (blo len3 : Fin 3 → Int) :
    ((getBoxType_Cpu f problo dx blo len3).1 = mixedcells ↔
      (∃ v ∈ cpuValues f problo dx blo len3, isPos v = true) ∧
      (∃ v ∈ cpuValues f problo dx blo len3, isFluid v = true)) ∧
    ((getBoxType_Cpu f problo dx blo len3).1 = allregular ↔
      ¬ ∃ v ∈ cpuValues f problo dx blo len3, isPos v = true) ∧
    ((getBoxType_Cpu f problo dx blo len3).1 = allcovered ↔
      (∃ v ∈ cpuValues f problo dx blo len3, isPos v = true) ∧
      ¬ ∃ v ∈ cpuValues f problo dx blo len3, isFluid v = true) ∧
    (getBoxType_Cpu f problo dx blo len3).2 ≠ BoxReturn.finalElse := by
  obtain ⟨s1, s2⟩ := scanNodes_spec (cpuValues f problo dx blo len3)
    { nbody := 0, nzero := 0, nfluid := 0 } (le_refl _) (le_refl _) (by simp)
  have hP := countP_pos_int (isPos : Option R → Bool) (cpuValues f problo dx blo len3)
  have hN := countP_pos_int (isFluid : Option R → Bool) (cpuValues f problo dx blo len3)
  unfold getBoxType_Cpu
  cases hsc : scanNodes (cpuValues f problo dx blo len3) { nbody := 0, nzero := 0, nfluid := 0 } with
  | none =>
    obtain ⟨a, b⟩ := s1 hsc
    simp only [zero_add] at a b
    have hp := hP.mp a
    have hn := hN.mp b
    refine ⟨⟨fun _ => ⟨hp, hn⟩, fun _ => rfl⟩, ⟨fun h => ?_, fun h => absurd hp h⟩,
      ⟨fun h => ?_, fun h => absurd hn h.2⟩, fun h => ?_⟩
    · exact absurd h (by decide)
    · exact absurd h (by decide)
    · cases h
  | some t =>
    obtain ⟨a, b, c⟩ := s2 t hsc
    simp only [zero_add] at a b
    have hp : 0 < t.nbody ↔ ∃ v ∈ cpuValues f problo dx blo len3, isPos v = true := by
      rw [a]; exact hP
    have hn : 0 < t.nfluid ↔ ∃ v ∈ cpuValues f problo dx blo len3, isFluid v = true := by
      rw [b]; exact hN
    have hb0 : 0 ≤ t.nbody := by rw [a]; omega
    have hf0 : 0 ≤ t.nfluid := by rw [b]; omega
    by_cases h1 : t.nbody = 0
    · have np : ¬ ∃ v ∈ cpuValues f problo dx blo len3, isPos v = true := by
        rw [← hp]; omega
      have e : (match some t with
          | none => (mixedcells, BoxReturn.early)
          | some t =>
            if t.nbody = 0 then (allregular, BoxReturn.regular)
            else if t.nfluid = 0 then (allcovered, BoxReturn.covered)
            else (mixedcells, BoxReturn.finalElse)) = (allregular, BoxReturn.regular) := by
        simp only [if_pos h1]
      rw [e]
      refine ⟨⟨fun h => ?_, fun h => absurd h.1 np⟩, ⟨fun _ => np, fun _ => rfl⟩,
        ⟨fun h => ?_, fun h => absurd h.1 np⟩, fun h => ?_⟩
      · exact absurd h (by decide)
      · exact absurd h (by decide)
      · cases h
    · have pp : ∃ v ∈ cpuValues f problo dx blo len3, isPos v = true := hp.mp (by omega)
      have h2 : t.nfluid = 0 := by
        by_contra hne
        exact c ⟨by omega, by omega⟩
      have nn : ¬ ∃ v ∈ cpuValues f problo dx blo len3, isFluid v = true := by
        rw [← hn]; omega
      have e : (match some t with
          | none => (mixedcells, BoxReturn.early)
          | some t =>
            if t.nbody = 0 then (allregular, BoxReturn.regular)
            else if t.nfluid = 0 then (allcovered, BoxReturn.covered)
            else (mixedcells, BoxReturn.finalElse)) = (allcovered, BoxReturn.covered) := by
        simp only [if_neg h1, if_pos h2]
      rw [e]
      refine ⟨⟨fun h => ?_, fun h => absurd h.2 nn⟩, ⟨fun h => ?_, fun h => absurd pp h⟩,
        ⟨fun _ => ⟨pp, nn⟩, fun _ => rfl⟩, fun h => ?_⟩
      · exact absurd h (by decide)
      · exact absurd h (by decide)
      · cases h

/-- The classification of the full reduction in terms of the sampled values. -/
theorem getBoxType_Gpu_spec (f : R → R → R → Option R) (problo dx : Fin 3 → R)
    (blo len3 : Fin 3 → Int) :
    getBoxType_Gpu f problo dx blo len3 =
      if ¬ ∃ v ∈ cpuValues f problo dx blo len3, isPos v = true then allregular
      else if ¬ ∃ v ∈ cpuValues f problo dx blo len3, isFluid v = true then allcovered
      else mixedcells := by
  obtain ⟨r1, r2⟩ := reduceSum_counts (cpuValues f problo dx blo len3)
  have hP := countP_zero_int (isPos : Option R → Bool) (cpuValues f problo dx blo len3)
  have hN := countP_zero_int (isFluid : Option R → Bool) (cpuValues f problo dx blo len3)
  unfold getBoxType_Gpu
  rw [gpu_values, r1, r2]
  by_cases h1 : ((List.countP isPos (cpuValues f problo dx blo len3) : Nat) : Int) = 0
  · rw [if_pos h1, if_pos (hP.mp h1)]
  · rw [if_neg h1, if_neg (fun h => h1 (hP.mpr h))]
    by_cases h2 : ((List.countP isFluid (cpuValues f problo dx blo len3) : Nat) : Int) = 0
    · rw [if_pos h2, if_pos (hN.mp h2)]
    · rw [if_neg h2, if_neg (fun h => h2 (hN.mpr h))]

end EB2

/-! ## Lemmas on the numerics of `BrentRootFinder` -/

namespace EB2

variable {R : Type} [LinearOrderedField R] {dim : Nat}

theorem brentTol1_pos (rangedir : Fin dim) (s : BrentState R dim) :
    0 < brentTol1 rangedir s := by
  unfold brentTol1 EPS tol
  have h : (0 : R) ≤ 2 * (3 / 1000000000000000) * |s.bPt rangedir| := by positivity
  have h2 : (0 : R) < 1 / 2 * (1 / 1000000000000) := by positivity
  linarith

theorem brentXm_two (rangedir : Fin dim) (s : BrentState R dim) :
    2 * brentXm rangedir s = s.c - s.bPt rangedir := by
  unfold brentXm
  ring

/-- After the second renaming block `fb` is the smaller of the two values. -/
theorem brentSwap_abs (rangedir : Fin dim) (s : BrentState R dim) :
    |(brentSwap rangedir s).fb| ≤ |(brentSwap rangedir s).fc| := by
  unfold brentSwap
  split
  · rename_i h
    exact le_of_lt h
  · rename_i h
    exact not_lt.mp h

/-- The acceptance test forces the denominator to have the sign of `xm`. -/
theorem brentAccept_sign (rangedir : Fin dim) (s : BrentState R dim)
    (h : brentAccept rangedir s) :
    0 < brentXm rangedir s * brentQ rangedir s ∧
    2 * brentP rangedir s < 3 * (brentXm rangedir s * brentQ rangedir s) := by
  unfold brentAccept at h
  have h1 := lt_of_lt_of_le h (min_le_left _ _)
  have hp : 0 ≤ brentP rangedir s := by
    unfold brentP
    exact abs_nonneg _
  have ht : 0 ≤ |brentTol1 rangedir s * brentQ rangedir s| := abs_nonneg _
  constructor
  · nlinarith
  · nlinarith

theorem brentAccept_q_ne_zero (rangedir : Fin dim) (s : BrentState R dim)
    (h : brentAccept rangedir s) : brentQ rangedir s ≠ 0 := by
  intro hq
  have := (brentAccept_sign rangedir s h).1
  rw [hq, mul_zero] at this
  exact lt_irrefl _ this

/-- The step `d` chosen after the convergence check points from `b` towards `c`
and is no longer than `c - b`. -/
theorem brentDE_between (rangedir : Fin dim) (s : BrentState R dim) :
    (0 ≤ (brentDE rangedir s).1 ∧ (brentDE rangedir s).1 ≤ s.c - s.bPt rangedir) ∨
    (s.c - s.bPt rangedir ≤ (brentDE rangedir s).1 ∧ (brentDE rangedir s).1 ≤ 0) := by
  have h2 := brentXm_two rangedir s
  have hbis : (0 ≤ brentXm rangedir s ∧ brentXm rangedir s ≤ s.c - s.bPt rangedir) ∨
      (s.c - s.bPt rangedir ≤ brentXm rangedir s ∧ brentXm rangedir s ≤ 0) := by
    rcases le_total 0 (brentXm rangedir s) with h | h
    · left; constructor <;> linarith
    · right; constructor <;> linarith
  unfold brentDE
  split
  · split
    · rename_i hacc
      obtain ⟨hs, hlt⟩ := brentAccept_sign rangedir s hacc
      have hp : 0 ≤ brentP rangedir s := by
        unfold brentP
        exact abs_nonneg _
      rcases lt_trichotomy (brentQ rangedir s) 0 with hq | hq | hq
      · right
        have hx : brentXm rangedir s < 0 := by
          by_contra hx
          have : brentXm rangedir s * brentQ rangedir s ≤ 0 :=
            mul_nonpos_of_nonneg_of_nonpos (not_lt.mp hx) hq.le
          linarith
        constructor
        · show s.c - s.bPt rangedir ≤ brentP rangedir s / brentQ rangedir s
          rw [le_div_iff_of_neg hq]
          nlinarith
        · exact div_nonpos_of_nonneg_of_nonpos hp hq.le
      · rw [hq, mul_zero] at hs
        exact absurd hs (lt_irrefl _)
      · left
        have hx : 0 < brentXm rangedir s := by
          by_contra hx
          have : brentXm rangedir s * brentQ rangedir s ≤ 0 :=
            mul_nonpos_of_nonpos_of_nonneg (not_lt.mp hx) hq.le
          linarith
        constructor
        · exact div_nonneg hp hq.le
        · show brentP rangedir s / brentQ rangedir s ≤ s.c - s.bPt rangedir
          rw [div_le_iff₀ hq]
          nlinarith
    · exact hbis
  · exact hbis

/-- The new trial root lies between the current estimate `b` and the
contrapoint `c`, whatever step was chosen. -/
theorem brentNewB_between (rangedir : Fin dim) (s : BrentState R dim)
    (hnc : ¬ brentConverged rangedir s) :
    (s.bPt rangedir ≤ brentNewB rangedir s ∧ brentNewB rangedir s ≤ s.c) ∨
    (s.c ≤ brentNewB rangedir s ∧ brentNewB rangedir s ≤ s.bPt rangedir) := by
  have h2 := brentXm_two rangedir s
  have htol := brentTol1_pos rangedir s
  have hx : brentTol1 rangedir s < |brentXm rangedir s| := by
    unfold brentConverged at hnc
    exact not_le.mp (fun h => hnc (Or.inl h))
  unfold brentNewB
  split
  · rcases brentDE_between rangedir s with ⟨a, b⟩ | ⟨a, b⟩
    · left; constructor <;> linarith
    · right; constructor <;> linarith
  · split
    · rename_i hneg
      rw [abs_of_neg hneg] at hx
      right; constructor <;> linarith
    · rename_i hneg
      rw [abs_of_nonneg (not_lt.mp hneg)] at hx
      left; constructor <;> linarith

theorem brentRename_inRange (rangedir : Fin dim) (m M : R) (s : BrentState R dim)
    (h : InRange rangedir m M s) : InRange rangedir m M (brentRename rangedir s) := by
  obtain ⟨ha, hb, hc⟩ := h
  unfold brentRename
  split
  · exact ⟨ha, hb, ha⟩
  · exact ⟨ha, hb, hc⟩

theorem brentSwap_inRange (rangedir : Fin dim) (m M : R) (s : BrentState R dim)
    (h : InRange rangedir m M s) : InRange rangedir m M (brentSwap rangedir s) := by
  obtain ⟨ha, hb, hc⟩ := h
  unfold brentSwap
  split
  · refine ⟨?_, ?_, hb⟩
    · show m ≤ Function.update s.aPt rangedir (s.bPt rangedir) rangedir ∧
        Function.update s.aPt rangedir (s.bPt rangedir) rangedir ≤ M
      rw [Function.update_same]
      exact hb
    · show m ≤ Function.update s.bPt rangedir s.c rangedir ∧
        Function.update s.bPt rangedir s.c rangedir ≤ M
      rw [Function.update_same]
      exact hc
  · exact ⟨ha, hb, hc⟩

theorem brentAdvance_inRange (f : GpuArray R dim → R) (rangedir : Fin dim) (m M : R)
    (s : BrentState R dim) (hnc : ¬ brentConverged rangedir s)
    (h : InRange rangedir m M s) : InRange rangedir m M (brentAdvance f rangedir s) := by
  obtain ⟨_, hb, hc⟩ := h
  have hnew : m ≤ brentNewB rangedir s ∧ brentNewB rangedir s ≤ M := by
    rcases brentNewB_between rangedir s hnc with ⟨x, y⟩ | ⟨x, y⟩
    · exact ⟨le_trans hb.1 x, le_trans y hc.2⟩
    · exact ⟨le_trans hc.1 x, le_trans y hb.2⟩
  unfold InRange brentAdvance
  simp only [Function.update_same]
  exact ⟨hb, hnew, hc⟩

theorem brentBody_inRange (f : GpuArray R dim → R) (rangedir : Fin dim) (m M : R)
    (s : BrentState R dim) (h : InRange rangedir m M s) :
    InRange rangedir m M (brentBody f rangedir s) := by
  have ht := brentSwap_inRange rangedir m M _ (brentRename_inRange rangedir m M s h)
  unfold brentBody
  split
  · exact ht
  · rename_i hnc
    exact brentAdvance_inRange f rangedir m M _ hnc ht

theorem brentLoop_inRange (f : GpuArray R dim → R) (rangedir : Fin dim) (m M : R)
    (fuel : Nat) :
    ∀ s : BrentState R dim, InRange rangedir m M s →
      InRange rangedir m M (brentLoop f rangedir fuel s) := by
  induction fuel with
  | zero => intro s h; exact h
  | succ fuel ih =>
    intro s h
    have hb := brentBody_inRange f rangedir m M s h
    simp only [brentLoop]
    split
    · exact hb
    · exact ih _ hb

end EB2

/-! ## More lemmas on `getBoxType` -/

namespace EB2

variable {R : Type} [LinearOrderedField R]

theorem exists_cpuValues_iff (f : R → R → R → Option R) (problo dx : Fin 3 → R)
    (blo len3 : Fin 3 → Int) (P : Option R → Prop) :
    (∃ v ∈ cpuValues f problo dx blo len3, P v) ↔
      ∃ n ∈ cpuNodes len3, P (cpuValue f problo dx blo n) := by
  unfold cpuValues
  constructor
  · rintro ⟨v, hv, hP⟩
    obtain ⟨n, hn, rfl⟩ := List.mem_map.mp hv
    exact ⟨n, hn, hP⟩
  · rintro ⟨n, hn, hP⟩
    exact ⟨_, List.mem_map.mpr ⟨n, hn, rfl⟩, hP⟩

theorem cpuNodes_empty (len3 : Fin 3 → Int) (h : ∃ d, len3 d ≤ 0) : cpuNodes len3 = [] := by
  apply List.eq_nil_iff_forall_not_mem.mpr
  rintro ⟨i, j, k⟩ hmem
  obtain ⟨⟨a0, a1⟩, ⟨b0, b1⟩, ⟨c0, c1⟩⟩ := (mem_cpuNodes len3 i j k).mp hmem
  obtain ⟨d, hd⟩ := h
  fin_cases d
  · have : len3 0 ≤ 0 := hd
    omega
  · have : len3 1 ≤ 0 := hd
    omega
  · have : len3 2 ≤ 0 := hd
    omega

/-- The classification of `getBoxType_Cpu` in terms of the lattice nodes. -/
theorem getBoxType_Cpu_nodes (f : R → R → R → Option R) (problo dx : Fin 3 → R)
    (blo len3 : Fin 3 → Int) :
    ((getBoxType_Cpu f problo dx blo len3).1 = mixedcells ↔
      (∃ n ∈ cpuNodes len3, isPos (cpuValue f problo dx blo n) = true) ∧
      (∃ n ∈ cpuNodes len3, isNeg (cpuValue f problo dx blo n) = true ∨
        cpuValue f problo dx blo n = none)) ∧
    ((getBoxType_Cpu f problo dx blo len3).1 = allregular ↔
      ¬ ∃ n ∈ cpuNodes len3, isPos (cpuValue f problo dx blo n) = true) ∧
    ((getBoxType_Cpu f problo dx blo len3).1 = allcovered ↔
      (∃ n ∈ cpuNodes len3, isPos (cpuValue f problo dx blo n) = true) ∧
      ¬ ∃ n ∈ cpuNodes len3, isNeg (cpuValue f problo dx blo n) = true ∨
        cpuValue f problo dx blo n = none) ∧
    (getBoxType_Cpu f problo dx blo len3).2 ≠ BoxReturn.finalElse := by
  obtain ⟨hm, hr, hc, hf⟩ := getBoxType_Cpu_spec f problo dx blo len3
  rw [exists_cpuValues_iff f problo dx blo len3 (fun v => isPos v = true),
    exists_cpuValues_iff f problo dx blo len3 (fun v => isFluid v = true)] at hm hc
  rw [exists_cpuValues_iff f problo dx blo len3 (fun v => isPos v = true)] at hr
  simp only [isFluid_iff] at hm hc
  exact ⟨hm, hr, hc, hf⟩

/-- The reduction branch and the loop nest with its early return classify
alike. -/
theorem getBoxType_Gpu_eq_Cpu (f : R → R → R → Option R) (problo dx : Fin 3 → R)
    (blo len3 : Fin 3 → Int) :
    getBoxType_Gpu f problo dx blo len3 = (getBoxType_Cpu f problo dx blo len3).1 := by
  obtain ⟨hm, hr, hc, _⟩ := getBoxType_Cpu_spec f problo dx blo len3
  rw [getBoxType_Gpu_spec]
  by_cases hp : ∃ v ∈ cpuValues f problo dx blo len3, isPos v = true
  · rw [if_neg (not_not.mpr hp)]
    by_cases hn : ∃ v ∈ cpuValues f problo dx blo len3, isFluid v = true
    · rw [if_neg (not_not.mpr hn)]
      exact (hm.mpr ⟨hp, hn⟩).symm
    · rw [if_pos hn]
      exact (hc.mpr ⟨hp, hn⟩).symm
  · rw [if_pos hp]
    exact (hr.mpr hp).symm

end EB2

/-! ## Lemmas on the bracket kept by `BrentRootFinder` -/

/-- End points that differ only in the coordinate `rangedir` span one line. -/
theorem update_line {α : Type} {dim : Nat} (lo hi : Fin dim → α) (rangedir : Fin dim)
    (hline : ∀ j, j ≠ rangedir → hi j = lo j) (x : α) :
    Function.update hi rangedir x = Function.update lo rangedir x := by
  funext j
  by_cases hj : j = rangedir
  · subst hj
    rw [Function.update_same, Function.update_same]
  · rw [Function.update_noteq hj, Function.update_noteq hj]
    exact hline j hj

/-- On one line a sample is the value of `f` along the line. -/
theorem sampleAt_line {R : Type} {dim : Nat} (f : EB2.GpuArray R dim → R)
    (lo hi : EB2.GpuArray R dim) (rangedir : Fin dim)
    (hline : ∀ j, j ≠ rangedir → hi j = lo j) (x v : R)
    (h : EB2.SampleAt f lo hi rangedir x v) : v = EB2.alongLine f lo rangedir x := by
  unfold EB2.alongLine
  rcases h with h | h
  · exact h
  · rw [h, update_line lo hi rangedir hline]

namespace EB2

variable {R : Type} [LinearOrderedField R] {dim : Nat}

/-- Every convergence check happens right after the second renaming block. -/
theorem brentChecks_swap (f : GpuArray R dim → R) (rangedir : Fin dim) (fuel : Nat) :
    ∀ s : BrentState R dim, ∀ t ∈ brentChecks f rangedir fuel s,
      ∃ u : BrentState R dim, t = brentSwap rangedir u := by
  induction fuel with
  | zero =>
    intro s t ht
    simp only [brentChecks, List.not_mem_nil] at ht
  | succ fuel ih =>
    intro s t ht
    simp only [brentChecks, List.mem_cons] at ht
    rcases ht with rfl | ht
    · exact ⟨_, rfl⟩
    · split at ht
      · exact absurd ht (List.not_mem_nil t)
      · exact ih _ t ht

/-- In a state after the second renaming block in which the loop goes on and
enters the interpolation branch, none of the divisors is zero. -/
theorem brentSwap_denominators (rangedir : Fin dim) (u : BrentState R dim)
    (hnc : ¬ brentConverged rangedir (brentSwap rangedir u))
    (hin : brentTol1 rangedir (brentSwap rangedir u) ≤ |(brentSwap rangedir u).e| ∧
      |(brentSwap rangedir u).fb| < |(brentSwap rangedir u).fa|) :
    (brentSwap rangedir u).fa ≠ 0 ∧ (brentSwap rangedir u).fc ≠ 0 ∧
    (brentAccept rangedir (brentSwap rangedir u) →
      brentQ rangedir (brentSwap rangedir u) ≠ 0) := by
  have hb : (brentSwap rangedir u).fb ≠ 0 := fun h => hnc (Or.inr h)
  have hbpos : 0 < |(brentSwap rangedir u).fb| := abs_pos.mpr hb
  refine ⟨?_, ?_, brentAccept_q_ne_zero rangedir _⟩
  · exact abs_pos.mp (lt_trans hbpos hin.2)
  · exact abs_pos.mp (lt_of_lt_of_le hbpos (brentSwap_abs rangedir u))

theorem brentDivisors_ne_zero (rangedir : Fin dim) (u : BrentState R dim) :
    ∀ x ∈ brentDivisors rangedir (brentSwap rangedir u), x ≠ 0 := by
  intro x hx
  unfold brentDivisors at hx
  split at hx
  · exact absurd hx (List.not_mem_nil x)
  · rename_i hnc
    split at hx
    · rename_i hin
      obtain ⟨h1, h2, h3⟩ := brentSwap_denominators rangedir u hnc hin
      rcases List.mem_append.mp hx with hx | hx
      · rcases List.mem_cons.mp hx with rfl | hx
        · exact h1
        · split at hx
          · exact absurd hx (List.not_mem_nil x)
          · simp only [List.mem_cons, List.mem_singleton, List.not_mem_nil, or_false,
              or_self] at hx
            rw [hx]
            exact h2
      · split at hx
        · rename_i hacc
          rw [List.mem_singleton.mp hx]
          exact h3 hacc
        · exact absurd hx (List.not_mem_nil x)
    · exact absurd hx (List.not_mem_nil x)

theorem brentInit_inv (lo hi : GpuArray R dim) (rangedir : Fin dim) (f : GpuArray R dim → R)
    (hbr : f lo * f hi < 0) :
    BracketTop (brentInit lo hi rangedir f) ∧
    Sampled f lo hi rangedir (brentInit lo hi rangedir f) := by
  constructor
  · intro _
    exact hbr.le
  · unfold Sampled SampleAt brentInit IF_f
    refine ⟨Or.inl ?_, Or.inr ?_, Or.inr ?_, fun _ => rfl⟩
    · rw [Function.update_eq_self]
    · rw [Function.update_eq_self]
    · rw [Function.update_eq_self]

theorem brentRename_inv (f : GpuArray R dim → R) (lo hi : GpuArray R dim) (rangedir : Fin dim)
    (s : BrentState R dim) (hT : BracketTop s) (hS : Sampled f lo hi rangedir s) :
    (brentRename rangedir s).fb * (brentRename rangedir s).fc ≤ 0 ∧
    Sampled f lo hi rangedir (brentRename rangedir s) := by
  obtain ⟨sa, sb, sc, so⟩ := hS
  unfold brentRename
  split
  · rename_i h
    refine ⟨?_, sa, sb, sa, so⟩
    show s.fb * s.fa ≤ 0
    rw [mul_comm]
    exact hT h
  · rename_i h
    exact ⟨not_lt.mp h, sa, sb, sc, so⟩

theorem brentSwap_inv (f : GpuArray R dim → R) (lo hi : GpuArray R dim) (rangedir : Fin dim)
    (s : BrentState R dim) (hb : s.fb * s.fc ≤ 0) (hS : Sampled f lo hi rangedir s) :
    (brentSwap rangedir s).fb * (brentSwap rangedir s).fc ≤ 0 ∧
    Sampled f lo hi rangedir (brentSwap rangedir s) := by
  obtain ⟨sa, sb, sc, so⟩ := hS
  unfold brentSwap
  split
  · refine ⟨?_, ?_, ?_, sb, ?_⟩
    · show s.fc * s.fb ≤ 0
      rw [mul_comm]
      exact hb
    · show SampleAt f lo hi rangedir
        (Function.update s.aPt rangedir (s.bPt rangedir) rangedir) s.fb
      rw [Function.update_same]
      exact sb
    · show SampleAt f lo hi rangedir (Function.update s.bPt rangedir s.c rangedir) s.fc
      rw [Function.update_same]
      exact sc
    · intro x
      show Function.update (Function.update s.bPt rangedir s.c) rangedir x = _
      rw [Function.update_idem]
      exact so x
  · exact ⟨hb, sa, sb, sc, so⟩

theorem brentAdvance_inv (f : GpuArray R dim → R) (lo hi : GpuArray R dim) (rangedir : Fin dim)
    (t : BrentState R dim) (hb : t.fb * t.fc ≤ 0) (hS : Sampled f lo hi rangedir t) :
    BracketTop (brentAdvance f rangedir t) ∧
    Sampled f lo hi rangedir (brentAdvance f rangedir t) := by
  obtain ⟨sa, sb, sc, so⟩ := hS
  constructor
  · intro h
    have h' : 0 < f (Function.update t.bPt rangedir (brentNewB rangedir t)) * t.fc := h
    show t.fb * f (Function.update t.bPt rangedir (brentNewB rangedir t)) ≤ 0
    rcases pos_and_pos_or_neg_and_neg_of_mul_pos h' with ⟨h1, h2⟩ | ⟨h1, h2⟩
    · have : t.fb ≤ 0 := by
        by_contra hc
        have := mul_pos (not_le.mp hc) h2
        exact absurd hb (not_le.mpr this)
      exact mul_nonpos_of_nonpos_of_nonneg this h1.le
    · have : 0 ≤ t.fb := by
        by_contra hc
        have := mul_pos_of_neg_of_neg (not_le.mp hc) h2
        exact absurd hb (not_le.mpr this)
      exact mul_nonpos_of_nonneg_of_nonpos this h1.le
  · refine ⟨?_, ?_, sc, ?_⟩
    · show SampleAt f lo hi rangedir
        (Function.update t.aPt rangedir (t.bPt rangedir) rangedir) t.fb
      rw [Function.update_same]
      exact sb
    · show SampleAt f lo hi rangedir
        (Function.update t.bPt rangedir (brentNewB rangedir t) rangedir)
        (f (Function.update t.bPt rangedir (brentNewB rangedir t)))
      rw [Function.update_same, so]
      exact Or.inr rfl
    · intro x
      show Function.update (Function.update t.bPt rangedir (brentNewB rangedir t)) rangedir x = _
      rw [Function.update_idem]
      exact so x

/-- What holds in a state `t` in which the convergence check is made. -/
theorem brentCheck_inv (f : GpuArray R dim → R) (lo hi : GpuArray R dim) (rangedir : Fin dim)
    (s : BrentState R dim) (hT : BracketTop s) (hS : Sampled f lo hi rangedir s) :
    (brentSwap rangedir (brentRename rangedir s)).fb *
      (brentSwap rangedir (brentRename rangedir s)).fc ≤ 0 ∧
    |(brentSwap rangedir (brentRename rangedir s)).fb| ≤
      |(brentSwap rangedir (brentRename rangedir s)).fc| ∧
    Sampled f lo hi rangedir (brentSwap rangedir (brentRename rangedir s)) := by
  obtain ⟨r1, r2⟩ := brentRename_inv f lo hi rangedir s hT hS
  obtain ⟨w1, w2⟩ := brentSwap_inv f lo hi rangedir _ r1 r2
  exact ⟨w1, brentSwap_abs rangedir _, w2⟩

/-- A body that did not take the `break` went on from the check state. -/
theorem brentBody_of_not_converged (f : GpuArray R dim → R) (rangedir : Fin dim)
    (s : BrentState R dim) (h : (brentBody f rangedir s).converged = false) :
    ¬ brentConverged rangedir (brentSwap rangedir (brentRename rangedir s)) ∧
    brentBody f rangedir s =
      { brentAdvance f rangedir (brentSwap rangedir (brentRename rangedir s)) with
        iters := s.iters + 1 } := by
  unfold brentBody at h ⊢
  split
  · rename_i hc
    rw [if_pos hc] at h
    exact absurd h (by simp)
  · rename_i hc
    exact ⟨hc, rfl⟩

/-- A body that took the `break` stopped in the check state. -/
theorem brentBody_of_converged (f : GpuArray R dim → R) (rangedir : Fin dim)
    (s : BrentState R dim) (hs : s.converged = false)
    (h : (brentBody f rangedir s).converged = true) :
    brentConverged rangedir (brentSwap rangedir (brentRename rangedir s)) ∧
    brentBody f rangedir s =
      { brentSwap rangedir (brentRename rangedir s) with
        iters := s.iters + 1
        converged := true } := by
  have hc : (brentSwap rangedir (brentRename rangedir s)).converged = false := by
    rw [(brentSwap_ghost rangedir _).2.2.2, (brentRename_ghost rangedir s).2.2.2]
    exact hs
  unfold brentBody at h ⊢
  split
  · rename_i hb
    exact ⟨hb, rfl⟩
  · rename_i hb
    rw [if_neg hb] at h
    have : (brentSwap rangedir (brentRename rangedir s)).converged = true := h
    rw [hc] at this
    exact absurd this (by simp)

/-- A body that takes the `break` ends the loop. -/
theorem brentLoop_of_body_converged (f : GpuArray R dim → R) (rangedir : Fin dim) (fuel : Nat)
    (s : BrentState R dim) (h : (brentBody f rangedir s).converged = true) :
    brentLoop f rangedir (fuel + 1) s = brentBody f rangedir s := by
  simp only [brentLoop]
  rw [if_pos h]

/-- At every convergence check of a run that starts with a bracket, the
stored values `fb` and `fc` are samples of `f` at `b` and `c`, they bracket a
root and `fb` is the smaller one. -/
theorem brentChecks_inv (f : GpuArray R dim → R) (lo hi : GpuArray R dim) (rangedir : Fin dim)
    (fuel : Nat) :
    ∀ s : BrentState R dim, BracketTop s → Sampled f lo hi rangedir s →
      ∀ t ∈ brentChecks f rangedir fuel s,
        t.fb * t.fc ≤ 0 ∧ |t.fb| ≤ |t.fc| ∧ Sampled f lo hi rangedir t := by
  induction fuel with
  | zero =>
    intro s _ _ t ht
    simp only [brentChecks, List.not_mem_nil] at ht
  | succ fuel ih =>
    intro s hT hS t ht
    obtain ⟨c1, c2, c3⟩ := brentCheck_inv f lo hi rangedir s hT hS
    simp only [brentChecks, List.mem_cons] at ht
    rcases ht with rfl | ht
    · exact ⟨c1, c2, c3⟩
    · split at ht
      · exact absurd ht (List.not_mem_nil t)
      · rename_i hb
        obtain ⟨_, e⟩ := brentBody_of_not_converged f rangedir s (Bool.not_eq_true _ ▸ hb)
        obtain ⟨a1, a2⟩ := brentAdvance_inv f lo hi rangedir _ c1 c3
        rw [e] at ht
        refine ih _ ?_ ?_ t ht
        · exact a1
        · exact a2

/-- When the loop stops by its convergence test, the final state is one in
which the check succeeded on a bracket. -/
theorem brentLoop_final (f : GpuArray R dim → R) (lo hi : GpuArray R dim) (rangedir : Fin dim)
    (fuel : Nat) :
    ∀ s : BrentState R dim, BracketTop s → Sampled f lo hi rangedir s →
      s.converged = false → (brentLoop f rangedir fuel s).converged = true →
        (brentLoop f rangedir fuel s).fb * (brentLoop f rangedir fuel s).fc ≤ 0 ∧
        |(brentLoop f rangedir fuel s).fb| ≤ |(brentLoop f rangedir fuel s).fc| ∧
        Sampled f lo hi rangedir (brentLoop f rangedir fuel s) ∧
        brentConverged rangedir (brentLoop f rangedir fuel s) := by
  induction fuel with
  | zero =>
    intro s _ _ hs h
    have : s.converged = true := h
    rw [hs] at this
    exact absurd this (by simp)
  | succ fuel ih =>
    intro s hT hS hs h
    obtain ⟨c1, c2, c3⟩ := brentCheck_inv f lo hi rangedir s hT hS
    simp only [brentLoop] at h ⊢
    split
    · rename_i hb
      obtain ⟨hc, e⟩ := brentBody_of_converged f rangedir s hs hb
      rw [e]
      exact ⟨c1, c2, c3, hc⟩
    · rename_i hb
      rw [if_neg hb] at h
      have hb' : (brentBody f rangedir s).converged = false := Bool.not_eq_true _ ▸ hb
      obtain ⟨_, e⟩ := brentBody_of_not_converged f rangedir s hb'
      obtain ⟨a1, a2⟩ := brentAdvance_inv f lo hi rangedir _ c1 c3
      have hs' : ({ brentBody f rangedir s with
          i := (brentBody f rangedir s).i + 1 } : BrentState R dim).converged = false := hb'
      have key := ih _ (by rw [e]; exact a1) (by rw [e]; exact a2) hs' h
      exact key

/-- The convergence test bounds the distance from `b` to `c`. -/
theorem brentConverged_dist (rangedir : Fin dim) (s : BrentState R dim)
    (h : brentConverged rangedir s) :
    s.fb = 0 ∨ |s.c - s.bPt rangedir| ≤ 2 * (2 * EPS * |s.bPt rangedir| + 1 / 2 * tol) := by
  rcases h with h | h
  · right
    have h2 := brentXm_two rangedir s
    have : |2 * brentXm rangedir s| = 2 * |brentXm rangedir s| := by
      rw [abs_mul, abs_of_pos (by norm_num : (0 : R) < 2)]
    rw [← h2, this]
    unfold brentTol1 at h
    linarith
  · exact Or.inl h

end EB2

/-! ## Lemmas on rounding to `double` -/

namespace EB2

/-- Rounding to the nearest integer gives a positive integer exactly above one
half. -/
theorem rne_pos_iff (q : ℚ) : 0 < rne q ↔ 1 / 2 < q := by
  have hfl : (⌊q⌋ : ℚ) ≤ q := Int.floor_le q
  have hlt : q < (⌊q⌋ : ℚ) + 1 := Int.lt_floor_add_one q
  constructor
  · intro h
    by_contra hq
    have hq' : q ≤ 1 / 2 := not_lt.mp hq
    have hf0 : ⌊q⌋ ≤ 0 := by
      have : (⌊q⌋ : ℚ) < 1 := by linarith
      have : ⌊q⌋ < 1 := by exact_mod_cast this
      omega
    unfold rne at h
    split_ifs at h with h1 h2 h3
    · omega
    · have : (⌊q⌋ : ℚ) < 0 := by linarith
      have : ⌊q⌋ < 0 := by exact_mod_cast this
      omega
    · omega
    · have e : q - ⌊q⌋ = 1 / 2 := le_antisymm (not_lt.mp h2) (not_lt.mp h1)
      have : ⌊q⌋ = 0 := by omega
      rw [this] at h3
      exact h3 (by decide)
  · intro hq
    have hf0 : 0 ≤ ⌊q⌋ := Int.floor_nonneg.mpr (by linarith)
    unfold rne
    split_ifs with h1 h2 h3
    · have : (0 : ℚ) < ⌊q⌋ := by linarith
      exact_mod_cast this
    · omega
    · have e : q - ⌊q⌋ = 1 / 2 := le_antisymm (not_lt.mp h2) (not_lt.mp h1)
      rcases hf0.lt_or_eq with h | h
      · exact h
      · rw [← h] at e
        simp only [Int.cast_zero, sub_zero] at e
        rw [e] at hq
        exact absurd hq (lt_irrefl _)
    · omega

/-- The rounded value is positive exactly when the real number lies above
`2^-1075`, half the smallest positive `double`. -/
theorem roundDouble_pos_iff (x : ℚ) : 0 < roundDouble x ↔ (2 : ℚ) ^ (-1075 : ℤ) < x := by
  have hs : (0 : ℚ) < (2 : ℚ) ^ ulpExp x := zpow_pos (by norm_num) _
  have step1 : 0 < roundDouble x ↔ 1 / 2 < x / (2 : ℚ) ^ ulpExp x := by
    unfold roundDouble
    rw [← rne_pos_iff]
    constructor
    · intro h
      have := (mul_pos_iff_of_pos_right hs).mp h
      exact_mod_cast this
    · intro h
      have : (0 : ℚ) < (rne (x / (2 : ℚ) ^ ulpExp x) : ℚ) := by exact_mod_cast h
      exact mul_pos this hs
  rw [step1, lt_div_iff₀ hs]
  have hthr : (1 : ℚ) / 2 * (2 : ℚ) ^ (-1074 : ℤ) = (2 : ℚ) ^ (-1075 : ℤ) := by
    rw [show (-1075 : ℤ) = -1074 - 1 from rfl, zpow_sub_one₀ (by norm_num : (2 : ℚ) ≠ 0)]
    ring
  by_cases hx : 0 < x
  · rcases le_total (Int.log 2 |x| - 52) (-1074) with hle | hge
    · have e : ulpExp x = -1074 := by
        unfold ulpExp
        exact max_eq_left hle
      rw [e, hthr]
    · have e : ulpExp x = Int.log 2 |x| - 52 := by
        unfold ulpExp
        exact max_eq_right hge
      have hlog : ((2 : ℕ) : ℚ) ^ Int.log 2 |x| ≤ |x| :=
        Int.zpow_log_le_self (by norm_num) (abs_pos.mpr hx.ne')
      have hlog' : (2 : ℚ) ^ Int.log 2 |x| ≤ x :=
        calc (2 : ℚ) ^ Int.log 2 |x| ≤ |x| := by exact_mod_cast hlog
          _ = x := abs_of_pos hx
      have h52 : (2 : ℚ) ^ (Int.log 2 |x| - 52) * 2 ^ 52 = (2 : ℚ) ^ Int.log 2 |x| := by
        rw [zpow_sub₀ (by norm_num : (2 : ℚ) ≠ 0)]
        have : ((2 : ℚ) ^ (52 : ℤ)) = 2 ^ 52 := by norm_cast
        rw [this]
        field_simp
      have hbig : (1 : ℚ) ≤ 2 ^ 52 := one_le_pow₀ (by norm_num)
      have hlow : (2 : ℚ) ^ (-1074 : ℤ) ≤ (2 : ℚ) ^ (Int.log 2 |x| - 52) :=
        zpow_le_zpow_right₀ (by norm_num) hge
      rw [e]
      constructor
      · intro _
        have h1 : (2 : ℚ) ^ (Int.log 2 |x| - 52) ≤ x := by
          have hpos : (0 : ℚ) < (2 : ℚ) ^ (Int.log 2 |x| - 52) := zpow_pos (by norm_num) _
          nlinarith
        have h2 : (2 : ℚ) ^ (-1075 : ℤ) < (2 : ℚ) ^ (-1074 : ℤ) := by
          rw [← hthr]
          have : (0 : ℚ) < (2 : ℚ) ^ (-1074 : ℤ) := zpow_pos (by norm_num) _
          linarith
        linarith
      · intro _
        have hpos : (0 : ℚ) < (2 : ℚ) ^ (Int.log 2 |x| - 52) := zpow_pos (by norm_num) _
        nlinarith
  · have hx' : x ≤ 0 := not_lt.mp hx
    constructor
    · intro h
      have : (0 : ℚ) < 1 / 2 * (2 : ℚ) ^ ulpExp x := by positivity
      linarith
    · intro h
      have : (0 : ℚ) < (2 : ℚ) ^ (-1075 : ℤ) := zpow_pos (by norm_num) _
      linarith

end EB2

/-! ## Lemmas on the bracket test of `BrentRootFinder` -/

namespace EB2

variable {R : Type} [LinearOrderedField R] {dim : Nat}

/-- The bracket error is raised exactly when the computed product is
positive, and then before any loop body and after two evaluations. -/
theorem brentEntry_error (fmul : R → R → R) (lo hi : GpuArray R dim) (rangedir : Fin dim)
    (f : GpuArray R dim → R) :
    ((∃ res, brentEntry fmul lo hi rangedir f = some res ∧
        res.error = some BrentError.notBracketed) ↔ 0 < fmul (f hi) (f lo)) ∧
    (∀ res, brentEntry fmul lo hi rangedir f = some res →
      res.error = some BrentError.notBracketed →
        res.value = 0 ∧ res.iters = 0 ∧ res.evals = 2) := by
  unfold brentEntry IF_f
  by_cases h : 0 < fmul (f hi) (f lo)
  · rw [if_pos h]
    refine ⟨⟨fun _ => h, fun _ => ⟨_, rfl, rfl⟩⟩, ?_⟩
    intro res hres _
    simp only [Option.some.injEq] at hres
    subst hres
    exact ⟨rfl, rfl, rfl⟩
  · rw [if_neg h]
    have key : ∀ res : BrentResult R,
        (if f lo = 0 then
          some { value := lo rangedir, error := none, iters := 0, evals := 2,
                 converged := false }
        else if f hi = 0 then
          some { value := hi rangedir, error := none, iters := 0, evals := 2,
                 converged := false }
        else none) = some res → res.error ≠ some BrentError.notBracketed := by
      intro res hres he
      split_ifs at hres
      · simp only [Option.some.injEq] at hres
        subst hres
        cases he
      · simp only [Option.some.injEq] at hres
        subst hres
        cases he
    refine ⟨⟨fun ⟨res, hres, he⟩ => absurd he (key res hres), fun h' => absurd h' h⟩, ?_⟩
    intro res hres he
    exact absurd he (key res hres)

/-- With the exact product the three early returns are those of the embedding
of the whole function. -/
theorem brentEntry_exact (lo hi : GpuArray R dim) (rangedir : Fin dim)
    (f : GpuArray R dim → R) (res : BrentResult R)
    (h : brentEntry (fun a b => a * b) lo hi rangedir f = some res) :
    BrentRootFinder lo hi rangedir f = res := by
  unfold brentEntry at h
  unfold BrentRootFinder
  split_ifs at h ⊢
  all_goals simp only [Option.some.injEq] at h
  all_goals exact h

/-- In the exact embedding the bracket error is raised exactly when the exact
product is positive. -/
theorem brentRootFinder_error_iff (lo hi : GpuArray R dim) (rangedir : Fin dim)
    (f : GpuArray R dim → R) :
    (BrentRootFinder lo hi rangedir f).error = some BrentError.notBracketed ↔
      0 < f lo * f hi := by
  unfold BrentRootFinder IF_f
  rw [mul_comm (f hi) (f lo)]
  by_cases h : 0 < f lo * f hi
  · rw [if_pos h]
    exact ⟨fun _ => h, fun _ => rfl⟩
  · rw [if_neg h]
    refine ⟨fun he => ?_, fun h' => absurd h' h⟩
    split_ifs at he
    simp at he

end EB2

/-! ## The claims -/

section Claims

open PackageQueue

/-- C1 (FIFO law).  For every capacity `cap` and every list `ps` of at most
`cap` packages, starting from the freshly constructed queue, enqueueing
`ps` in order and then dequeueing `ps.length` times makes every enqueue
succeed and the dequeues return exactly `ps`, in enqueue order. -/
theorem packageQueue_fifo_law {P : Type} [Inhabited P] (cap : Nat) (ps : List P)
    (h : ps.length ≤ cap) :
    ((PackageQueue.new cap).run
        (ps.map Op.enqueue ++ List.replicate ps.length Op.dequeue)).1 =
      List.replicate ps.length Outcome.done ++ ps.map Outcome.pkg := by
  rw [run_new_outcomes, BoundedFifo.run_append,
    BoundedFifo.run_enqueues cap ps [] (by simpa using h)]
  simp only [List.nil_append]
  rw [BoundedFifo.run_dequeues]

/-- Witness of C1: three packages through a queue of capacity four. -/
theorem packageQueue_fifo_law_witness :
    [7, 8, 9].length ≤ 4 ∧
    ((PackageQueue.new 4 : PackageQueue Nat).run
        ([7, 8, 9].map Op.enqueue ++ List.replicate [7, 8, 9].length Op.dequeue)).1 =
      List.replicate [7, 8, 9].length Outcome.done ++ [7, 8, 9].map Outcome.pkg :=
  ⟨by decide, packageQueue_fifo_law 4 [7, 8, 9] (by decide)⟩

/-- C2 (capacity law).  In every queue state with `n == max_size`, `enqueue`
fails with `QueueFull` and leaves the backing array, `front`, `rear` and `n`
(indeed the whole state) unchanged, so no queued package is overwritten. -/
theorem packageQueue_enqueue_full {P : Type} [Inhabited P] (q : PackageQueue P) (package : P)
    (h : q.n = q.max_size) :
    (q.enqueue package).1 = Outcome.fail QueueError.QueueFull ∧
    (q.enqueue package).2.buffer = q.buffer ∧
    (q.enqueue package).2.front = q.front ∧
    (q.enqueue package).2.rear = q.rear ∧
    (q.enqueue package).2.n = q.n ∧
    (q.enqueue package).2 = q := by
  simp only [enqueue, if_pos h, and_self]

/-- Witness of C2: enqueueing into the full queue of capacity two. -/
theorem packageQueue_enqueue_full_witness :
    fullQueue.n = fullQueue.max_size ∧
    (fullQueue.enqueue 9).1 = Outcome.fail QueueError.QueueFull ∧
    (fullQueue.enqueue 9).2.buffer = [7, 8] ∧
    (fullQueue.enqueue 9).2 = fullQueue :=
  ⟨by decide, (packageQueue_enqueue_full fullQueue 9 (by decide)).1, by decide,
    (packageQueue_enqueue_full fullQueue 9 (by decide)).2.2.2.2.2⟩

/-- C3.  `dequeue` fails exactly when `n == 0`, the failure is `QueueEmpty`
and leaves the state unchanged; when `n > 0` it returns the package stored at
`front`, sets `front` to `(front + 1) mod max_size`, decrements `n` by one and
leaves the backing array and `rear` alone. -/
theorem packageQueue_dequeue_spec {P : Type} [Inhabited P] (q : PackageQueue P) :
    ((∃ e, (q.dequeue).1 = Outcome.fail e) ↔ q.n = 0) ∧
    ((q.dequeue).1 = Outcome.fail QueueError.QueueEmpty ↔ q.n = 0) ∧
    (q.n = 0 → (q.dequeue).2 = q) ∧
    (0 < q.n →
      (q.dequeue).1 = Outcome.pkg (q.buffer.getD q.front.toNat default) ∧
      (q.dequeue).2.front = (q.front + 1) % q.max_size ∧
      (q.dequeue).2.n = q.n - 1 ∧
      (q.dequeue).2.buffer = q.buffer ∧
      (q.dequeue).2.rear = q.rear) := by
  by_cases hz : q.n = 0
  · have e : q.dequeue = (Outcome.fail QueueError.QueueEmpty, q) := by
      simp only [dequeue, if_pos hz]
    rw [e]
    exact ⟨⟨fun _ => hz, fun _ => ⟨_, rfl⟩⟩, ⟨fun _ => hz, fun _ => rfl⟩,
      fun _ => rfl, fun h => absurd h (by omega)⟩
  · have e : q.dequeue = (Outcome.pkg (q.buffer.getD q.front.toNat default),
        { q with front := (q.front + 1) % q.max_size, n := q.n - 1 }) := by
      simp only [dequeue, if_neg hz, slot]
    rw [e]
    refine ⟨⟨?_, fun h => absurd h hz⟩, ⟨?_, fun h => absurd h hz⟩, fun h => absurd h hz,
      fun _ => ⟨rfl, rfl, rfl, rfl, rfl⟩⟩
    · rintro ⟨e', he⟩
      cases he
    · intro he
      cases he

/-- Witness of C3: the first dequeue from the full queue of capacity two. -/
theorem packageQueue_dequeue_spec_witness :
    0 < fullQueue.n ∧
    (fullQueue.dequeue).1 = Outcome.pkg (fullQueue.buffer.getD fullQueue.front.toNat default) ∧
    (fullQueue.dequeue).2.front = (fullQueue.front + 1) % fullQueue.max_size ∧
    (fullQueue.dequeue).2.n = fullQueue.n - 1 ∧
    (fullQueue.dequeue).2.buffer = fullQueue.buffer ∧
    (fullQueue.dequeue).2.rear = fullQueue.rear :=
  ⟨by decide, (packageQueue_dequeue_spec fullQueue).2.2.2 (by decide)⟩

/-- C4 (refinement).  For every capacity and every finite sequence of calls
(enqueue and dequeue, and the peeks, size and drain as well) applied to the
freshly constructed queue, each call hands back what the abstract bounded FIFO
list of the same capacity hands back, wrap-around of `front` and `rear`
included; the capacity-4 scenario (enqueue 1,2,3,4; enqueue 5 rejected with
`QueueFull`; dequeue gives 1; enqueue 5 accepted; four dequeues give 2,3,4,5;
one more dequeue fails with `QueueEmpty`) is one instance. -/
theorem packageQueue_refines_bounded_fifo {P : Type} [Inhabited P] (cap : Nat)
    (ops : List (Op P)) :
    ((PackageQueue.new cap).run ops).1 = (BoundedFifo.run cap ([] : List P) ops).1 ∧
    ((PackageQueue.new 4).run scenarioOps).1 =
      [.done, .done, .done, .done, .fail .QueueFull, .pkg 1, .done,
       .pkg 2, .pkg 3, .pkg 4, .pkg 5, .fail .QueueEmpty] :=
  ⟨run_new_outcomes cap ops, by decide⟩

/-- C5 (invariant).  Every state reachable from the freshly constructed queue
of positive capacity by any sequence of enqueue, dequeue, getFront, getRear,
queueSize and emptyQueue calls has `0 ≤ n ≤ capacity`, `0 ≤ front < capacity`
and `0 ≤ rear < capacity`, the capacity being `max_size`. -/
theorem packageQueue_invariant {P : Type} [Inhabited P] (cap : Nat) (hcap : 0 < cap)
    (ops : List (Op P)) :
    ((PackageQueue.new cap).run ops).2.max_size = cap ∧
    0 ≤ ((PackageQueue.new cap).run ops).2.n ∧
    ((PackageQueue.new cap).run ops).2.n ≤ cap ∧
    0 ≤ ((PackageQueue.new cap).run ops).2.front ∧
    ((PackageQueue.new cap).run ops).2.front < cap ∧
    0 ≤ ((PackageQueue.new cap).run ops).2.rear ∧
    ((PackageQueue.new cap).run ops).2.rear < cap := by
  obtain ⟨hmax, -, hf0, hf, hn, hle, hrear, -, -⟩ :=
    (run_refines cap ops (PackageQueue.new cap : PackageQueue P) [] (new_refines cap hcap)).2
  have hpos : (0 : Int) < ((PackageQueue.new cap : PackageQueue P).run ops).2.max_size := by
    omega
  refine ⟨hmax, by omega, by omega, hf0, by omega, ?_, ?_⟩
  · rw [hrear]
    exact Int.emod_nonneg _ (by omega)
  · rw [hrear, ← hmax]
    exact Int.emod_lt_of_pos _ hpos

/-- Witness of C5: a wrap-around run on a queue of capacity two. -/
theorem packageQueue_invariant_witness :
    0 < 2 ∧
    ((PackageQueue.new 2 : PackageQueue Nat).run
        [.enqueue 1, .enqueue 2, .dequeue, .enqueue 3, .getRear, .emptyQueue]).2.rear < (2 : Nat) :=
  ⟨by decide, (packageQueue_invariant 2 (by decide)
    [.enqueue 1, .enqueue 2, .dequeue, .enqueue 3, .getRear, .emptyQueue]).2.2.2.2.2.2⟩

/-- C6 (topology consistency).  For every `NodeHardware` with
`thread_per_core ≥ 1` and `core_per_numa ≥ 1` and every thread index `t` with
`0 ≤ t < thread_per_node()`,
`numa_of_thread(t) == numa_of_core(core_of_thread(t))`. -/
theorem nodeHardware_numa_of_thread_consistent (hw : NodeHardware) (t : Int)
    (htpc : 1 ≤ hw.thread_per_core) (hcpn : 1 ≤ hw.core_per_numa)
    (ht0 : 0 ≤ t) (_ht : t < hw.thread_per_node) :
    hw.numa_of_thread t = hw.numa_of_core (hw.core_of_thread t) := by
  unfold NodeHardware.numa_of_thread NodeHardware.numa_of_core NodeHardware.core_of_thread
  exact (NodeHardware.tdiv_tdiv_of_nonneg t _ _ ht0 (by omega) (by omega)).symm

/-- Witness of C6: thread 11 of the dense 2 x 4 x 2 node lies in domain 1. -/
theorem nodeHardware_numa_of_thread_consistent_witness :
    (1 ≤ denseNode.thread_per_core ∧ 1 ≤ denseNode.core_per_numa ∧
      (0 : Int) ≤ 11 ∧ 11 < denseNode.thread_per_node) ∧
    denseNode.numa_of_thread 11 = denseNode.numa_of_core (denseNode.core_of_thread 11) :=
  ⟨by decide, nodeHardware_numa_of_thread_consistent denseNode 11
    (by decide) (by decide) (by decide) (by decide)⟩

/-- Counterexample to C7 as stated: the node `overlappingNode` has positive
counts (2 threads per core, 2 cores per domain, 1 domain) and all strides `1`;
the valid triples `(1, 0, 0)` and `(0, 1, 0)` are distinct but
`cpuid_of` sends both to `1`. -/
theorem nodeHardware_cpuid_of_collision :
    (0 < overlappingNode.thread_per_core ∧ 0 < overlappingNode.core_per_numa ∧
      0 < overlappingNode.numa_per_node) ∧
    ((0 : Int) ≤ 1 ∧ 1 < overlappingNode.thread_per_core ∧
      (0 : Int) ≤ 0 ∧ 0 < overlappingNode.core_per_numa ∧
      (0 : Int) ≤ 0 ∧ 0 < overlappingNode.numa_per_node) ∧
    ((0 : Int) ≤ 0 ∧ 0 < overlappingNode.thread_per_core ∧
      (0 : Int) ≤ 1 ∧ 1 < overlappingNode.core_per_numa ∧
      (0 : Int) ≤ 0 ∧ 0 < overlappingNode.numa_per_node) ∧
    overlappingNode.cpuid_of 1 0 0 = overlappingNode.cpuid_of 0 1 0 ∧
    ¬ ((1 : Int) = 0 ∧ (0 : Int) = 1 ∧ (0 : Int) = 0) := by
  decide

/-- C7, amended.  For every `NodeHardware` with positive counts whose strides
are separated in some dimension order (the fastest stride is at least 1 and
each slower stride is at least count times stride of the dimension below it),
`cpuid_of` is injective over the valid index range. -/
theorem nodeHardware_cpuid_of_injective (hw : NodeHardware)
    (_htpc : 0 < hw.thread_per_core) (_hcpn : 0 < hw.core_per_numa)
    (_hnpn : 0 < hw.numa_per_node) (hsep : hw.StridesSeparated)
    (thread core numa thread' core' numa' : Int)
    (ht0 : 0 ≤ thread) (ht : thread < hw.thread_per_core)
    (hc0 : 0 ≤ core) (hc : core < hw.core_per_numa)
    (hn0 : 0 ≤ numa) (hn : numa < hw.numa_per_node)
    (ht0' : 0 ≤ thread') (ht' : thread' < hw.thread_per_core)
    (hc0' : 0 ≤ core') (hc' : core' < hw.core_per_numa)
    (hn0' : 0 ≤ numa') (hn' : numa' < hw.numa_per_node)
    (h : hw.cpuid_of thread core numa = hw.cpuid_of thread' core' numa') :
    thread = thread' ∧ core = core' ∧ numa = numa' := by
  unfold NodeHardware.cpuid_of at h
  rcases hsep with hs | hs | hs | hs | hs | hs
  · exact NodeHardware.separated_inj _ _ _ _ _ thread core numa thread' core' numa' hs
      ht0 ht hc0 hc ht0' ht' hc0' hc' h
  · obtain ⟨a, b, c⟩ := NodeHardware.separated_inj _ _ _ _ _ thread numa core thread' numa' core'
      hs ht0 ht hn0 hn ht0' ht' hn0' hn' (by linarith)
    exact ⟨a, c, b⟩
  · obtain ⟨a, b, c⟩ := NodeHardware.separated_inj _ _ _ _ _ core thread numa core' thread' numa'
      hs hc0 hc ht0 ht hc0' hc' ht0' ht' (by linarith)
    exact ⟨b, a, c⟩
  · obtain ⟨a, b, c⟩ := NodeHardware.separated_inj _ _ _ _ _ core numa thread core' numa' thread'
      hs hc0 hc hn0 hn hc0' hc' hn0' hn' (by linarith)
    exact ⟨c, a, b⟩
  · obtain ⟨a, b, c⟩ := NodeHardware.separated_inj _ _ _ _ _ numa thread core numa' thread' core'
      hs hn0 hn ht0 ht hn0' hn' ht0' ht' (by linarith)
    exact ⟨b, c, a⟩
  · obtain ⟨a, b, c⟩ := NodeHardware.separated_inj _ _ _ _ _ numa core thread numa' core' thread'
      hs hn0 hn hc0 hc hn0' hn' hc0' hc' (by linarith)
    exact ⟨c, b, a⟩

/-- Witness of C7, amended: on the dense 2 x 4 x 2 node the triple `(1, 3, 1)`
is the only one with its cpuid. -/
theorem nodeHardware_cpuid_of_injective_witness :
    denseNode.StridesSeparated ∧ denseNode.cpuid_of 1 3 1 = denseNode.cpuid_of 1 3 1 ∧
    ((1 : Int) = 1 ∧ (3 : Int) = 3 ∧ (1 : Int) = 1) :=
  ⟨by decide, by decide,
    nodeHardware_cpuid_of_injective denseNode (by decide) (by decide) (by decide) (by decide)
      1 3 1 1 3 1 (by decide) (by decide) (by decide) (by decide) (by decide) (by decide)
      (by decide) (by decide) (by decide) (by decide) (by decide) (by decide) (by decide)⟩

/-- C8 (idempotence).  For every `Package` state, `completeRequest()` and
`completeRequest(canAvoidLock)` each leave `completed == true`, and calling
either a second time (the same form or the other one) gives exactly the state
that one call gives. -/
theorem package_completeRequest_idempotent (p : Package) (canAvoidLock canAvoidLock' : Bool) :
    p.completeRequest.completed = true ∧
    (p.completeRequest_canAvoidLock canAvoidLock).completed = true ∧
    p.completeRequest.completeRequest = p.completeRequest ∧
    ((p.completeRequest_canAvoidLock canAvoidLock).completeRequest_canAvoidLock canAvoidLock' =
      p.completeRequest_canAvoidLock canAvoidLock) ∧
    (p.completeRequest.completeRequest_canAvoidLock canAvoidLock = p.completeRequest) ∧
    ((p.completeRequest_canAvoidLock canAvoidLock).completeRequest =
      p.completeRequest_canAvoidLock canAvoidLock) := by
  cases canAvoidLock <;> cases canAvoidLock' <;>
    simp [Package.completeRequest, Package.completeRequest_canAvoidLock]

/-- C10.  With the stream pool of size `numGpuStreams() == 4` (a GPU build),
`setStreamIndex(idx)` with `idx ≥ 4` fails, always with the same error, and
yields no state at all, in particular none in which the current stream is one
of the pool streams 0..3. -/
theorem device_setStreamIndex_out_of_range (d : Gpu.Device) (idx : Int) (h : 4 ≤ idx) :
    Gpu.Device.numGpuStreams true = 4 ∧
    Gpu.Device.setStreamIndex true d idx = Except.error Gpu.DeviceError.StreamIndexOutOfRange ∧
    ∀ d' : Gpu.Device, Gpu.Device.setStreamIndex true d idx ≠ Except.ok d' := by
  have h0 : ¬ idx < 0 := by omega
  have h4 : ¬ idx < 4 := by omega
  have e : Gpu.Device.setStreamIndex true d idx =
      Except.error Gpu.DeviceError.StreamIndexOutOfRange := by
    simp [Gpu.Device.setStreamIndex, Gpu.Device.numGpuStreams, Gpu.max_gpu_streams, h0, h4]
  refine ⟨rfl, e, ?_⟩
  intro d' hd
  rw [e] at hd
  cases hd

/-- Witness of C10: index 5 on a pool of four streams. -/
theorem device_setStreamIndex_out_of_range_witness :
    (4 : Int) ≤ 5 ∧
    Gpu.Device.setStreamIndex true fourStreams 5 =
      Except.error Gpu.DeviceError.StreamIndexOutOfRange :=
  ⟨by decide, (device_setStreamIndex_out_of_range fourStreams 5 (by decide)).2.1⟩

/-- Counterexample to C11 as stated: threads 0 and 1 are distinct, thread 1
reads stream 13 from `gpuStream()`, thread 0 calls `setStreamIndex(0)`, and
afterwards thread 1 reads stream 11: the one static member `gpu_stream` is
shared by all threads. -/
theorem device_binding_shared_between_threads :
    (0 : Gpu.ThreadId) ≠ 1 ∧
    Gpu.Device.gpuStreamOn 1 fourStreams = 13 ∧
    Gpu.Device.setStreamIndexOn true 0 fourStreams 0 =
      Except.ok { fourStreams with gpu_stream := 11 } ∧
    Gpu.Device.gpuStreamOn 1 { fourStreams with gpu_stream := 11 } = 11 ∧
    Gpu.Device.gpuStreamOn 1 { fourStreams with gpu_stream := 11 } ≠
      Gpu.Device.gpuStreamOn 1 fourStreams :=
  ⟨by decide, rfl, rfl, rfl, by decide⟩

/-- C11, amended.  The current-stream binding is one process-wide static
member: after a successful `setStreamIndex(idx)` made by a thread `A`,
`gpuStream()` returns on every thread `B` the stream that `A` bound (the
default stream for a negative index, the pool stream `idx` otherwise), and
after `resetStreamIndex()` the default stream; the pool and the default stream
themselves are unchanged. -/
theorem device_binding_process_wide (g : Bool) (A B : Gpu.ThreadId) (d d' : Gpu.Device)
    (idx : Int) (h : Gpu.Device.setStreamIndexOn g A d idx = Except.ok d') :
    Gpu.Device.gpuStreamOn B d' = Gpu.Device.gpuStreamOn A d' ∧
    Gpu.Device.gpuStreamOn B d' =
      (if idx < 0 then d.gpu_default_stream
       else d.gpu_streams.getD idx.toNat d.gpu_default_stream) ∧
    d'.gpu_streams = d.gpu_streams ∧
    d'.gpu_default_stream = d.gpu_default_stream ∧
    (∀ d'' : Gpu.Device, Gpu.Device.resetStreamIndexOn g A d = Except.ok d'' →
      Gpu.Device.gpuStreamOn B d'' = d.gpu_default_stream) := by
  obtain ⟨hp, hd⟩ := Gpu.setStreamIndex_pool g d d' idx h
  refine ⟨rfl, ?_, hp, hd, ?_⟩
  · simp only [Gpu.Device.setStreamIndexOn, Gpu.Device.setStreamIndex] at h
    by_cases h0 : idx < 0
    · rw [if_pos h0] at h
      cases h
      rw [if_pos h0]
      rfl
    · rw [if_neg h0] at h
      split at h
      · cases h
        rw [if_neg h0]
        rfl
      · cases h
  · intro d'' h2
    simp only [Gpu.Device.resetStreamIndexOn, Gpu.Device.resetStreamIndex,
      Gpu.Device.setStreamIndex] at h2
    rw [if_pos (by decide)] at h2
    cases h2
    rfl

/-- Witness of C11, amended: thread 0 binds stream index 2 of the pool of four
and thread 1 reads that stream. -/
theorem device_binding_process_wide_witness :
    Gpu.Device.setStreamIndexOn true 0 fourStreams 2 =
      Except.ok { fourStreams with gpu_stream := 13 } ∧
    Gpu.Device.gpuStreamOn 1 { fourStreams with gpu_stream := 13 } =
      Gpu.Device.gpuStreamOn 0 { fourStreams with gpu_stream := 13 } :=
  ⟨rfl, (device_binding_process_wide true 0 1 fourStreams
    { fourStreams with gpu_stream := 13 } 2 rfl).1⟩

/-- C13.  In every queue state `getFront` and `getRear` leave the state
unchanged; on an empty queue both fail (with `QueueEmpty`); on a queue with
`n` different from zero `getFront` returns what the next `dequeue` would
return; and in every state with `n > 0` reached from the freshly constructed
queue, `getRear` returns the package of the most recent successful enqueue. -/
theorem packageQueue_peek_spec {P : Type} [Inhabited P] (q : PackageQueue P) (cap : Nat)
    (hcap : 0 < cap) (ops : List (Op P)) :
    (q.getFront).2 = q ∧ (q.getRear).2 = q ∧
    (q.n = 0 → (q.getFront).1 = Outcome.fail QueueError.QueueEmpty ∧
      (q.getRear).1 = Outcome.fail QueueError.QueueEmpty) ∧
    (q.n ≠ 0 → (q.getFront).1 = (q.dequeue).1) ∧
    (0 < ((PackageQueue.new cap : PackageQueue P).run ops).2.n →
      ∃ p, lastEnqueued (PackageQueue.new cap) ops none = some p ∧
        (((PackageQueue.new cap : PackageQueue P).run ops).2.getRear).1 = Outcome.pkg p) := by
  refine ⟨getFront_state q, getRear_state q, ?_, ?_, ?_⟩
  · intro hz
    simp only [getFront, getRear, if_pos hz, and_self]
  · intro hz
    simp only [getFront, dequeue, if_neg hz]
  · intro hpos
    have h := lastEnqueued_run cap ops (PackageQueue.new cap : PackageQueue P) [] none
      (new_refines cap hcap) (fun hn => absurd hn (by simp [PackageQueue.new])) hpos
    refine ⟨_, h, ?_⟩
    have hz : ((PackageQueue.new cap : PackageQueue P).run ops).2.n ≠ 0 := by omega
    simp only [getRear, if_neg hz]

/-- Witness of C13: after enqueue 1, enqueue 2, dequeue, enqueue 3 on a queue of
capacity two (the third enqueue wraps around) `getRear` returns package 3. -/
theorem packageQueue_peek_spec_witness :
    0 < 2 ∧
    0 < ((PackageQueue.new 2 : PackageQueue Nat).run
      [.enqueue 1, .enqueue 2, .dequeue, .enqueue 3]).2.n ∧
    (∃ p, lastEnqueued (PackageQueue.new 2 : PackageQueue Nat)
        [.enqueue 1, .enqueue 2, .dequeue, .enqueue 3] none = some p ∧
      (((PackageQueue.new 2 : PackageQueue Nat).run
        [.enqueue 1, .enqueue 2, .dequeue, .enqueue 3]).2.getRear).1 = Outcome.pkg p) ∧
    (((PackageQueue.new 2 : PackageQueue Nat).run
        [.enqueue 1, .enqueue 2, .dequeue, .enqueue 3]).2.getRear).1 = Outcome.pkg 3 :=
  ⟨by decide, by decide,
    (packageQueue_peek_spec fullQueue 2 (by decide)
      [.enqueue 1, .enqueue 2, .dequeue, .enqueue 3]).2.2.2.2 (by decide),
    by decide⟩

/-- C14.  In every queue state, after `emptyQueue` the queue holds no package
(`n == 0`, `queueSize` returns 0, the next `dequeue` fails with `QueueEmpty`,
the contents are empty), `front == 0` and `rear == 0`, and the packages
destroyed are the queued ones, each once, oldest first; in a state reached
from the freshly constructed queue these are exactly the packages the abstract
FIFO still holds. -/
theorem packageQueue_emptyQueue_spec {P : Type} [Inhabited P] (q : PackageQueue P)
    (cap : Nat) (hcap : 0 < cap) (ops : List (Op P)) :
    (q.emptyQueue).2.n = 0 ∧ (q.emptyQueue).2.front = 0 ∧ (q.emptyQueue).2.rear = 0 ∧
    ((q.emptyQueue).2.queueSize).1 = Outcome.size 0 ∧
    ((q.emptyQueue).2.dequeue).1 = Outcome.fail QueueError.QueueEmpty ∧
    (q.emptyQueue).2.contents = [] ∧
    (q.emptyQueue).1 = Outcome.destroyed q.contents ∧
    (((PackageQueue.new cap : PackageQueue P).run ops).2.emptyQueue).1 =
      Outcome.destroyed (BoundedFifo.run cap ([] : List P) ops).2 := by
  refine ⟨rfl, rfl, rfl, rfl, rfl, by simp [emptyQueue, contents], rfl, ?_⟩
  have h := (run_refines cap ops (PackageQueue.new cap : PackageQueue P) []
    (new_refines cap hcap)).2
  simp only [emptyQueue, h.hcont]

/-- Witness of C14: draining the queue reached by enqueue 1, enqueue 2, dequeue,
enqueue 3 on capacity two destroys packages 2 and 3, each once. -/
theorem packageQueue_emptyQueue_spec_witness :
    0 < 2 ∧
    (((PackageQueue.new 2 : PackageQueue Nat).run
        [.enqueue 1, .enqueue 2, .dequeue, .enqueue 3]).2.emptyQueue).1 =
      Outcome.destroyed (BoundedFifo.run 2 ([] : List Nat)
        [.enqueue 1, .enqueue 2, .dequeue, .enqueue 3]).2 ∧
    (BoundedFifo.run 2 ([] : List Nat) [.enqueue 1, .enqueue 2, .dequeue, .enqueue 3]).2 =
      [2, 3] :=
  ⟨by decide, (packageQueue_emptyQueue_spec fullQueue 2 (by decide)
    [.enqueue 1, .enqueue 2, .dequeue, .enqueue 3]).2.2.2.2.2.2.2, by decide⟩

/-- C15.  `checkRequest` always returns (it is a total function of the package
and of what the handle reports); it returns `true` only with
`completed == true` afterwards; when the handle reports done it sets
`completed` and returns `true` whatever `completed` was before; when the handle
is not done it returns `false` and leaves the package, `completed` included,
unchanged. -/
theorem package_checkRequest_spec (p : Package) (handleDone : Bool) :
    ((p.checkRequest handleDone).1 = true → (p.checkRequest handleDone).2.completed = true) ∧
    (p.checkRequest true).1 = true ∧
    (p.checkRequest true).2.completed = true ∧
    (p.checkRequest true).2 = { p with completed := true } ∧
    (p.checkRequest false).1 = false ∧
    (p.checkRequest false).2 = p ∧
    (p.checkRequest handleDone).1 = handleDone := by
  cases handleDone <;> simp [Package.checkRequest]

/-- C18.  `numGpuStreams()` returns the compile-time constant
`max_gpu_streams`, 4 in a GPU build and 1 otherwise; it is at least 1, so a
division by it is defined; it does not depend on the device state, and no
sequence of `setStreamIndex` and `resetStreamIndex` calls changes the pool. -/
theorem device_numGpuStreams_fixed (g : Bool) (d : Gpu.Device) (calls : List (Option Int)) :
    Gpu.Device.numGpuStreams g = Gpu.max_gpu_streams g ∧
    Gpu.Device.numGpuStreams true = 4 ∧
    Gpu.Device.numGpuStreams false = 1 ∧
    1 ≤ Gpu.Device.numGpuStreams g ∧
    Gpu.Device.numGpuStreams g ≠ 0 ∧
    (∀ d' : Gpu.Device, Gpu.Device.runStreamCalls g d calls = Except.ok d' →
      d'.gpu_streams = d.gpu_streams ∧ d'.gpu_streams.length = d.gpu_streams.length) := by
  refine ⟨rfl, rfl, rfl, ?_, ?_, ?_⟩
  · cases g <;> decide
  · cases g <;> decide
  · intro d' h
    have := (Gpu.runStreamCalls_pool g calls d d' h).1
    exact ⟨this, by rw [this]⟩

/-- C19, amended.  `BrentRootFinder` hands the error "Root must be bracketed,
but instead the supplied end points have the same sign" to `amrex::Error`
exactly when the product `fb*fa`, as computed in `double` arithmetic, is
`> 0.0`; for finite end values that is exactly when `f(lo) * f(hi)` exceeds
`2^-1075`, so same-sign end values whose product rounds to zero raise no
error.  When the error is raised, no loop body has been entered and `f` has
been evaluated only at the two end points; when `f(lo) * f(hi) ≤ 0` the error
is not raised.  In exact arithmetic the error is raised exactly when
`f(lo) * f(hi) > 0`. -/
theorem brent_not_bracketed_rounded {dim : Nat}
    (lo hi : EB2.GpuArray ℚ dim) (rangedir : Fin dim) (f : EB2.GpuArray ℚ dim → ℚ) :
    ((∃ res, EB2.brentEntry EB2.mulDouble lo hi rangedir f = some res ∧
        res.error = some EB2.BrentError.notBracketed) ↔ 0 < EB2.mulDouble (f hi) (f lo)) ∧
    (0 < EB2.mulDouble (f hi) (f lo) ↔ (2 : ℚ) ^ (-1075 : ℤ) < f lo * f hi) ∧
    (∀ res, EB2.brentEntry EB2.mulDouble lo hi rangedir f = some res →
      res.error = some EB2.BrentError.notBracketed →
        res.value = 0 ∧ res.iters = 0 ∧ res.evals = 2) ∧
    (f lo * f hi ≤ 0 →
      ∀ res, EB2.brentEntry EB2.mulDouble lo hi rangedir f = some res →
        res.error ≠ some EB2.BrentError.notBracketed) ∧
    (∀ res, EB2.brentEntry (fun a b => a * b) lo hi rangedir f = some res →
      EB2.BrentRootFinder lo hi rangedir f = res) ∧
    ((EB2.BrentRootFinder lo hi rangedir f).error = some EB2.BrentError.notBracketed ↔
      0 < f lo * f hi) ∧
    (0 < f lo * f hi →
      (EB2.BrentRootFinder lo hi rangedir f).iters = 0 ∧
      (EB2.BrentRootFinder lo hi rangedir f).evals = 2 ∧
      (EB2.BrentRootFinder lo hi rangedir f).value = 0) := by
  obtain ⟨e1, e2⟩ := EB2.brentEntry_error EB2.mulDouble lo hi rangedir f
  have hthr : 0 < EB2.mulDouble (f hi) (f lo) ↔ (2 : ℚ) ^ (-1075 : ℤ) < f lo * f hi := by
    unfold EB2.mulDouble
    rw [EB2.roundDouble_pos_iff, mul_comm]
  refine ⟨e1, hthr, e2, ?_, EB2.brentEntry_exact lo hi rangedir f,
    EB2.brentRootFinder_error_iff lo hi rangedir f, ?_⟩
  · intro hle res hres he
    have hpos := hthr.mp (e1.mp ⟨res, hres, he⟩)
    have : (0 : ℚ) < (2 : ℚ) ^ (-1075 : ℤ) := zpow_pos (by norm_num) _
    linarith
  · intro h
    unfold EB2.BrentRootFinder EB2.IF_f
    rw [mul_comm (f hi) (f lo), if_pos h]
    exact ⟨rfl, rfl, rfl⟩

/-- Counterexample to C19 as stated: for `f(lo) = 2^-600` and `f(hi) = 2^-599`
the product `f(lo) * f(hi)` is positive, but the computed product rounds to
zero, the error is not raised and the loop is entered. -/
theorem brent_underflow_no_error :
    0 < tinyIF linePt0 * tinyIF linePt1 ∧
    ¬ 0 < EB2.mulDouble (tinyIF linePt1) (tinyIF linePt0) ∧
    EB2.brentEntry EB2.mulDouble linePt0 linePt1 0 tinyIF = none := by
  have hz : (0 : ℚ) < (2 : ℚ) ^ (-600 : ℤ) := zpow_pos (by norm_num) _
  have v0 : tinyIF linePt0 = (2 : ℚ) ^ (-600 : ℤ) := by
    simp [tinyIF, linePt0]
  have v1 : tinyIF linePt1 = (2 : ℚ) ^ (-599 : ℤ) := by
    have e : (2 : ℚ) ^ (-599 : ℤ) = (2 : ℚ) ^ (-600 : ℤ) * 2 := by
      rw [show (-599 : ℤ) = -600 + 1 from rfl, zpow_add_one₀ (by norm_num : (2 : ℚ) ≠ 0)]
    rw [e]
    simp only [tinyIF, linePt1]
    ring
  have hprod : tinyIF linePt1 * tinyIF linePt0 = (2 : ℚ) ^ (-1199 : ℤ) := by
    rw [v0, v1, ← zpow_add₀ (by norm_num : (2 : ℚ) ≠ 0)]
    rfl
  have hle : (2 : ℚ) ^ (-1199 : ℤ) ≤ (2 : ℚ) ^ (-1075 : ℤ) :=
    zpow_le_zpow_right₀ (by norm_num) (by norm_num)
  have hno : ¬ 0 < EB2.mulDouble (tinyIF linePt1) (tinyIF linePt0) := by
    unfold EB2.mulDouble
    rw [EB2.roundDouble_pos_iff, hprod]
    exact not_lt.mpr hle
  refine ⟨?_, hno, ?_⟩
  · rw [v0, v1]
    exact mul_pos hz (zpow_pos (by norm_num) _)
  · unfold EB2.brentEntry EB2.IF_f
    rw [if_neg hno, if_neg (by rw [v0]; exact hz.ne'),
      if_neg (by rw [v1]; exact (zpow_pos (by norm_num) _).ne')]

/-- C20.  For every implicit function and every pair of end points,
`BrentRootFinder` returns after entering at most `MAXITER = 100` loop bodies
and evaluating `f` at most 102 times, and it hands "exceeding maximum
iterations" to `amrex::Error` exactly when all 100 bodies were entered and none
of them ended in the `break` of the convergence test. -/
theorem brent_iteration_bound {R : Type} [LinearOrderedField R] {dim : Nat}
    (lo hi : EB2.GpuArray R dim) (rangedir : Fin dim) (f : EB2.GpuArray R dim → R) :
    EB2.MAXITER = 100 ∧
    (EB2.BrentRootFinder lo hi rangedir f).iters ≤ 100 ∧
    (EB2.BrentRootFinder lo hi rangedir f).evals ≤ 102 ∧
    ((EB2.BrentRootFinder lo hi rangedir f).error = some EB2.BrentError.maxIterations ↔
      (EB2.BrentRootFinder lo hi rangedir f).iters = 100 ∧
      (EB2.BrentRootFinder lo hi rangedir f).converged = false) := by
  obtain ⟨hc, hn⟩ := EB2.brentLoop_ghost f rangedir EB2.MAXITER
    (EB2.brentInit lo hi rangedir f) rfl
  have hM : EB2.MAXITER = 100 := rfl
  have hi0 : (EB2.brentInit lo hi rangedir f).i = 0 := rfl
  have hit0 : (EB2.brentInit lo hi rangedir f).iters = 0 := rfl
  have hev0 : (EB2.brentInit lo hi rangedir f).evals = 2 := rfl
  rw [hi0, hit0, hev0, hM] at hc hn
  refine ⟨rfl, ?_⟩
  unfold EB2.BrentRootFinder
  split
  · simp
  · split
    · simp
    · split
      · simp
      · simp only [hM]
        cases hcv : (EB2.brentLoop f rangedir 100 (EB2.brentInit lo hi rangedir f)).converged
        · obtain ⟨x1, x2, x3⟩ := hn hcv
          refine ⟨by omega, by omega, ?_⟩
          rw [if_pos (by omega)]
          simp [x2]
        · obtain ⟨x1, x2, x3⟩ := hc hcv
          refine ⟨by omega, by omega, ?_⟩
          rw [if_neg (by omega)]
          simp

/-- C21.  In exact arithmetic, for every `f` with `f(lo) * f(hi) ≤ 0` the value
returned by `BrentRootFinder` lies in the closed interval spanned by the end
points along the search direction,
`min(lo[rangedir], hi[rangedir]) ≤ r ≤ max(lo[rangedir], hi[rangedir])`.  The
same holds for `a`, `b` and `c` after any number of loop iterations, because
every new trial root (bisection step, accepted interpolation step or minimal
`±tol1` step) lies between the current `b` and `c`. -/
theorem brent_value_in_bracket {R : Type} [LinearOrderedField R] {dim : Nat}
    (lo hi : EB2.GpuArray R dim) (rangedir : Fin dim) (f : EB2.GpuArray R dim → R)
    (hbr : f lo * f hi ≤ 0) :
    (min (lo rangedir) (hi rangedir) ≤ (EB2.BrentRootFinder lo hi rangedir f).value ∧
      (EB2.BrentRootFinder lo hi rangedir f).value ≤ max (lo rangedir) (hi rangedir)) ∧
    (∀ fuel : Nat,
      EB2.InRange rangedir (min (lo rangedir) (hi rangedir)) (max (lo rangedir) (hi rangedir))
        (EB2.brentLoop f rangedir fuel (EB2.brentInit lo hi rangedir f))) ∧
    (∀ t : EB2.BrentState R dim, ¬ EB2.brentConverged rangedir t →
      min (t.bPt rangedir) t.c ≤ EB2.brentNewB rangedir t ∧
      EB2.brentNewB rangedir t ≤ max (t.bPt rangedir) t.c) := by
  have hlo : min (lo rangedir) (hi rangedir) ≤ lo rangedir ∧
      lo rangedir ≤ max (lo rangedir) (hi rangedir) := ⟨min_le_left _ _, le_max_left _ _⟩
  have hhi : min (lo rangedir) (hi rangedir) ≤ hi rangedir ∧
      hi rangedir ≤ max (lo rangedir) (hi rangedir) := ⟨min_le_right _ _, le_max_right _ _⟩
  have hinit : EB2.InRange rangedir (min (lo rangedir) (hi rangedir))
      (max (lo rangedir) (hi rangedir)) (EB2.brentInit lo hi rangedir f) := ⟨hlo, hhi, hhi⟩
  have hloop : ∀ fuel : Nat,
      EB2.InRange rangedir (min (lo rangedir) (hi rangedir)) (max (lo rangedir) (hi rangedir))
        (EB2.brentLoop f rangedir fuel (EB2.brentInit lo hi rangedir f)) :=
    fun fuel => EB2.brentLoop_inRange f rangedir _ _ fuel _ hinit
  refine ⟨?_, hloop, ?_⟩
  · unfold EB2.BrentRootFinder EB2.IF_f
    rw [mul_comm (f hi) (f lo), if_neg (not_lt.mpr hbr)]
    split
    · exact hlo
    · split
      · exact hhi
      · exact (hloop EB2.MAXITER).2.1
  · intro t hnc
    rcases EB2.brentNewB_between rangedir t hnc with ⟨h1, h2⟩ | ⟨h1, h2⟩
    · exact ⟨le_trans (min_le_left _ _) h1, le_trans h2 (le_max_right _ _)⟩
    · exact ⟨le_trans (min_le_right _ _) h1, le_trans h2 (le_max_left _ _)⟩

/-- Witness of C21: `x - 1/2` changes sign on `[0, 1]`, so the value returned
for these end points lies in `[0, 1]`. -/
theorem brent_value_in_bracket_witness :
    lineIF linePt0 * lineIF linePt1 ≤ 0 ∧
    min (linePt0 0) (linePt1 0) ≤ (EB2.BrentRootFinder linePt0 linePt1 0 lineIF).value ∧
    (EB2.BrentRootFinder linePt0 linePt1 0 lineIF).value ≤ max (linePt0 0) (linePt1 0) :=
  ⟨by norm_num [lineIF, linePt0, linePt1],
    (brent_value_in_bracket linePt0 linePt1 0 lineIF
      (by norm_num [lineIF, linePt0, linePt1])).1⟩

/-- C22.  In exact arithmetic, for every `f` with `f(lo) * f(hi) < 0`, at every
convergence check of `BrentRootFinder` the stored `fb` and `fc` are the values
of `f` at the current estimate `b` and at the contrapoint `c` (at points with
these coordinates along `rangedir`, the other coordinates being those of `lo`
or `hi`), and `fb * fc ≤ 0` and `|fb| ≤ |fc|`.  Hence, when the loop stops by
its convergence test, the returned `r = b` has `f(r) == 0` or there is a `y`
with `|y - r| ≤ 2 * tol1`, `tol1 = 2 * EPS * |r| + 0.5 * tol`, such that `f`
changes sign between `r` and `y`.  For end points that differ only in the
coordinate `rangedir`, as at the call sites, these are the values of `f` along
the search line, and `fb` is `f(bPt)`. -/
theorem brent_bracket_at_checks {R : Type} [LinearOrderedField R] {dim : Nat}
    (lo hi : EB2.GpuArray R dim) (rangedir : Fin dim) (f : EB2.GpuArray R dim → R)
    (hbr : f lo * f hi < 0) :
    (∀ t ∈ EB2.brentChecks f rangedir EB2.MAXITER (EB2.brentInit lo hi rangedir f),
      EB2.SampleAt f lo hi rangedir (t.bPt rangedir) t.fb ∧
      EB2.SampleAt f lo hi rangedir t.c t.fc ∧
      t.fb * t.fc ≤ 0 ∧ |t.fb| ≤ |t.fc|) ∧
    ((EB2.BrentRootFinder lo hi rangedir f).converged = true →
      ∃ vr : R,
        EB2.SampleAt f lo hi rangedir (EB2.BrentRootFinder lo hi rangedir f).value vr ∧
        (vr = 0 ∨ ∃ y vy : R, EB2.SampleAt f lo hi rangedir y vy ∧
          |y - (EB2.BrentRootFinder lo hi rangedir f).value| ≤
            2 * (2 * EB2.EPS * |(EB2.BrentRootFinder lo hi rangedir f).value| +
              1 / 2 * EB2.tol) ∧
          vr * vy ≤ 0)) ∧
    ((∀ j, j ≠ rangedir → hi j = lo j) →
      (∀ t ∈ EB2.brentChecks f rangedir EB2.MAXITER (EB2.brentInit lo hi rangedir f),
        t.fb = f t.bPt ∧
        t.fb = EB2.alongLine f lo rangedir (t.bPt rangedir) ∧
        t.fc = EB2.alongLine f lo rangedir t.c ∧
        EB2.alongLine f lo rangedir (t.bPt rangedir) * EB2.alongLine f lo rangedir t.c ≤ 0 ∧
        |EB2.alongLine f lo rangedir (t.bPt rangedir)| ≤
          |EB2.alongLine f lo rangedir t.c|) ∧
      ((EB2.BrentRootFinder lo hi rangedir f).converged = true →
        EB2.alongLine f lo rangedir (EB2.BrentRootFinder lo hi rangedir f).value = 0 ∨
        ∃ y : R,
          |y - (EB2.BrentRootFinder lo hi rangedir f).value| ≤
            2 * (2 * EB2.EPS * |(EB2.BrentRootFinder lo hi rangedir f).value| +
              1 / 2 * EB2.tol) ∧
          EB2.alongLine f lo rangedir (EB2.BrentRootFinder lo hi rangedir f).value *
            EB2.alongLine f lo rangedir y ≤ 0)) := by
  obtain ⟨iT, iS⟩ := EB2.brentInit_inv lo hi rangedir f hbr
  have hchk := EB2.brentChecks_inv f lo hi rangedir EB2.MAXITER _ iT iS
  have hflo : f lo ≠ 0 := by
    intro h
    rw [h, zero_mul] at hbr
    exact lt_irrefl _ hbr
  have hfhi : f hi ≠ 0 := by
    intro h
    rw [h, mul_zero] at hbr
    exact lt_irrefl _ hbr
  have hres : EB2.BrentRootFinder lo hi rangedir f =
      { value := (EB2.brentLoop f rangedir EB2.MAXITER
          (EB2.brentInit lo hi rangedir f)).bPt rangedir
        error :=
          if EB2.MAXITER ≤ (EB2.brentLoop f rangedir EB2.MAXITER
              (EB2.brentInit lo hi rangedir f)).i then
            some EB2.BrentError.maxIterations
          else none
        iters := (EB2.brentLoop f rangedir EB2.MAXITER (EB2.brentInit lo hi rangedir f)).iters
        evals := (EB2.brentLoop f rangedir EB2.MAXITER (EB2.brentInit lo hi rangedir f)).evals
        converged :=
          (EB2.brentLoop f rangedir EB2.MAXITER (EB2.brentInit lo hi rangedir f)).converged } := by
    unfold EB2.BrentRootFinder EB2.IF_f
    rw [mul_comm (f hi) (f lo), if_neg (not_lt.mpr hbr.le), if_neg hflo, if_neg hfhi]
  have hfin : (EB2.BrentRootFinder lo hi rangedir f).converged = true →
      ∃ x : EB2.BrentState R dim,
        (EB2.BrentRootFinder lo hi rangedir f).value = x.bPt rangedir ∧
        x.fb * x.fc ≤ 0 ∧ EB2.Sampled f lo hi rangedir x ∧
        (x.fb = 0 ∨ |x.c - x.bPt rangedir| ≤
          2 * (2 * EB2.EPS * |x.bPt rangedir| + 1 / 2 * EB2.tol)) := by
    intro hc
    rw [hres] at hc ⊢
    obtain ⟨f1, _, f3, f4⟩ := EB2.brentLoop_final f lo hi rangedir EB2.MAXITER _ iT iS rfl hc
    exact ⟨_, rfl, f1, f3, EB2.brentConverged_dist rangedir _ f4⟩
  refine ⟨?_, ?_, ?_⟩
  · intro t ht
    obtain ⟨h1, h2, _, sb, sc, _⟩ := hchk t ht
    exact ⟨sb, sc, h1, h2⟩
  · intro hc
    obtain ⟨x, ev, hb, ⟨_, sb, sc, _⟩, hd⟩ := hfin hc
    rw [ev]
    refine ⟨x.fb, sb, ?_⟩
    rcases hd with h0 | hd
    · exact Or.inl h0
    · exact Or.inr ⟨x.c, x.fc, sc, hd, hb⟩
  · intro hline
    constructor
    · intro t ht
      obtain ⟨h1, h2, _, sb, sc, so⟩ := hchk t ht
      have eb := sampleAt_line f lo hi rangedir hline _ _ sb
      have ec := sampleAt_line f lo hi rangedir hline _ _ sc
      refine ⟨?_, eb, ec, ?_, ?_⟩
      · have e1 : t.bPt = Function.update lo rangedir (t.bPt rangedir) := by
          rw [← update_line lo hi rangedir hline, ← so, Function.update_eq_self]
        rw [eb]
        unfold EB2.alongLine
        rw [← e1]
      · rw [← eb, ← ec]
        exact h1
      · rw [← eb, ← ec]
        exact h2
    · intro hc
      obtain ⟨x, ev, hb, ⟨_, sb, sc, _⟩, hd⟩ := hfin hc
      have eb := sampleAt_line f lo hi rangedir hline _ _ sb
      have ec := sampleAt_line f lo hi rangedir hline _ _ sc
      rw [ev]
      rcases hd with h0 | hd
      · left
        rw [← eb]
        exact h0
      · right
        refine ⟨x.c, hd, ?_⟩
        rw [← eb, ← ec]
        exact hb

/-- Witness of C22: for `x - 1/2` between `1/2 - 2.5e-13` and `1/2 + 2.5e-13`
the loop stops by its convergence test, and the value returned is a zero of
the function or has a sign change within `2 * tol1`. -/
theorem brent_bracket_at_checks_witness :
    lineIF nearLo * lineIF nearHi < 0 ∧
    (EB2.BrentRootFinder nearLo nearHi 0 lineIF).converged = true ∧
    (EB2.alongLine lineIF nearLo 0 (EB2.BrentRootFinder nearLo nearHi 0 lineIF).value = 0 ∨
      ∃ y : ℚ,
        |y - (EB2.BrentRootFinder nearLo nearHi 0 lineIF).value| ≤
          2 * (2 * EB2.EPS * |(EB2.BrentRootFinder nearLo nearHi 0 lineIF).value| +
            1 / 2 * EB2.tol) ∧
        EB2.alongLine lineIF nearLo 0 (EB2.BrentRootFinder nearLo nearHi 0 lineIF).value *
          EB2.alongLine lineIF nearLo 0 y ≤ 0) := by
  have hbr : lineIF nearLo * lineIF nearHi < 0 := by
    norm_num [lineIF, nearLo, nearHi]
  have hc : EB2.brentConverged 0
      (EB2.brentSwap 0 (EB2.brentRename 0 (EB2.brentInit nearLo nearHi 0 lineIF))) := by
    norm_num [EB2.brentConverged, EB2.brentSwap, EB2.brentRename, EB2.brentInit,
      EB2.IF_f, EB2.brentXm, EB2.brentTol1, EB2.EPS, EB2.tol, lineIF, nearLo, nearHi,
      abs_div, abs_mul, abs_neg, Nat.abs_ofNat]
  have hb : (EB2.brentBody lineIF 0 (EB2.brentInit nearLo nearHi 0 lineIF)).converged = true := by
    unfold EB2.brentBody
    rw [if_pos hc]
  have hl : (EB2.brentLoop lineIF 0 EB2.MAXITER
      (EB2.brentInit nearLo nearHi 0 lineIF)).converged = true := by
    have e : EB2.brentLoop lineIF 0 EB2.MAXITER (EB2.brentInit nearLo nearHi 0 lineIF) =
        EB2.brentBody lineIF 0 (EB2.brentInit nearLo nearHi 0 lineIF) :=
      EB2.brentLoop_of_body_converged lineIF 0 99 _ hb
    rw [e]
    exact hb
  have hconv : (EB2.BrentRootFinder nearLo nearHi 0 lineIF).converged = true := by
    unfold EB2.BrentRootFinder
    rw [if_neg (by norm_num [EB2.IF_f, lineIF, nearLo, nearHi]),
      if_neg (by norm_num [EB2.IF_f, lineIF, nearLo, nearHi]),
      if_neg (by norm_num [EB2.IF_f, lineIF, nearLo, nearHi])]
    exact hl
  exact ⟨hbr, hconv,
    ((brent_bracket_at_checks nearLo nearHi 0 lineIF hbr).2.2
      (fun j hj => absurd (Subsingleton.elim j 0) hj)).2 hconv⟩

/-- C23.  `BrentRootFinder` never divides by zero.  In every state `t` in which
a loop body makes its convergence check (from any starting state, so in
particular in a run from the end points with at most `MAXITER` bodies), none of
the divisors of the divisions executed after the check is zero; and whenever
the loop goes on and the interpolation branch executes, `fa ≠ 0` (because
`|fa| > |fb|`), `fc ≠ 0` (because `|fc| ≥ |fb|` after the swap and `fb ≠ 0`
after the convergence break), and the acceptance test
`2p < min(3*xm*q - |tol1*q|, |e*q|)`, under which alone `d = p / q` is
computed, forces `q ≠ 0`. -/
theorem brent_no_division_by_zero {R : Type} [LinearOrderedField R] {dim : Nat}
    (f : EB2.GpuArray R dim → R) (rangedir : Fin dim) (fuel : Nat)
    (s0 t : EB2.BrentState R dim) (ht : t ∈ EB2.brentChecks f rangedir fuel s0) :
    (∀ x ∈ EB2.brentDivisors rangedir t, x ≠ 0) ∧
    (¬ EB2.brentConverged rangedir t →
      EB2.brentTol1 rangedir t ≤ |t.e| ∧ |t.fb| < |t.fa| →
        t.fa ≠ 0 ∧ t.fc ≠ 0 ∧
        (EB2.brentAccept rangedir t → EB2.brentQ rangedir t ≠ 0)) := by
  obtain ⟨u, rfl⟩ := EB2.brentChecks_swap f rangedir fuel s0 t ht
  exact ⟨EB2.brentDivisors_ne_zero rangedir u, EB2.brentSwap_denominators rangedir u⟩

/-- Witness of C23: in the run for `x - 1/2` on `[0, 2]` the first convergence
check finds `b = 0`, `c = 2`, `fb = -1/2`; the loop goes on, the interpolation
branch executes and its step is accepted, and the three divisors `fa`, `fc`
and `q` are not zero. -/
theorem brent_no_division_by_zero_witness :
    firstCheck ∈ EB2.brentChecks lineIF 0 EB2.MAXITER (EB2.brentInit linePt0 linePt2 0 lineIF) ∧
    (¬ EB2.brentConverged 0 firstCheck ∧
      (EB2.brentTol1 0 firstCheck ≤ |firstCheck.e| ∧ |firstCheck.fb| < |firstCheck.fa|) ∧
      EB2.brentAccept 0 firstCheck) ∧
    (firstCheck.fa ≠ 0 ∧ firstCheck.fc ≠ 0 ∧ EB2.brentQ 0 firstCheck ≠ 0) := by
  have hmem : firstCheck ∈
      EB2.brentChecks lineIF 0 EB2.MAXITER (EB2.brentInit linePt0 linePt2 0 lineIF) :=
    List.mem_cons_self _ _
  have hnc : ¬ EB2.brentConverged 0 firstCheck := by
    norm_num [firstCheck, EB2.brentConverged, EB2.brentSwap, EB2.brentRename, EB2.brentInit,
      EB2.IF_f, EB2.brentXm, EB2.brentTol1, EB2.EPS, EB2.tol, lineIF, linePt0, linePt2,
      abs_div, abs_mul, abs_neg, Nat.abs_ofNat]
  have hin : EB2.brentTol1 0 firstCheck ≤ |firstCheck.e| ∧
      |firstCheck.fb| < |firstCheck.fa| := by
    norm_num [firstCheck, EB2.brentSwap, EB2.brentRename, EB2.brentInit,
      EB2.IF_f, EB2.brentTol1, EB2.EPS, EB2.tol, lineIF, linePt0, linePt2,
      abs_div, abs_mul, abs_neg, Nat.abs_ofNat]
  have hacc : EB2.brentAccept 0 firstCheck := by
    norm_num [firstCheck, EB2.brentAccept, EB2.brentP, EB2.brentQ, EB2.brentPQ,
      EB2.brentSwap, EB2.brentRename, EB2.brentInit, EB2.IF_f,
      EB2.brentXm, EB2.brentTol1, EB2.EPS, EB2.tol, lineIF, linePt0, linePt2,
      abs_div, abs_mul, abs_neg, Nat.abs_ofNat]
  have h := (brent_no_division_by_zero lineIF 0 EB2.MAXITER
    (EB2.brentInit linePt0 linePt2 0 lineIF) firstCheck hmem).2 hnc hin
  exact ⟨hmem, ⟨hnc, hin, hacc⟩, h.1, h.2.1, h.2.2 hacc⟩

/-- C24, amended.  With `S` the lattice nodes `cpuNodes len3` of the box (the
indices `0 ≤ i < len3[0]`, `0 ≤ j < len3[1]`, `0 ≤ k < len3[2]`) and
`cpuValue` the sample of `f` at a node, `getBoxType_Cpu` returns `mixedcells`
(0) iff some node has `f > 0` and some node has a sample that is neither
`== 0` nor `> 0`, that is `f < 0` or NaN; it returns `allregular` (-1) iff no
node has `f > 0`, which includes the empty box and the box whose samples are
all 0; it returns `allcovered` (1) iff some node has `f > 0` and no node has
`f < 0` or NaN; and the final `else` after the loops is never the `return`
taken.  When no sample is NaN, `mixedcells` is returned iff some node has
`f > 0` and some node has `f < 0`, and `allcovered` iff some node has `f > 0`
and none has `f < 0`. -/
theorem getBoxType_Cpu_classification {R : Type} [LinearOrderedField R]
    (f : R → R → R → Option R) (problo dx : Fin 3 → R) (blo len3 : Fin 3 → Int) :
    (EB2.mixedcells = 0 ∧ EB2.allregular = -1 ∧ EB2.allcovered = 1) ∧
    (∀ i j k : Int, (i, j, k) ∈ EB2.cpuNodes len3 ↔
      (0 ≤ i ∧ i < len3 0) ∧ (0 ≤ j ∧ j < len3 1) ∧ (0 ≤ k ∧ k < len3 2)) ∧
    ((EB2.getBoxType_Cpu f problo dx blo len3).1 = EB2.mixedcells ↔
      (∃ n ∈ EB2.cpuNodes len3, EB2.isPos (EB2.cpuValue f problo dx blo n) = true) ∧
      (∃ n ∈ EB2.cpuNodes len3, EB2.isNeg (EB2.cpuValue f problo dx blo n) = true ∨
        EB2.cpuValue f problo dx blo n = none)) ∧
    ((EB2.getBoxType_Cpu f problo dx blo len3).1 = EB2.allregular ↔
      ¬ ∃ n ∈ EB2.cpuNodes len3, EB2.isPos (EB2.cpuValue f problo dx blo n) = true) ∧
    ((EB2.getBoxType_Cpu f problo dx blo len3).1 = EB2.allcovered ↔
      (∃ n ∈ EB2.cpuNodes len3, EB2.isPos (EB2.cpuValue f problo dx blo n) = true) ∧
      ¬ ∃ n ∈ EB2.cpuNodes len3, EB2.isNeg (EB2.cpuValue f problo dx blo n) = true ∨
        EB2.cpuValue f problo dx blo n = none) ∧
    ((∃ d, len3 d ≤ 0) →
      (EB2.getBoxType_Cpu f problo dx blo len3).1 = EB2.allregular) ∧
    ((∀ n ∈ EB2.cpuNodes len3, EB2.cpuValue f problo dx blo n = some 0) →
      (EB2.getBoxType_Cpu f problo dx blo len3).1 = EB2.allregular) ∧
    (EB2.getBoxType_Cpu f problo dx blo len3).2 ≠ EB2.BoxReturn.finalElse ∧
    ((∀ n ∈ EB2.cpuNodes len3, EB2.cpuValue f problo dx blo n ≠ none) →
      ((EB2.getBoxType_Cpu f problo dx blo len3).1 = EB2.mixedcells ↔
        (∃ n ∈ EB2.cpuNodes len3, EB2.isPos (EB2.cpuValue f problo dx blo n) = true) ∧
        (∃ n ∈ EB2.cpuNodes len3, EB2.isNeg (EB2.cpuValue f problo dx blo n) = true)) ∧
      ((EB2.getBoxType_Cpu f problo dx blo len3).1 = EB2.allcovered ↔
        (∃ n ∈ EB2.cpuNodes len3, EB2.isPos (EB2.cpuValue f problo dx blo n) = true) ∧
        ¬ ∃ n ∈ EB2.cpuNodes len3, EB2.isNeg (EB2.cpuValue f problo dx blo n) = true)) := by
  obtain ⟨hm, hr, hc, hf⟩ := EB2.getBoxType_Cpu_nodes f problo dx blo len3
  refine ⟨⟨rfl, rfl, rfl⟩, EB2.mem_cpuNodes len3, hm, hr, hc, ?_, ?_, hf, ?_⟩
  · intro he
    apply hr.mpr
    rintro ⟨n, hn, _⟩
    rw [EB2.cpuNodes_empty len3 he] at hn
    exact absurd hn (List.not_mem_nil n)
  · intro hz
    apply hr.mpr
    rintro ⟨n, hn, hpos⟩
    rw [hz n hn] at hpos
    simp [EB2.isPos] at hpos
  · intro hnan
    have e : (∃ n ∈ EB2.cpuNodes len3, EB2.isNeg (EB2.cpuValue f problo dx blo n) = true ∨
        EB2.cpuValue f problo dx blo n = none) ↔
        ∃ n ∈ EB2.cpuNodes len3, EB2.isNeg (EB2.cpuValue f problo dx blo n) = true := by
      constructor
      · rintro ⟨n, hn, h | h⟩
        · exact ⟨n, hn, h⟩
        · exact absurd h (hnan n hn)
      · rintro ⟨n, hn, h⟩
        exact ⟨n, hn, Or.inl h⟩
    rw [e] at hm hc
    exact ⟨hm, hc⟩

/-- Witness of C24: on the box of the two nodes `x = 0` and `x = 1` the
function `x - 1/2` has no NaN sample, is negative at the first node and
positive at the second, so `getBoxType_Cpu` returns `mixedcells`. -/
theorem getBoxType_Cpu_classification_witness :
    (∀ n ∈ EB2.cpuNodes twoNodes, EB2.cpuValue planeIF zeroVec unitVec originLo n ≠ none) ∧
    (∃ n ∈ EB2.cpuNodes twoNodes,
      EB2.isPos (EB2.cpuValue planeIF zeroVec unitVec originLo n) = true) ∧
    (∃ n ∈ EB2.cpuNodes twoNodes,
      EB2.isNeg (EB2.cpuValue planeIF zeroVec unitVec originLo n) = true) ∧
    (EB2.getBoxType_Cpu planeIF zeroVec unitVec originLo twoNodes).1 = 0 := by
  have hnan : ∀ n ∈ EB2.cpuNodes twoNodes,
      EB2.cpuValue planeIF zeroVec unitVec originLo n ≠ none := by
    intro n _
    simp [EB2.cpuValue, planeIF]
  have hp : ∃ n ∈ EB2.cpuNodes twoNodes,
      EB2.isPos (EB2.cpuValue planeIF zeroVec unitVec originLo n) = true :=
    ⟨(1, 0, 0), (EB2.mem_cpuNodes twoNodes 1 0 0).mpr (by decide),
      by norm_num [EB2.cpuValue, EB2.isPos, planeIF, zeroVec, unitVec, originLo]⟩
  have hn : ∃ n ∈ EB2.cpuNodes twoNodes,
      EB2.isNeg (EB2.cpuValue planeIF zeroVec unitVec originLo n) = true :=
    ⟨(0, 0, 0), (EB2.mem_cpuNodes twoNodes 0 0 0).mpr (by decide),
      by norm_num [EB2.cpuValue, EB2.isNeg, planeIF, zeroVec, unitVec, originLo]⟩
  exact ⟨hnan, hp, hn,
    ((getBoxType_Cpu_classification planeIF zeroVec unitVec originLo
      twoNodes).2.2.2.2.2.2.2.2 hnan).1.mpr ⟨hp, hn⟩⟩

/-- Counterexample to C24 as stated: on the box of the two nodes `x = 0` and
`x = 1`, a function that is NaN at the first node and 1 at the second makes
`getBoxType_Cpu` return `mixedcells` although some node has `f > 0` and no
node has `f < 0`, where the claim has `allcovered`. -/
theorem getBoxType_Cpu_nan_is_mixed :
    (EB2.getBoxType_Cpu nanIF zeroVec unitVec originLo twoNodes).1 = EB2.mixedcells ∧
    (EB2.getBoxType_Cpu nanIF zeroVec unitVec originLo twoNodes).1 ≠ EB2.allcovered ∧
    (∃ n ∈ EB2.cpuNodes twoNodes,
      EB2.isPos (EB2.cpuValue nanIF zeroVec unitVec originLo n) = true) ∧
    ¬ ∃ n ∈ EB2.cpuNodes twoNodes,
      EB2.isNeg (EB2.cpuValue nanIF zeroVec unitVec originLo n) = true := by
  have hp : ∃ n ∈ EB2.cpuNodes twoNodes,
      EB2.isPos (EB2.cpuValue nanIF zeroVec unitVec originLo n) = true :=
    ⟨(1, 0, 0), (EB2.mem_cpuNodes twoNodes 1 0 0).mpr (by decide),
      by norm_num [EB2.cpuValue, EB2.isPos, nanIF, zeroVec, unitVec, originLo]⟩
  have hnan : ∃ n ∈ EB2.cpuNodes twoNodes,
      EB2.isNeg (EB2.cpuValue nanIF zeroVec unitVec originLo n) = true ∨
        EB2.cpuValue nanIF zeroVec unitVec originLo n = none :=
    ⟨(0, 0, 0), (EB2.mem_cpuNodes twoNodes 0 0 0).mpr (by decide),
      Or.inr (by norm_num [EB2.cpuValue, nanIF, zeroVec, unitVec, originLo])⟩
  have hmix := (EB2.getBoxType_Cpu_nodes nanIF zeroVec unitVec originLo twoNodes).1.mpr
    ⟨hp, hnan⟩
  refine ⟨hmix, ?_, hp, ?_⟩
  · rw [hmix]
    decide
  · rintro ⟨n, _, h⟩
    unfold EB2.cpuValue nanIF at h
    split_ifs at h
    · simp [EB2.isNeg] at h
    · simp only [EB2.isNeg, decide_eq_true_eq] at h
      exact absurd h (by norm_num)

/-- C25.  For a GPU-able implicit function the full-reduction branch of
`getBoxType` (sum the per-cell counts over the whole box, classify afterwards)
returns what `getBoxType_Cpu` returns with its early return, so `getBoxType`
gives the same classification for every `run_on` and whatever
`Gpu::inLaunchRegion()` answers; also when samples are NaN, which both
branches count as fluid. -/
theorem getBoxType_independent_of_run_on {R : Type} [LinearOrderedField R]
    (f : R → R → R → Option R) (problo dx : Fin 3 → R) (blo len3 : Fin 3 → Int) :
    EB2.getBoxType_Gpu f problo dx blo len3 = (EB2.getBoxType_Cpu f problo dx blo len3).1 ∧
    (∀ (run_on : EB2.RunOn) (inLaunchRegion : Bool),
      EB2.getBoxType f problo dx blo len3 run_on inLaunchRegion =
        (EB2.getBoxType_Cpu f problo dx blo len3).1) ∧
    (∀ (inLaunchRegion : Bool),
      EB2.getBoxType f problo dx blo len3 EB2.RunOn.Gpu inLaunchRegion =
        EB2.getBoxType f problo dx blo len3 EB2.RunOn.Cpu inLaunchRegion) := by
  have key : ∀ (run_on : EB2.RunOn) (inLaunchRegion : Bool),
      EB2.getBoxType f problo dx blo len3 run_on inLaunchRegion =
        (EB2.getBoxType_Cpu f problo dx blo len3).1 := by
    intro run_on inLaunchRegion
    unfold EB2.getBoxType
    split
    · exact EB2.getBoxType_Gpu_eq_Cpu f problo dx blo len3
    · rfl
  refine ⟨EB2.getBoxType_Gpu_eq_Cpu f problo dx blo len3, key, ?_⟩
  intro b
  rw [key, key]

/-- C26.  For `Array2D` and `Array3D` with `XLO ≤ XHI`, `YLO ≤ YHI` (and
`ZLO ≤ ZHI`), the subscript computed by `operator()` equals
`(i - XLO) + nx*(j - YLO) (+ nx*ny*(k - ZLO))` with `nx = XHI - XLO + 1` and
`ny = YHI - YLO + 1`; on the indices inside the declared bounds it lies in
`[0, size of arr)`, it is injective, and every offset of `[0, size of arr)` is
the offset of an in-bounds index. -/
theorem array_offset_bijection (XLO XHI YLO YHI ZLO ZHI : Int)
    (hx : XLO ≤ XHI) (hy : YLO ≤ YHI) (hz : ZLO ≤ ZHI) :
    ((∀ i j : Int, Array2D.offset XLO XHI YLO i j =
        (i - XLO) + (XHI - XLO + 1) * (j - YLO)) ∧
      (∀ i j : Int, Array2D.InBounds XLO XHI YLO YHI i j →
        0 ≤ Array2D.offset XLO XHI YLO i j ∧
        Array2D.offset XLO XHI YLO i j < Array2D.size XLO XHI YLO YHI) ∧
      (∀ i j i' j' : Int, Array2D.InBounds XLO XHI YLO YHI i j →
        Array2D.InBounds XLO XHI YLO YHI i' j' →
        Array2D.offset XLO XHI YLO i j = Array2D.offset XLO XHI YLO i' j' →
        i = i' ∧ j = j') ∧
      (∀ o : Int, 0 ≤ o → o < Array2D.size XLO XHI YLO YHI →
        ∃ i j : Int, Array2D.InBounds XLO XHI YLO YHI i j ∧
          Array2D.offset XLO XHI YLO i j = o)) ∧
    ((∀ i j k : Int, Array3D.offset XLO XHI YLO YHI ZLO i j k =
        (i - XLO) + (XHI - XLO + 1) * (j - YLO) +
          (XHI - XLO + 1) * (YHI - YLO + 1) * (k - ZLO)) ∧
      (∀ i j k : Int, Array3D.InBounds XLO XHI YLO YHI ZLO ZHI i j k →
        0 ≤ Array3D.offset XLO XHI YLO YHI ZLO i j k ∧
        Array3D.offset XLO XHI YLO YHI ZLO i j k <
          Array3D.size XLO XHI YLO YHI ZLO ZHI) ∧
      (∀ i j k i' j' k' : Int, Array3D.InBounds XLO XHI YLO YHI ZLO ZHI i j k →
        Array3D.InBounds XLO XHI YLO YHI ZLO ZHI i' j' k' →
        Array3D.offset XLO XHI YLO YHI ZLO i j k =
          Array3D.offset XLO XHI YLO YHI ZLO i' j' k' →
        i = i' ∧ j = j' ∧ k = k') ∧
      (∀ o : Int, 0 ≤ o → o < Array3D.size XLO XHI YLO YHI ZLO ZHI →
        ∃ i j k : Int, Array3D.InBounds XLO XHI YLO YHI ZLO ZHI i j k ∧
          Array3D.offset XLO XHI YLO YHI ZLO i j k = o)) := by
  have hnx : 0 < XHI - XLO + 1 := by omega
  have hny : 0 < YHI - YLO + 1 := by omega
  have hnz : 0 < ZHI - ZLO + 1 := by omega
  have f2 : ∀ i j : Int, Array2D.offset XLO XHI YLO i j =
      (i - XLO) + (j - YLO) * (XHI - XLO + 1) := by
    intro i j
    unfold Array2D.offset
    ring
  have f3 : ∀ i j k : Int, Array3D.offset XLO XHI YLO YHI ZLO i j k =
      ((i - XLO) + (j - YLO) * (XHI - XLO + 1)) +
        (k - ZLO) * ((XHI - XLO + 1) * (YHI - YLO + 1)) := by
    intro i j k
    unfold Array3D.offset
    ring
  have b2 : ∀ i j : Int, Array2D.InBounds XLO XHI YLO YHI i j →
      0 ≤ (i - XLO) + (j - YLO) * (XHI - XLO + 1) ∧
      (i - XLO) + (j - YLO) * (XHI - XLO + 1) < (XHI - XLO + 1) * (YHI - YLO + 1) := by
    intro i j h
    obtain ⟨h1, h2, h3, h4⟩ := h
    exact radix_bounds _ _ _ _ (by omega) (by omega) (by omega) (by omega)
  refine ⟨⟨?_, ?_, ?_, ?_⟩, ⟨?_, ?_, ?_, ?_⟩⟩
  · intro i j
    rw [f2]
    ring
  · intro i j h
    rw [f2]
    exact b2 i j h
  · intro i j i' j' h h' e
    rw [f2, f2] at e
    obtain ⟨h1, h2, h3, h4⟩ := h
    obtain ⟨h1', h2', h3', h4'⟩ := h'
    have := NodeHardware.radix_unique (i - XLO) (i' - XLO) (j - YLO) (j' - YLO)
      (XHI - XLO + 1) (by omega) (by omega) (by omega) (by omega) e
    constructor <;> omega
  · intro o ho0 ho
    obtain ⟨x, y, hx0, hx1, hy0, hy1, e⟩ := radix_surj o _ _ hnx ho0 ho
    refine ⟨x + XLO, y + YLO, ⟨by omega, by omega, by omega, by omega⟩, ?_⟩
    rw [f2, ← e]
    ring
  · intro i j k
    rw [f3]
    ring
  · intro i j k h
    rw [f3]
    obtain ⟨h1, h2, h3, h4, h5, h6⟩ := h
    obtain ⟨hb0, hb1⟩ := b2 i j ⟨h1, h2, h3, h4⟩
    unfold Array3D.size
    exact radix_bounds _ _ _ _ hb0 hb1 (by omega) (by omega)
  · intro i j k i' j' k' h h' e
    rw [f3, f3] at e
    obtain ⟨h1, h2, h3, h4, h5, h6⟩ := h
    obtain ⟨h1', h2', h3', h4', h5', h6'⟩ := h'
    obtain ⟨hb0, hb1⟩ := b2 i j ⟨h1, h2, h3, h4⟩
    obtain ⟨hb0', hb1'⟩ := b2 i' j' ⟨h1', h2', h3', h4'⟩
    obtain ⟨e1, e2⟩ := NodeHardware.radix_unique _ _ (k - ZLO) (k' - ZLO)
      ((XHI - XLO + 1) * (YHI - YLO + 1)) hb0 hb1 hb0' hb1' e
    have := NodeHardware.radix_unique (i - XLO) (i' - XLO) (j - YLO) (j' - YLO)
      (XHI - XLO + 1) (by omega) (by omega) (by omega) (by omega) e1
    refine ⟨?_, ?_, ?_⟩ <;> omega
  · intro o ho0 ho
    unfold Array3D.size at ho
    obtain ⟨w, z, hw0, hw1, hz0, hz1, e⟩ :=
      radix_surj o _ _ (mul_pos hnx hny) ho0 ho
    obtain ⟨x, y, hx0, hx1, hy0, hy1, e'⟩ := radix_surj w _ _ hnx hw0 hw1
    refine ⟨x + XLO, y + YLO, z + ZLO,
      ⟨by omega, by omega, by omega, by omega, by omega, by omega⟩, ?_⟩
    rw [f3, ← e, ← e']
    ring

/-- Witness of C26 on `Array2D<T,1,3,0,1>` and `Array3D<T,1,3,0,1,-1,0>`: the
index `(3,1)` has offset 5 of 6, the index `(3,1,0)` has offset 11 of 12. -/
theorem array_offset_bijection_witness :
    ((1 : Int) ≤ 3 ∧ (0 : Int) ≤ 1 ∧ (-1 : Int) ≤ 0) ∧
    (0 ≤ Array2D.offset 1 3 0 3 1 ∧ Array2D.offset 1 3 0 3 1 < Array2D.size 1 3 0 1) ∧
    (0 ≤ Array3D.offset 1 3 0 1 (-1) 3 1 0 ∧
      Array3D.offset 1 3 0 1 (-1) 3 1 0 < Array3D.size 1 3 0 1 (-1) 0) ∧
    Array2D.offset 1 3 0 3 1 = 5 ∧ Array2D.size 1 3 0 1 = 6 ∧
    Array3D.offset 1 3 0 1 (-1) 3 1 0 = 11 ∧ Array3D.size 1 3 0 1 (-1) 0 = 12 :=
  ⟨by decide,
    (array_offset_bijection 1 3 0 1 (-1) 0 (by decide) (by decide) (by decide)).1.2.1 3 1
      (by decide),
    (array_offset_bijection 1 3 0 1 (-1) 0 (by decide) (by decide) (by decide)).2.2.1 3 1 0
      (by decide),
    by decide, by decide, by decide, by decide⟩

/-- C27.  For a `NodeHardware` with positive counts, every thread index `t` with
`0 ≤ t < thread_per_node()` has `0 ≤ core_of_thread(t) < core_per_node()` and
`0 ≤ numa_of_thread(t) < numa_per_node`, and every core index `c` with
`0 ≤ c < core_per_node()` has `0 ≤ numa_of_core(c) < numa_per_node`.  Only the
two divisors `thread_per_core` and `core_per_numa` need to be positive. -/
theorem nodeHardware_index_ranges (hw : NodeHardware)
    (htpc : 0 < hw.thread_per_core) (hcpn : 0 < hw.core_per_numa) :
    (∀ t : Int, 0 ≤ t → t < hw.thread_per_node →
      (0 ≤ hw.core_of_thread t ∧ hw.core_of_thread t < hw.core_per_node) ∧
      (0 ≤ hw.numa_of_thread t ∧ hw.numa_of_thread t < hw.numa_per_node)) ∧
    (∀ c : Int, 0 ≤ c → c < hw.core_per_node →
      0 ≤ hw.numa_of_core c ∧ hw.numa_of_core c < hw.numa_per_node) := by
  constructor
  · intro t ht0 ht
    unfold NodeHardware.thread_per_node at ht
    unfold NodeHardware.core_of_thread NodeHardware.numa_of_thread NodeHardware.core_per_node
    have hpos : 0 < hw.thread_per_core * hw.core_per_numa := mul_pos htpc hcpn
    rw [Int.tdiv_eq_ediv ht0 htpc.le, Int.tdiv_eq_ediv ht0 hpos.le]
    refine ⟨⟨Int.ediv_nonneg ht0 htpc.le, ?_⟩, ⟨Int.ediv_nonneg ht0 hpos.le, ?_⟩⟩
    · apply Int.ediv_lt_of_lt_mul htpc
      calc t < hw.thread_per_core * hw.core_per_numa * hw.numa_per_node := ht
        _ = hw.core_per_numa * hw.numa_per_node * hw.thread_per_core := by ring
    · apply Int.ediv_lt_of_lt_mul hpos
      calc t < hw.thread_per_core * hw.core_per_numa * hw.numa_per_node := ht
        _ = hw.numa_per_node * (hw.thread_per_core * hw.core_per_numa) := by ring
  · intro c hc0 hc
    unfold NodeHardware.core_per_node at hc
    unfold NodeHardware.numa_of_core
    rw [Int.tdiv_eq_ediv hc0 hcpn.le]
    refine ⟨Int.ediv_nonneg hc0 hcpn.le, ?_⟩
    apply Int.ediv_lt_of_lt_mul hcpn
    calc c < hw.core_per_numa * hw.numa_per_node := hc
      _ = hw.numa_per_node * hw.core_per_numa := by ring

/-- Witness of C27 on the dense node (2 threads per core, 4 cores per domain,
2 domains): thread 13 lies on core 6 in domain 1, and core 7 lies in domain 1. -/
theorem nodeHardware_index_ranges_witness :
    (0 < denseNode.thread_per_core ∧ 0 < denseNode.core_per_numa ∧
      0 < denseNode.numa_per_node) ∧
    ((0 ≤ denseNode.core_of_thread 13 ∧
        denseNode.core_of_thread 13 < denseNode.core_per_node) ∧
      (0 ≤ denseNode.numa_of_thread 13 ∧
        denseNode.numa_of_thread 13 < denseNode.numa_per_node)) ∧
    (0 ≤ denseNode.numa_of_core 7 ∧ denseNode.numa_of_core 7 < denseNode.numa_per_node) ∧
    denseNode.core_of_thread 13 = 6 ∧ denseNode.numa_of_thread 13 = 1 ∧
    denseNode.numa_of_core 7 = 1 :=
  ⟨by decide,
    (nodeHardware_index_ranges denseNode (by decide) (by decide)).1 13
      (by decide) (by decide),
    (nodeHardware_index_ranges denseNode (by decide) (by decide)).2 7
      (by decide) (by decide),
    by decide, by decide, by decide⟩

end Claims
